import Mathlib

/-!
Shallow embedding of the Hitori puzzle core (grid model, constraint engine,
hint engine and puzzle generator) of the `pwa-game-hitori` repository,
together with proofs of the specification claims about it.

JavaScript arrays are modelled as Lean lists; out-of-range indexing that the
source never performs is made total with `List.getD`.  JavaScript `Map`s
(which iterate in key-insertion order) are modelled as association lists with
an order-preserving upsert.  `Set<string>` keys of the form "r,c" are modelled
as lists of the decoded pairs (the encoding is injective, so membership
coincides).  Functions that `throw` are modelled in `Except String`.  The
global random source `Math.random()` is modelled possibilistically: every
place that draws a random integer below some bound `b` takes it from an
arbitrary function `Nat → Nat`, reduced modulo `b`; universally quantifying
over that function covers every behaviour of the random source.
-/

set_option maxHeartbeats 1600000

namespace Hitori

/-- Cell marking state (enum CellState in HitoriTypes.ts). -/
inductive CellState where
  | Unmarked
  | Shaded
  | Kept
  deriving DecidableEq, Repr, Inhabited

/-- A single cell (interface HitoriCell). -/
structure HitoriCell where
  row : Nat
  col : Nat
  value : Nat
  state : CellState
  deriving DecidableEq, Repr, Inhabited

/-- The play grid (interface HitoriGrid): always square, size x size. -/
structure HitoriGrid where
  size : Nat
  cells : List (List HitoriCell)
  deriving DecidableEq, Repr, Inhabited

/-- Core puzzle difficulty (type PuzzleDifficulty in HitoriPuzzle.ts). -/
inductive PuzzleDifficulty where
  | easy
  | medium
  | hard
  | expert
  deriving DecidableEq, Repr, Inhabited

/-- Puzzle definition (interface HitoriPuzzle in HitoriPuzzle.ts). -/
structure HitoriPuzzle where
  id : String
  size : Nat
  numbers : List (List Nat)
  difficulty : PuzzleDifficulty
  hasUniqueSolution : Option Bool
  deriving DecidableEq, Repr, Inhabited

/-- Generic total 2D read, `m[r][c]` with the JS code's in-bounds uses. -/
def get2 [Inhabited α] (m : List (List α)) (r c : Nat) : α :=
  (m.getD r []).getD c default

/-- Generic total 2D write, `m[r][c] = v`. -/
def set2 (m : List (List α)) (r c : Nat) (v : α) : List (List α) :=
  m.set r ((m.getD r []).set c v)

/-- Read a cell of a grid at (row, col). -/
def cellAt (g : HitoriGrid) (r c : Nat) : HitoriCell :=
  get2 g.cells r c

/-- Well-formedness of a 2D matrix: `rows` rows, each of length `cols`. -/
def dims2 (m : List (List α)) (rows cols : Nat) : Prop :=
  m.length = rows ∧ ∀ row ∈ m, row.length = cols

instance (m : List (List α)) (rows cols : Nat) : Decidable (dims2 m rows cols) := by
  unfold dims2; infer_instance

/-- Well-formedness of a grid: the cells matrix is size x size. -/
def gridWF (g : HitoriGrid) : Prop :=
  dims2 g.cells g.size g.size

instance (g : HitoriGrid) : Decidable (gridWF g) := by
  unfold gridWF; infer_instance

/-- createGridFromNumbers (HitoriTypes.ts): builds an all-Unmarked grid after
checking that the layout is square; throws on a malformed layout. -/
def createGridFromNumbers (numbers : List (List Nat)) : Except String HitoriGrid :=
  let size := numbers.length
  if size = 0 then
    .error "Hitori grid must have at least one row"
  else if numbers.any (fun row => row.length ≠ size) then
    .error "Hitori grid must be square (all rows same length as size)"
  else
    .ok { size := size
          cells := (List.range size).map (fun r =>
            (List.range size).map (fun c =>
              { row := r, col := c, value := get2 numbers r c, state := CellState.Unmarked })) }

/-- inBounds (HitoriTypes.ts). -/
def inBounds (grid : HitoriGrid) (row col : Int) : Bool :=
  decide (0 ≤ row) && decide (row < grid.size) && decide (0 ≤ col) && decide (col < grid.size)

/-- The live game state (interface HitoriGameState in HitoriState.ts). -/
structure HitoriGameState where
  puzzle : HitoriPuzzle
  grid : HitoriGrid
  moves : Nat
  startTime : Option Int
  elapsedMs : Int
  deriving DecidableEq, Repr, Inhabited

/-- Serializable snapshot (interface SerializableGameState). -/
structure SerializableGameState where
  puzzleId : String
  size : Nat
  cellStates : List (List CellState)
  moves : Nat
  elapsedMs : Int
  startTime : Option Int
  deriving DecidableEq, Repr, Inhabited

/-- createInitialState (HitoriState.ts). -/
def createInitialState (puzzle : HitoriPuzzle) : Except String HitoriGameState := do
  let grid ← createGridFromNumbers puzzle.numbers
  return { puzzle := puzzle, grid := grid, moves := 0, startTime := none, elapsedMs := 0 }

/-- getCell (HitoriState.ts): bounds-checked cell access; throws out of bounds.
Row and column are JS numbers, so they are taken as integers here. -/
def getCell (state : HitoriGameState) (row col : Int) : Except String HitoriCell :=
  if row < 0 ∨ col < 0 ∨ (state.grid.size : Int) ≤ row ∨ (state.grid.size : Int) ≤ col then
    .error "Cell out of bounds"
  else
    .ok (cellAt state.grid row.toNat col.toNat)

/-- setCellState (HitoriState.ts): pure update returning a new state.  In the
no-op branch (current state already equals the requested one) the source
deep-clones the grid and returns the wrapper WITHOUT incrementing `moves`. -/
def setCellState (state : HitoriGameState) (row col : Int) (newState : CellState) :
    Except String HitoriGameState := do
  let current ← getCell state row col
  if current.state = newState then
    return { state with
             grid := { state.grid with
                       cells := state.grid.cells.map (fun r => r.map (fun c => c)) } }
  else
    let r := row.toNat
    let c := col.toNat
    let newRow := (state.grid.cells.getD r []).set c { current with state := newState }
    let newCells := state.grid.cells.set r newRow
    return { state with
             grid := { size := state.grid.size, cells := newCells }
             moves := state.moves + 1 }

/-- cycleCellState (HitoriState.ts): Unmarked → Shaded → Kept → Unmarked. -/
def cycleCellState (state : HitoriGameState) (row col : Int) :
    Except String HitoriGameState := do
  let cell ← getCell state row col
  let next : CellState :=
    match cell.state with
    | CellState.Unmarked => CellState.Shaded
    | CellState.Shaded => CellState.Kept
    | CellState.Kept => CellState.Unmarked
  setCellState state row col next

/-- serializeState (HitoriState.ts). -/
def serializeState (state : HitoriGameState) : SerializableGameState :=
  { puzzleId := state.puzzle.id
    size := state.grid.size
    cellStates := state.grid.cells.map (fun row => row.map (fun cell => cell.state))
    moves := state.moves
    elapsedMs := state.elapsedMs
    startTime := state.startTime }

/-- deserializeState (HitoriState.ts): rebuilds a state from a snapshot plus
the base puzzle, checking puzzle id, declared size, and matrix dimensions. -/
def deserializeState (puzzle : HitoriPuzzle) (serialized : SerializableGameState) :
    Except String HitoriGameState := do
  if puzzle.id ≠ serialized.puzzleId then
    throw "Puzzle ID mismatch"
  if puzzle.size ≠ serialized.size then
    throw "Size mismatch when deserializing puzzle"
  let base ← createInitialState puzzle
  if serialized.cellStates.length ≠ puzzle.size ∨
      serialized.cellStates.any (fun row => row.length ≠ puzzle.size) then
    throw "Serialized cellStates does not match expected dimensions"
  let cells := (List.range base.grid.cells.length).map (fun r =>
    (List.range ((base.grid.cells.getD r []).length)).map (fun c =>
      { (get2 base.grid.cells r c) with state := get2 serialized.cellStates r c }))
  return { puzzle := puzzle
           grid := { size := puzzle.size, cells := cells }
           moves := serialized.moves
           elapsedMs := serialized.elapsedMs
           startTime := serialized.startTime }

/-- Cell position (interface CellPosition in HitoriRules.ts). -/
structure CellPosition where
  row : Nat
  col : Nat
  deriving DecidableEq, Repr, Inhabited

/-- Violation kinds (type RuleViolationKind). -/
inductive RuleViolationKind where
  | rowDuplicate
  | columnDuplicate
  | adjacentShaded
  | connectivity
  deriving DecidableEq, Repr, Inhabited

/-- A structured violation report entry (interface RuleViolation). -/
structure RuleViolation where
  kind : RuleViolationKind
  index : Option Nat
  value : Option Nat
  cells : List CellPosition
  deriving DecidableEq, Repr, Inhabited

/-- Result of one rule check (interface RuleResult). -/
structure RuleResult where
  ok : Bool
  violations : List RuleViolation
  deriving DecidableEq, Repr, Inhabited

/-- Result of the aggregate check (interface CompositeRuleResult). -/
structure CompositeRuleResult where
  isSolved : Bool
  rowColumnUniqueness : RuleResult
  noAdjacentShaded : RuleResult
  connectivity : RuleResult
  deriving DecidableEq, Repr, Inhabited

/-- Order-preserving upsert modelling `Map.get/set` with JS `Map`s'
key-insertion iteration order. -/
def bucketInsert {β : Type} (b : List (Nat × List β)) (k : Nat) (p : β) :
    List (Nat × List β) :=
  match b with
  | [] => [(k, [p])]
  | e :: rest => if e.1 = k then (e.1, e.2 ++ [p]) :: rest else e :: bucketInsert rest k p

/-- The per-row value buckets of checkRowColumnUniqueness. -/
def rowBucket (g : HitoriGrid) (r : Nat) : List (Nat × List CellPosition) :=
  (List.range g.size).foldl (fun b c =>
    let cell := cellAt g r c
    if cell.state = CellState.Shaded then b
    else bucketInsert b cell.value ⟨r, c⟩) []

/-- The per-column value buckets of checkRowColumnUniqueness. -/
def colBucket (g : HitoriGrid) (c : Nat) : List (Nat × List CellPosition) :=
  (List.range g.size).foldl (fun b r =>
    let cell := cellAt g r c
    if cell.state = CellState.Shaded then b
    else bucketInsert b cell.value ⟨r, c⟩) []

/-- checkRowColumnUniqueness (HitoriRules.ts). -/
def checkRowColumnUniqueness (state : HitoriGameState) : RuleResult :=
  let g := state.grid
  let rowViolations := (List.range g.size).flatMap (fun r =>
    (rowBucket g r).filterMap (fun e =>
      if 1 < e.2.length then
        some { kind := RuleViolationKind.rowDuplicate, index := some r,
               value := some e.1, cells := e.2 }
      else none))
  let colViolations := (List.range g.size).flatMap (fun c =>
    (colBucket g c).filterMap (fun e =>
      if 1 < e.2.length then
        some { kind := RuleViolationKind.columnDuplicate, index := some c,
               value := some e.1, cells := e.2 }
      else none))
  let violations := rowViolations ++ colViolations
  { ok := violations.length == 0, violations := violations }

/-- The four orthogonal directions, in the order the source lists them. -/
def ruleDirs : List (Int × Int) := [(1, 0), (-1, 0), (0, 1), (0, -1)]

/-- Canonically ordered pair key used to dedupe adjacent-shaded pairs. -/
def adjKey (r c nr nc : Nat) : CellPosition × CellPosition :=
  if r < nr ∨ (r = nr ∧ c ≤ nc) then (⟨r, c⟩, ⟨nr, nc⟩) else (⟨nr, nc⟩, ⟨r, c⟩)

/-- Inner per-direction step of checkNoAdjacentShaded: acc is (seenPairs,
violations). -/
def adjStep (g : HitoriGrid) (rc : Nat × Nat)
    (acc : List (CellPosition × CellPosition) × List RuleViolation) (d : Int × Int) :
    List (CellPosition × CellPosition) × List RuleViolation :=
  let nr : Int := (rc.1 : Int) + d.1
  let nc : Int := (rc.2 : Int) + d.2
  if nr < 0 ∨ (g.size : Int) ≤ nr ∨ nc < 0 ∨ (g.size : Int) ≤ nc then acc
  else if (cellAt g nr.toNat nc.toNat).state ≠ CellState.Shaded then acc
  else
    let key := adjKey rc.1 rc.2 nr.toNat nc.toNat
    if key ∈ acc.1 then acc
    else (key :: acc.1,
          acc.2 ++ [{ kind := RuleViolationKind.adjacentShaded, index := none, value := none,
                      cells := [⟨rc.1, rc.2⟩, ⟨nr.toNat, nc.toNat⟩] }])

/-- Row-major cell index list for an n x n grid. -/
def gridIndices (n : Nat) : List (Nat × Nat) :=
  (List.range n).flatMap (fun r => (List.range n).map (fun c => (r, c)))

/-- Per-cell step of checkNoAdjacentShaded: skip non-shaded cells, otherwise
probe the four directions. -/
def adjCellStep (g : HitoriGrid)
    (acc : List (CellPosition × CellPosition) × List RuleViolation) (rc : Nat × Nat) :
    List (CellPosition × CellPosition) × List RuleViolation :=
  if (cellAt g rc.1 rc.2).state ≠ CellState.Shaded then acc
  else ruleDirs.foldl (adjStep g rc) acc

/-- checkNoAdjacentShaded (HitoriRules.ts). -/
def checkNoAdjacentShaded (state : HitoriGameState) : RuleResult :=
  let g := state.grid
  let final := (gridIndices g.size).foldl (adjCellStep g) ([], [])
  { ok := final.2.length == 0, violations := final.2 }

/-- The unshaded positions, gathered in row-major order. -/
def unshadedPositions (g : HitoriGrid) : List CellPosition :=
  (gridIndices g.size).filterMap (fun rc =>
    if (cellAt g rc.1 rc.2).state ≠ CellState.Shaded then some ⟨rc.1, rc.2⟩ else none)

/-- All positions of an n x n grid, used as the finite universe in the
termination measures of the graph searches. -/
def univPos (n : Nat) : List CellPosition :=
  (gridIndices n).map (fun rc => ⟨rc.1, rc.2⟩)

theorem mem_gridIndices {n : Nat} {rc : Nat × Nat} :
    rc ∈ gridIndices n ↔ rc.1 < n ∧ rc.2 < n := by
  cases rc with
  | mk r c =>
    simp [gridIndices, List.mem_flatMap, List.mem_map, List.mem_range]

theorem gridIndices_nodup (n : Nat) : (gridIndices n).Nodup := by
  have h : gridIndices n = (List.range n) ×ˢ (List.range n) := rfl
  rw [h]
  exact (List.nodup_range n).product (List.nodup_range n)

theorem mem_univPos {n : Nat} {p : CellPosition} :
    p ∈ univPos n ↔ p.row < n ∧ p.col < n := by
  cases p with
  | mk r c =>
    constructor
    · intro h
      simp only [univPos, List.mem_map] at h
      obtain ⟨rc, hrc, he⟩ := h
      rw [mem_gridIndices] at hrc
      cases he
      exact hrc
    · intro ⟨h1, h2⟩
      simp only [univPos, List.mem_map]
      exact ⟨(r, c), mem_gridIndices.2 ⟨h1, h2⟩, rfl⟩

theorem univPos_nodup (n : Nat) : (univPos n).Nodup := by
  apply (gridIndices_nodup n).map
  intro a b h
  cases a; cases b
  simpa [CellPosition.mk.injEq] using h

/-- Removing one fresh element from the forbidden set shrinks the filtered
universe by exactly one. -/
theorem filter_length_cons_out [DecidableEq α] {univ : List α} (hU : univ.Nodup)
    {v : List α} {p : α} (hp : p ∈ univ) (hpv : p ∉ v) :
    (univ.filter (fun q => decide (q ∉ v ++ [p]))).length + 1 =
      (univ.filter (fun q => decide (q ∉ v))).length := by
  induction univ with
  | nil => cases hp
  | cons u rest ih =>
    rcases List.nodup_cons.1 hU with ⟨hu, hrest⟩
    by_cases hup : u = p
    · subst hup
      have h1 : (decide (u ∉ v ++ [u])) = false := by simp
      have h2 : (decide (u ∉ v)) = true := by simpa using hpv
      rw [List.filter_cons, List.filter_cons, h1, h2]
      have hcong : rest.filter (fun q => decide (q ∉ v ++ [u])) =
          rest.filter (fun q => decide (q ∉ v)) := by
        apply List.filter_congr
        intro a ha
        have : a ≠ u := fun h => hu (h ▸ ha)
        simp [List.mem_append, this]
      rw [hcong]
      simp
    · have hp2 : p ∈ rest := by
        cases hp with
        | head => exact absurd rfl hup
        | tail _ h => exact h
      have heq : (decide (u ∉ v ++ [p])) = (decide (u ∉ v)) := by
        simp [List.mem_append, hup]
      rw [List.filter_cons, List.filter_cons, heq]
      have hih := ih hrest hp2
      cases hc : (decide (u ∉ v)) with
      | true =>
        rw [if_pos rfl, if_pos rfl, List.length_cons, List.length_cons]
        omega
      | false =>
        rw [if_neg (by simp), if_neg (by simp)]
        exact hih

/-- Adding a batch of fresh distinct elements to the forbidden set shrinks the
filtered universe by exactly the batch size. -/
theorem filter_length_visit [DecidableEq α] {univ : List α} (hU : univ.Nodup) :
    ∀ (new v : List α), new.Nodup → (∀ p ∈ new, p ∈ univ ∧ p ∉ v) →
      (univ.filter (fun q => decide (q ∉ v ++ new))).length + new.length =
        (univ.filter (fun q => decide (q ∉ v))).length := by
  intro new
  induction new with
  | nil => intro v _ _; simp
  | cons p rest ih =>
    intro v hnd hmem
    rcases List.nodup_cons.1 hnd with ⟨hpr, hrest⟩
    have hassoc : v ++ p :: rest = (v ++ [p]) ++ rest := by simp
    rw [hassoc]
    have hmem2 : ∀ q ∈ rest, q ∈ univ ∧ q ∉ v ++ [p] := by
      intro q hq
      obtain ⟨h1, h2⟩ := hmem q (List.mem_cons_of_mem _ hq)
      refine ⟨h1, ?_⟩
      simp only [List.mem_append, List.mem_singleton]
      rintro (hc | rfl)
      · exact h2 hc
      · exact hpr hq
    have hstep := ih (v ++ [p]) hrest hmem2
    obtain ⟨hpu, hpv⟩ := hmem p (List.mem_cons_self _ _)
    have hone := filter_length_cons_out hU hpu hpv (v := v)
    simp only [List.length_cons]
    omega

/-- Number of universe elements not yet in the visited list; the common
termination measure of both graph searches. -/
def unvisitedCount [DecidableEq α] (univ v : List α) : Nat :=
  (univ.filter (fun q => decide (q ∉ v))).length

theorem unvisitedCount_append [DecidableEq α] {univ : List α} (hU : univ.Nodup)
    (new v : List α) (hnd : new.Nodup) (hmem : ∀ p ∈ new, p ∈ univ ∧ p ∉ v) :
    unvisitedCount univ (v ++ new) + new.length = unvisitedCount univ v := by
  unfold unvisitedCount
  exact filter_length_visit hU new v hnd hmem

theorem unvisitedCount_insert [DecidableEq α] {univ : List α} (hU : univ.Nodup)
    {v : List α} {p : α} (hp : p ∈ univ) (hpv : p ∉ v) :
    unvisitedCount univ (p :: v) + 1 = unvisitedCount univ v := by
  unfold unvisitedCount
  have hcong : univ.filter (fun q => decide (q ∉ p :: v)) =
      univ.filter (fun q => decide (q ∉ v ++ [p])) := by
    apply List.filter_congr
    intro a _
    apply decide_eq_decide.2
    simp [List.mem_append, or_comm]
  rw [hcong]
  exact filter_length_cons_out hU hp hpv

/-- Inner per-direction step of the BFS of checkConnectivityOfUnshaded:
acc is (visited, queue); a neighbour is enqueued (at the back) the moment it
is added to the visited set. -/
def bfsStep (g : HitoriGrid) (cur : CellPosition)
    (acc : List CellPosition × List CellPosition) (d : Int × Int) :
    List CellPosition × List CellPosition :=
  let nr : Int := (cur.row : Int) + d.1
  let nc : Int := (cur.col : Int) + d.2
  if nr < 0 ∨ (g.size : Int) ≤ nr ∨ nc < 0 ∨ (g.size : Int) ≤ nc then acc
  else if (cellAt g nr.toNat nc.toNat).state = CellState.Shaded then acc
  else
    let np : CellPosition := ⟨nr.toNat, nc.toNat⟩
    if np ∈ acc.1 then acc
    else (acc.1 ++ [np], acc.2 ++ [np])

/-- Folding bfsStep over a direction list appends one common batch of fresh
in-bounds unshaded neighbours of `cur` to both the visited set and queue. -/
theorem bfsFold_char (g : HitoriGrid) (cur : CellPosition) (dirs : List (Int × Int)) :
    ∀ (v q : List CellPosition), ∃ new : List CellPosition,
      dirs.foldl (bfsStep g cur) (v, q) = (v ++ new, q ++ new) ∧ new.Nodup ∧
      ∀ p ∈ new, p.row < g.size ∧ p.col < g.size ∧ p ∉ v ∧
        (cellAt g p.row p.col).state ≠ CellState.Shaded ∧
        ∃ d ∈ dirs, (cur.row : Int) + d.1 = p.row ∧ (cur.col : Int) + d.2 = p.col := by
  induction dirs with
  | nil => intro v q; exact ⟨[], by simp, List.nodup_nil, by simp⟩
  | cons d ds ih =>
    intro v q
    simp only [List.foldl_cons]
    unfold bfsStep
    by_cases hb : ((cur.row : Int) + d.1 < 0 ∨ (g.size : Int) ≤ (cur.row : Int) + d.1 ∨
        (cur.col : Int) + d.2 < 0 ∨ (g.size : Int) ≤ (cur.col : Int) + d.2)
    · rw [if_pos hb]
      obtain ⟨new, he, hn, hm⟩ := ih v q
      refine ⟨new, he, hn, fun p hp => ?_⟩
      obtain ⟨h1, h2, h3, h4, dd, hdd, hde⟩ := hm p hp
      exact ⟨h1, h2, h3, h4, dd, List.mem_cons_of_mem _ hdd, hde⟩
    · rw [if_neg hb]
      set nr : Int := (cur.row : Int) + d.1 with hnr
      set nc : Int := (cur.col : Int) + d.2 with hnc
      push_neg at hb
      obtain ⟨hb1, hb2, hb3, hb4⟩ := hb
      by_cases hsh : (cellAt g nr.toNat nc.toNat).state = CellState.Shaded
      · rw [if_pos hsh]
        obtain ⟨new, he, hn, hm⟩ := ih v q
        refine ⟨new, he, hn, fun p hp => ?_⟩
        obtain ⟨h1, h2, h3, h4, dd, hdd, hde⟩ := hm p hp
        exact ⟨h1, h2, h3, h4, dd, List.mem_cons_of_mem _ hdd, hde⟩
      · rw [if_neg hsh]
        by_cases hv : (⟨nr.toNat, nc.toNat⟩ : CellPosition) ∈ v
        · rw [if_pos hv]
          obtain ⟨new, he, hn, hm⟩ := ih v q
          refine ⟨new, he, hn, fun p hp => ?_⟩
          obtain ⟨h1, h2, h3, h4, dd, hdd, hde⟩ := hm p hp
          exact ⟨h1, h2, h3, h4, dd, List.mem_cons_of_mem _ hdd, hde⟩
        · rw [if_neg hv]
          obtain ⟨new, he, hn, hm⟩ := ih (v ++ [⟨nr.toNat, nc.toNat⟩]) (q ++ [⟨nr.toNat, nc.toNat⟩])
          refine ⟨⟨nr.toNat, nc.toNat⟩ :: new, ?_, ?_, ?_⟩
          · simpa using he
          · refine List.nodup_cons.2 ⟨fun hc => ?_, hn⟩
            obtain ⟨_, _, h3, _⟩ := hm _ hc
            exact h3 (by simp)
          · intro p hp
            rcases List.mem_cons.1 hp with rfl | hp2
            · refine ⟨?_, ?_, hv, hsh, d, List.mem_cons_self _ _, ?_, ?_⟩
              · show nr.toNat < g.size
                omega
              · show nc.toNat < g.size
                omega
              · show nr = (nr.toNat : Int)
                omega
              · show nc = (nc.toNat : Int)
                omega
            · obtain ⟨h1, h2, h3, h4, dd, hdd, hde⟩ := hm p hp2
              refine ⟨h1, h2, fun hc => h3 (List.mem_append_left _ hc), h4, dd,
                List.mem_cons_of_mem _ hdd, hde⟩

/-- The BFS work loop of checkConnectivityOfUnshaded (the `while queue`
loop; the `Set<string>` of visited "r,c" keys is the visited list). -/
def bfsLoop (g : HitoriGrid) (visited queue : List CellPosition) : List CellPosition :=
  match queue with
  | [] => visited
  | current :: rest =>
    bfsLoop g (ruleDirs.foldl (bfsStep g current) (visited, rest)).1
      (ruleDirs.foldl (bfsStep g current) (visited, rest)).2
termination_by
  2 * unvisitedCount (univPos g.size) visited + queue.length
decreasing_by
  all_goals
    obtain ⟨new, he, hn, hm⟩ := bfsFold_char g current ruleDirs visited rest
    rw [he]
    have hcount := unvisitedCount_append (univPos_nodup g.size) new visited hn
      (fun p hp => by
        obtain ⟨hr, hc, hv, _⟩ := hm p hp
        exact ⟨mem_univPos.2 ⟨hr, hc⟩, hv⟩)
    simp only [List.length_append, List.length_cons]
    omega

theorem bfsLoop_nil (g : HitoriGrid) (visited : List CellPosition) :
    bfsLoop g visited [] = visited := by
  rw [bfsLoop.eq_def]

theorem bfsLoop_cons (g : HitoriGrid) (visited : List CellPosition)
    (current : CellPosition) (rest : List CellPosition) :
    bfsLoop g visited (current :: rest) =
      bfsLoop g (ruleDirs.foldl (bfsStep g current) (visited, rest)).1
        (ruleDirs.foldl (bfsStep g current) (visited, rest)).2 := by
  rw [bfsLoop.eq_def]

/-- checkConnectivityOfUnshaded (HitoriRules.ts). -/
def checkConnectivityOfUnshaded (state : HitoriGameState) : RuleResult :=
  let g := state.grid
  let unshaded := unshadedPositions g
  if unshaded.length ≤ 1 then { ok := true, violations := [] }
  else
    let start := unshaded.headD default
    let visited := bfsLoop g [start] [start]
    if visited.length == unshaded.length then { ok := true, violations := [] }
    else
      { ok := false
        violations := [{ kind := RuleViolationKind.connectivity, index := none, value := none,
                         cells := unshaded.filter (fun p => decide (p ∉ visited)) }] }

/-- checkAllRules (HitoriRules.ts): isSolved is the AND of the three checks. -/
def checkAllRules (state : HitoriGameState) : CompositeRuleResult :=
  let rowColumnUniqueness := checkRowColumnUniqueness state
  let noAdjacentShaded := checkNoAdjacentShaded state
  let connectivity := checkConnectivityOfUnshaded state
  { isSolved := rowColumnUniqueness.ok && noAdjacentShaded.ok && connectivity.ok
    rowColumnUniqueness := rowColumnUniqueness
    noAdjacentShaded := noAdjacentShaded
    connectivity := connectivity }

/-- Hint kinds (type HitoriHintReason in HitoriHints.ts). -/
inductive HitoriHintReason where
  | duplicateResolution
  | adjacentShaded
  deriving DecidableEq, Repr, Inhabited

/-- A proposed move (interface HitoriHint). -/
structure HitoriHint where
  row : Nat
  col : Nat
  suggestedState : CellState
  reason : HitoriHintReason
  deriving DecidableEq, Repr, Inhabited

/-- Bucket entry used by the duplicate-resolution strategy (type GroupCell). -/
structure GroupCell where
  row : Nat
  col : Nat
  state : CellState
  deriving DecidableEq, Repr, Inhabited

/-- analyzeGroup (HitoriHints.ts): inspect one same-value group. -/
def analyzeGroup (cells : List GroupCell) : Option HitoriHint :=
  if cells.length ≤ 1 then none
  else
    let numKept := (cells.filter (fun c => c.state == CellState.Kept)).length
    let numShaded := (cells.filter (fun c => c.state == CellState.Shaded)).length
    let numUnmarked := (cells.filter (fun c => c.state == CellState.Unmarked)).length
    let caseA : Option HitoriHint :=
      if numKept = 1 then
        match cells.find? (fun c => c.state == CellState.Kept) with
        | none => none
        | some keptCell =>
          match cells.find? (fun c =>
              !(c.row == keptCell.row && c.col == keptCell.col) &&
              !(c.state == CellState.Shaded)) with
          | none => none
          | some c =>
            some { row := c.row, col := c.col, suggestedState := CellState.Shaded,
                   reason := HitoriHintReason.duplicateResolution }
      else none
    match caseA with
    | some h => some h
    | none =>
      if numKept = 0 ∧ numShaded = cells.length - 1 ∧ numUnmarked = 1 then
        match cells.find? (fun c => c.state == CellState.Unmarked) with
        | none => none
        | some target =>
          some { row := target.row, col := target.col, suggestedState := CellState.Kept,
                 reason := HitoriHintReason.duplicateResolution }
      else none

/-- The per-row value buckets of findDuplicateResolutionHint (all states). -/
def hintRowBucket (g : HitoriGrid) (r : Nat) : List (Nat × List GroupCell) :=
  (List.range g.size).foldl (fun b c =>
    let cell := cellAt g r c
    bucketInsert b cell.value { row := r, col := c, state := cell.state }) []

/-- The per-column value buckets of findDuplicateResolutionHint. -/
def hintColBucket (g : HitoriGrid) (c : Nat) : List (Nat × List GroupCell) :=
  (List.range g.size).foldl (fun b r =>
    let cell := cellAt g r c
    bucketInsert b cell.value { row := r, col := c, state := cell.state }) []

/-- findDuplicateResolutionHint (HitoriHints.ts): rows first, then columns,
groups in first-encounter order of their value. -/
def findDuplicateResolutionHint (state : HitoriGameState) : Option HitoriHint :=
  let g := state.grid
  match (List.range g.size).findSome? (fun r =>
      (hintRowBucket g r).findSome? (fun e => analyzeGroup e.2)) with
  | some h => some h
  | none =>
    (List.range g.size).findSome? (fun c =>
      (hintColBucket g c).findSome? (fun e => analyzeGroup e.2))

/-- The neighbour probe order (up, down, left, right) of
findAdjacentShadedHint. -/
def hintNeighbors (r c : Nat) : List (Int × Int) :=
  [((r : Int) - 1, (c : Int)), ((r : Int) + 1, (c : Int)),
   ((r : Int), (c : Int) - 1), ((r : Int), (c : Int) + 1)]

/-- findAdjacentShadedHint (HitoriHints.ts): first shaded cell in row-major
order with a shaded neighbour; suggests unshading that neighbour. -/
def findAdjacentShadedHint (state : HitoriGameState) : Option HitoriHint :=
  let g := state.grid
  (gridIndices g.size).findSome? (fun rc =>
    if (cellAt g rc.1 rc.2).state ≠ CellState.Shaded then none
    else
      (hintNeighbors rc.1 rc.2).findSome? (fun q =>
        if q.1 < 0 ∨ q.2 < 0 ∨ (g.size : Int) ≤ q.1 ∨ (g.size : Int) ≤ q.2 then none
        else if (cellAt g q.1.toNat q.2.toNat).state = CellState.Shaded then
          some { row := q.1.toNat, col := q.2.toNat, suggestedState := CellState.Unmarked,
                 reason := HitoriHintReason.adjacentShaded }
        else none))

/-- findHint (HitoriHints.ts): duplicate resolution first, then adjacency. -/
def findHint (state : HitoriGameState) : Option HitoriHint :=
  match findDuplicateResolutionHint state with
  | some dup => some dup
  | none =>
    match findAdjacentShadedHint state with
    | some adj => some adj
    | none => none

/-! ## Puzzle generator (HitoriPuzzleGenerator.ts) -/

/-- Generator difficulty (type HitoriDifficulty in HitoriPuzzleGenerator.ts;
the generator supports three difficulties). -/
inductive HitoriDifficulty where
  | easy
  | medium
  | hard
  deriving DecidableEq, Repr, Inhabited

/-- The generator's own puzzle record (interface HitoriPuzzle in
HitoriPuzzleGenerator.ts; distinct from the core HitoriPuzzle type). -/
structure GenHitoriPuzzle where
  id : String
  size : Nat
  difficulty : HitoriDifficulty
  numbers : List (List Nat)
  deriving DecidableEq, Repr, Inhabited

/-- Generated puzzle plus its solution shading (interface
HitoriGeneratedPuzzle). -/
structure HitoriGeneratedPuzzle where
  puzzle : GenHitoriPuzzle
  solutionShaded : List (List Bool)
  deriving DecidableEq, Repr, Inhabited

/-- Read `shaded[y][x]` of a boolean shading grid. -/
def shAt (sh : List (List Bool)) (x y : Nat) : Bool :=
  get2 sh y x

/-- buildRandomPuzzleId: the timestamp/random suffix is abstracted as an
arbitrary string parameter (its content carries no semantics). -/
def buildRandomPuzzleId (suffix : String) (size : Nat) (difficulty : HitoriDifficulty) :
    String :=
  let d := match difficulty with
    | HitoriDifficulty.easy => "easy"
    | HitoriDifficulty.medium => "medium"
    | HitoriDifficulty.hard => "hard"
  "hitori-" ++ toString size ++ "x" ++ toString size ++ "-" ++ d ++ "-" ++ suffix

/-- buildLatinSquare: the cyclic Latin square L[y][x] = ((x+y) mod n) + 1. -/
def buildLatinSquare (n : Nat) : List (List Nat) :=
  (List.range n).map (fun y => (List.range n).map (fun x => (x + y) % n + 1))

/-- Math.round(size*size*ratio) for the difficulty ratios 0.20 / 0.30 / 0.40,
computed in exact arithmetic ((k*n^2+5)/10 rounds half away from zero exactly
as Math.round does on these values). -/
def targetBlacksOf (size : Nat) (difficulty : HitoriDifficulty) : Nat :=
  match difficulty with
  | HitoriDifficulty.easy => (2 * size * size + 5) / 10
  | HitoriDifficulty.medium => (3 * size * size + 5) / 10
  | HitoriDifficulty.hard => (4 * size * size + 5) / 10

/-- The generator's cell visit list: for y, for x, push [x, y]. -/
def cellsXY (n : Nat) : List (Nat × Nat) :=
  (List.range n).flatMap (fun y => (List.range n).map (fun x => (x, y)))

theorem mem_cellsXY {n : Nat} {p : Nat × Nat} :
    p ∈ cellsXY n ↔ p.1 < n ∧ p.2 < n := by
  cases p with
  | mk x y =>
    simp only [cellsXY, List.mem_flatMap, List.mem_map, List.mem_range, Prod.mk.injEq]
    constructor
    · rintro ⟨a, ha, b, hb, rfl, rfl⟩
      exact ⟨hb, ha⟩
    · rintro ⟨hx, hy⟩
      exact ⟨y, hy, x, hx, rfl, rfl⟩

/-- Swap of two list entries, modelling the in-place swap of the
Fisher-Yates shuffle. -/
def listSwap [Inhabited α] (l : List α) (i j : Nat) : List α :=
  (l.set i (l.getD j default)).set j (l.getD i default)

/-- shuffleInPlace (Fisher-Yates): the loop from i = length-1 down to 1,
drawing j uniformly in [0, i]. -/
def shuffleAux [Inhabited α] (rand : Nat → Nat) : Nat → List α → List α
  | 0, l => l
  | Nat.succ k, l => shuffleAux rand k (listSwap l (k + 1) (rand (k + 1) % (k + 2)))

/-- shuffleInPlace entry point. -/
def shuffleList [Inhabited α] (rand : Nat → Nat) (l : List α) : List α :=
  shuffleAux rand (l.length - 1) l

/-- violatesBlackAdjacency (HitoriPuzzleGenerator.ts): some shaded cell has a
shaded right or down neighbour. -/
def violatesBlackAdjacency (sh : List (List Bool)) : Bool :=
  let n := sh.length
  (List.range n).any (fun y => (List.range n).any (fun x =>
    shAt sh x y &&
      ((decide (x + 1 < n) && shAt sh (x + 1) y) ||
       (decide (y + 1 < n) && shAt sh x (y + 1)))))

/-- The white cells in the scan order of isWhiteConnected (y outer, x inner);
its head is the DFS start cell and its length is totalWhite. -/
def whiteCellsScan (sh : List (List Bool)) : List (Nat × Nat) :=
  (List.range sh.length).flatMap (fun y =>
    (List.range sh.length).filterMap (fun x =>
      if shAt sh x y then none else some (x, y)))

theorem mem_whiteCellsScan {sh : List (List Bool)} {p : Nat × Nat} :
    p ∈ whiteCellsScan sh ↔ p.1 < sh.length ∧ p.2 < sh.length ∧ shAt sh p.1 p.2 = false := by
  cases p with
  | mk x y =>
    simp only [whiteCellsScan, List.mem_flatMap, List.mem_filterMap, List.mem_range]
    constructor
    · rintro ⟨b, hb, a, ha, he⟩
      by_cases hs : shAt sh a b
      · rw [if_pos hs] at he; cases he
      · rw [if_neg hs] at he
        cases he
        exact ⟨ha, hb, by simpa using hs⟩
    · rintro ⟨hx, hy, hw⟩
      exact ⟨y, hy, x, hx, by rw [hw]; simp⟩

/-- The neighbour pushes of one DFS expansion step: in-bounds, white, and not
yet visited, in the source's candidate order [left, right, up, down]. -/
def dfsNeighbors (n : Nat) (sh : List (List Bool)) (visited2 : List (Nat × Nat))
    (x y : Nat) : List (Nat × Nat) :=
  ([((x : Int) - 1, (y : Int)), ((x : Int) + 1, (y : Int)),
    ((x : Int), (y : Int) - 1), ((x : Int), (y : Int) + 1)]).filterMap (fun q =>
    if q.1 < 0 ∨ (n : Int) ≤ q.1 ∨ q.2 < 0 ∨ (n : Int) ≤ q.2 then none
    else if shAt sh q.1.toNat q.2.toNat then none
    else if (q.1.toNat, q.2.toNat) ∈ visited2 then none
    else some (q.1.toNat, q.2.toNat))

theorem dfsNeighbors_sound {n : Nat} {sh : List (List Bool)}
    {v : List (Nat × Nat)} {x y : Nat} :
    ∀ p ∈ dfsNeighbors n sh v x y, p.1 < n ∧ p.2 < n ∧ shAt sh p.1 p.2 = false ∧ p ∉ v ∧
      (((x : Int) - 1, (y : Int)) = ((p.1 : Int), (p.2 : Int)) ∨
       ((x : Int) + 1, (y : Int)) = ((p.1 : Int), (p.2 : Int)) ∨
       ((x : Int), (y : Int) - 1) = ((p.1 : Int), (p.2 : Int)) ∨
       ((x : Int), (y : Int) + 1) = ((p.1 : Int), (p.2 : Int))) := by
  intro p hp
  simp only [dfsNeighbors, List.mem_filterMap] at hp
  obtain ⟨q, hq, he⟩ := hp
  by_cases hb : (q.1 < 0 ∨ (n : Int) ≤ q.1 ∨ q.2 < 0 ∨ (n : Int) ≤ q.2)
  · rw [if_pos hb] at he; cases he
  · rw [if_neg hb] at he
    push_neg at hb
    obtain ⟨hb1, hb2, hb3, hb4⟩ := hb
    by_cases hs : shAt sh q.1.toNat q.2.toNat
    · rw [if_pos hs] at he; cases he
    · rw [if_neg hs] at he
      by_cases hv : (q.1.toNat, q.2.toNat) ∈ v
      · rw [if_pos hv] at he; cases he
      · rw [if_neg hv] at he
        cases he
        have e1 : q.1 = ((q.1.toNat : Int)) := by omega
        have e2 : q.2 = ((q.2.toNat : Int)) := by omega
        refine ⟨by omega, by omega, by simpa using hs, hv, ?_⟩
        have hq2 : q = ((q.1.toNat : Int), (q.2.toNat : Int)) := by
          rw [Prod.ext_iff]
          exact ⟨e1, e2⟩
        simp only [List.mem_cons, List.mem_singleton, List.not_mem_nil, or_false] at hq
        rcases hq with h | h | h | h
        · left
          show ((x : Int) - 1, (y : Int)) = ((q.1.toNat : Int), (q.2.toNat : Int))
          rw [← hq2]
          exact h.symm
        · right; left
          show ((x : Int) + 1, (y : Int)) = ((q.1.toNat : Int), (q.2.toNat : Int))
          rw [← hq2]
          exact h.symm
        · right; right; left
          show ((x : Int), (y : Int) - 1) = ((q.1.toNat : Int), (q.2.toNat : Int))
          rw [← hq2]
          exact h.symm
        · right; right; right
          show ((x : Int), (y : Int) + 1) = ((q.1.toNat : Int), (q.2.toNat : Int))
          rw [← hq2]
          exact h.symm

/-- The DFS work loop of isWhiteConnected (the `while stack` loop of the
source; visited is the list of marked cells, count is visitedWhite).  The
source indexes `visited[y][x]` without a bounds check, so it is only defined
when every stack entry is in bounds; that invariant is carried as a
hypothesis. -/
def dfsLoop (n : Nat) (sh : List (List Bool)) (visited stack : List (Nat × Nat))
    (count : Nat) (hstack : ∀ p ∈ stack, p.1 < n ∧ p.2 < n) :
    List (Nat × Nat) × Nat :=
  match stack with
  | [] => (visited, count)
  | p :: rest =>
    if p ∈ visited then
      dfsLoop n sh visited rest count (fun q hq => hstack q (List.mem_cons_of_mem _ hq))
    else
      dfsLoop n sh (p :: visited)
        ((dfsNeighbors n sh (p :: visited) p.1 p.2).reverse ++ rest) (count + 1)
        (fun q hq => by
          rcases List.mem_append.1 hq with h | h
          · obtain ⟨h1, h2, _⟩ := dfsNeighbors_sound q (List.mem_reverse.1 h)
            exact ⟨h1, h2⟩
          · exact hstack q (List.mem_cons_of_mem _ h))
termination_by
  5 * unvisitedCount (gridIndices n) visited + stack.length
decreasing_by
  · simp only [List.length_cons]
    omega
  · have hpin : p ∈ gridIndices n := mem_gridIndices.2 (hstack p (List.mem_cons_self _ _))
    rename_i hpv
    have hcount := unvisitedCount_insert (gridIndices_nodup n) hpin hpv
    have hlen : (dfsNeighbors n sh (p :: visited) p.1 p.2).length ≤ 4 := by
      apply le_trans (List.length_filterMap_le _ _)
      simp
    simp only [List.length_append, List.length_reverse, List.length_cons]
    omega

/-- isWhiteConnected (HitoriPuzzleGenerator.ts): scan for the first white
cell and the white count, run the DFS, compare. -/
def isWhiteConnected (sh : List (List Bool)) : Bool :=
  match h : whiteCellsScan sh with
  | [] => false
  | start :: _ =>
    (dfsLoop sh.length sh [] [start] 0 (by
      intro p hp
      rw [List.mem_singleton] at hp
      subst hp
      have hmem : p ∈ whiteCellsScan sh := by rw [h]; exact List.mem_cons_self _ _
      have h2 := mem_whiteCellsScan.1 hmem
      exact ⟨h2.1, h2.2.1⟩)).2 == (whiteCellsScan sh).length

/-- buildShadingPattern (HitoriPuzzleGenerator.ts): greedy randomized shading
that keeps adjacency and connectivity invariants, with a fallback pass that
forces at least one shaded cell. -/
def buildShadingPattern (rand : Nat → Nat) (size : Nat) (difficulty : HitoriDifficulty) :
    List (List Bool) :=
  let shaded0 := List.replicate size (List.replicate size false)
  let targetBlacks := targetBlacksOf size difficulty
  let order := shuffleList rand (cellsXY size)
  let step := fun (acc : List (List Bool) × Nat) (cell : Nat × Nat) =>
    if targetBlacks ≤ acc.2 then acc
    else
      let trial := set2 acc.1 cell.2 cell.1 true
      if violatesBlackAdjacency trial then acc
      else if !isWhiteConnected trial then acc
      else (trial, acc.2 + 1)
  let mainResult := order.foldl step (shaded0, 0)
  if mainResult.2 = 0 then
    let step2 := fun (acc : List (List Bool) × Bool) (cell : Nat × Nat) =>
      if acc.2 then acc
      else
        let trial := set2 acc.1 cell.2 cell.1 true
        if !violatesBlackAdjacency trial && isWhiteConnected trial then (trial, true)
        else acc
    (order.foldl step2 (mainResult.1, false)).1
  else mainResult.1

/-- buildNumbersFromSolution (HitoriPuzzleGenerator.ts): overwrite each
shaded cell's value with the value of a random white cell sharing its row or
column; white cells are never modified. -/
def buildNumbersFromSolution (rand2 : Nat → Nat) (latin : List (List Nat))
    (sh : List (List Bool)) : List (List Nat) :=
  let n := latin.length
  (cellsXY n).foldl (fun numbers cell =>
    let x := cell.1
    let y := cell.2
    if !shAt sh x y then numbers
    else
      let candidates :=
        ((List.range n).filterMap (fun cx => if shAt sh cx y then none else some (cx, y))) ++
        ((List.range n).filterMap (fun cy => if shAt sh x cy then none else some (x, cy)))
      if candidates.length = 0 then numbers
      else
        let pick := candidates.getD (rand2 (y * n + x) % candidates.length) (0, 0)
        set2 numbers y x (get2 numbers pick.2 pick.1)) latin

/-- Per-row left-to-right duplicate scan of isValidSolution (the `seen` set). -/
def distinctScan (seen : List Nat) : List Nat → Bool
  | [] => true
  | v :: rest => if v ∈ seen then false else distinctScan (v :: seen) rest

/-- isValidSolution (HitoriPuzzleGenerator.ts): white row/column uniqueness,
no adjacent blacks, white connectivity. -/
def isValidSolution (numbers : List (List Nat)) (sh : List (List Bool)) : Bool :=
  let n := numbers.length
  ((List.range n).all (fun y =>
      distinctScan [] ((List.range n).filterMap (fun x =>
        if shAt sh x y then none else some (get2 numbers y x))))) &&
  ((List.range n).all (fun x =>
      distinctScan [] ((List.range n).filterMap (fun y =>
        if shAt sh x y then none else some (get2 numbers y x))))) &&
  !violatesBlackAdjacency sh &&
  isWhiteConnected sh

/-- generateHitoriPuzzleWithSolution (HitoriPuzzleGenerator.ts).  The random
source is abstracted as the two draw streams `rand` (shuffle) and `rand2`
(conflict injection) plus the opaque id suffix. -/
def generateHitoriPuzzleWithSolution (rand rand2 : Nat → Nat) (idSuffix : String)
    (size : Nat) (difficulty : HitoriDifficulty) : Except String HitoriGeneratedPuzzle :=
  if size < 2 then
    .error "Hitori size must be at least 2"
  else
    let latin := buildLatinSquare size
    let solutionShaded := buildShadingPattern rand size difficulty
    let numbers := buildNumbersFromSolution rand2 latin solutionShaded
    if !isValidSolution numbers solutionShaded then
      .error "Internal error: constructed Hitori solution is invalid"
    else
      .ok { puzzle := { id := buildRandomPuzzleId idSuffix size difficulty
                        size := size
                        difficulty := difficulty
                        numbers := numbers }
            solutionShaded := solutionShaded }

/-! ## Reachability framework for the two graph searches -/

/-- Preservation of a predicate along a left fold. -/
theorem foldl_preserve {β ι : Type} {f : β → ι → β} {Q : β → Prop}
    (hmono : ∀ b i, Q b → Q (f b i)) :
    ∀ (l : List ι) (b : β), Q b → Q (l.foldl f b) := by
  intro l
  induction l with
  | nil => intro b h; exact h
  | cons z zs ih => intro b h; exact ih _ (hmono b z h)

/-- A predicate triggered by some list element and preserved afterwards holds
of the fold result. -/
theorem foldl_trigger {β ι : Type} {f : β → ι → β} {Q : β → Prop}
    (hmono : ∀ b i, Q b → Q (f b i)) {d : ι} (htrig : ∀ b, Q (f b d)) :
    ∀ (l : List ι), d ∈ l → ∀ b, Q (l.foldl f b) := by
  intro l
  induction l with
  | nil => intro hd; cases hd
  | cons x xs ih =>
    intro hd b
    rcases List.mem_cons.1 hd with rfl | hd2
    · exact foldl_preserve hmono xs _ (htrig b)
    · exact ih hd2 (f b x)

/-- One undirected 4-neighbour step between in-bounds unshaded cells of a
play grid: the graph the connectivity rule is about. -/
def adjR (g : HitoriGrid) (p q : CellPosition) : Prop :=
  p.row < g.size ∧ p.col < g.size ∧ q.row < g.size ∧ q.col < g.size ∧
  (cellAt g p.row p.col).state ≠ CellState.Shaded ∧
  (cellAt g q.row q.col).state ≠ CellState.Shaded ∧
  ((p.row = q.row ∧ (p.col + 1 = q.col ∨ q.col + 1 = p.col)) ∨
   (p.col = q.col ∧ (p.row + 1 = q.row ∨ q.row + 1 = p.row)))

/-- Reachability through unshaded cells (reflexive-transitive closure). -/
def ReachR (g : HitoriGrid) (p q : CellPosition) : Prop :=
  Relation.ReflTransGen (adjR g) p q

theorem adjR_symm (g : HitoriGrid) : Symmetric (adjR g) := by
  rintro p q ⟨h1, h2, h3, h4, h5, h6, h7⟩
  refine ⟨h3, h4, h1, h2, h6, h5, ?_⟩
  rcases h7 with ⟨he, hd⟩ | ⟨he, hd⟩
  · exact Or.inl ⟨he.symm, hd.symm⟩
  · exact Or.inr ⟨he.symm, hd.symm⟩

theorem ReachR_symm {g : HitoriGrid} {p q : CellPosition} (h : ReachR g p q) :
    ReachR g q p :=
  Relation.ReflTransGen.symmetric (adjR_symm g) h

theorem ReachR_trans {g : HitoriGrid} {p q r : CellPosition}
    (h1 : ReachR g p q) (h2 : ReachR g q r) : ReachR g p r :=
  Relation.ReflTransGen.trans h1 h2

theorem bfsStep_mono {g : HitoriGrid} {cur : CellPosition}
    {acc : List CellPosition × List CellPosition} {d : Int × Int} {p : CellPosition}
    (hp : p ∈ acc.1) : p ∈ (bfsStep g cur acc d).1 := by
  simp only [bfsStep]
  split
  · exact hp
  · split
    · exact hp
    · split
      · exact hp
      · exact List.mem_append_left _ hp

theorem bfsStep_covers {g : HitoriGrid} {cur : CellPosition}
    {acc : List CellPosition × List CellPosition} {d : Int × Int} {v : CellPosition}
    (hvr : v.row < g.size) (hvc : v.col < g.size)
    (hw : (cellAt g v.row v.col).state ≠ CellState.Shaded)
    (he1 : (cur.row : Int) + d.1 = v.row) (he2 : (cur.col : Int) + d.2 = v.col) :
    v ∈ (bfsStep g cur acc d).1 := by
  simp only [bfsStep]
  have hb : ¬((cur.row : Int) + d.1 < 0 ∨ (g.size : Int) ≤ (cur.row : Int) + d.1 ∨
      (cur.col : Int) + d.2 < 0 ∨ (g.size : Int) ≤ (cur.col : Int) + d.2) := by
    omega
  rw [if_neg hb]
  have hrn : ((cur.row : Int) + d.1).toNat = v.row := by omega
  have hcn : ((cur.col : Int) + d.2).toNat = v.col := by omega
  rw [hrn, hcn]
  rw [if_neg hw]
  by_cases hin : (⟨v.row, v.col⟩ : CellPosition) ∈ acc.1
  · rw [if_pos hin]
    exact hin
  · rw [if_neg hin]
    exact List.mem_append_right _ (List.mem_singleton.2 rfl)

/-- Master invariant theorem for the BFS loop: starting from a visited set of
in-bounds unshaded cells reachable from `root`, with the queue contained in
the visited set and every visited cell either fully expanded or still queued,
the loop returns exactly the closure under unshaded adjacency. -/
theorem bfsLoop_master (g : HitoriGrid) (root : CellPosition) :
    ∀ (visited queue : List CellPosition),
    (∀ p ∈ visited, p.row < g.size ∧ p.col < g.size ∧
      (cellAt g p.row p.col).state ≠ CellState.Shaded) →
    (∀ p ∈ visited, ReachR g root p) →
    (∀ p ∈ queue, p ∈ visited) →
    (∀ u ∈ visited, (∀ v, adjR g u v → v ∈ visited) ∨ u ∈ queue) →
    visited.Nodup →
    (∀ p ∈ visited, p ∈ bfsLoop g visited queue) ∧
    (∀ p ∈ bfsLoop g visited queue, p.row < g.size ∧ p.col < g.size ∧
      (cellAt g p.row p.col).state ≠ CellState.Shaded) ∧
    (∀ p ∈ bfsLoop g visited queue, ReachR g root p) ∧
    (∀ u ∈ bfsLoop g visited queue, ∀ v, adjR g u v → v ∈ bfsLoop g visited queue) ∧
    (bfsLoop g visited queue).Nodup := by
  intro visited queue
  induction visited, queue using bfsLoop.induct g with
  | case1 visited =>
    intro h1 h2 _ h4 h5
    rw [bfsLoop_nil]
    refine ⟨fun p hp => hp, h1, h2, ?_, h5⟩
    intro u hu v hadj
    rcases h4 u hu with hcl | hq
    · exact hcl v hadj
    · cases hq
  | case2 visited current rest ih =>
    intro h1 h2 h3 h4 h5
    obtain ⟨new, he, hnd, hmem⟩ := bfsFold_char g current ruleDirs visited rest
    rw [bfsLoop_cons]
    rw [he] at ih ⊢
    simp only at ih ⊢
    have hcur : current ∈ visited := h3 current (List.mem_cons_self _ _)
    have hcurb := h1 current hcur
    have hcurR := h2 current hcur
    have hnewadj : ∀ p ∈ new, adjR g current p := by
      intro p hp
      obtain ⟨hr, hc, hv, hw, d, hd, he1, he2⟩ := hmem p hp
      refine ⟨hcurb.1, hcurb.2.1, hr, hc, hcurb.2.2, hw, ?_⟩
      simp only [ruleDirs, List.mem_cons, List.mem_singleton, List.not_mem_nil,
        or_false] at hd
      rcases hd with rfl | rfl | rfl | rfl
      · exact Or.inr ⟨by omega, Or.inl (by omega)⟩
      · exact Or.inr ⟨by omega, Or.inr (by omega)⟩
      · exact Or.inl ⟨by omega, Or.inl (by omega)⟩
      · exact Or.inl ⟨by omega, Or.inr (by omega)⟩
    have h1' : ∀ p ∈ visited ++ new, p.row < g.size ∧ p.col < g.size ∧
        (cellAt g p.row p.col).state ≠ CellState.Shaded := by
      intro p hp
      rcases List.mem_append.1 hp with h | h
      · exact h1 p h
      · obtain ⟨hr, hc, _, hw, _⟩ := hmem p h
        exact ⟨hr, hc, hw⟩
    have h2' : ∀ p ∈ visited ++ new, ReachR g root p := by
      intro p hp
      rcases List.mem_append.1 hp with h | h
      · exact h2 p h
      · exact Relation.ReflTransGen.tail hcurR (hnewadj p h)
    have h3' : ∀ p ∈ rest ++ new, p ∈ visited ++ new := by
      intro p hp
      rcases List.mem_append.1 hp with h | h
      · exact List.mem_append_left _ (h3 p (List.mem_cons_of_mem _ h))
      · exact List.mem_append_right _ h
    have h4' : ∀ u ∈ visited ++ new,
        (∀ v, adjR g u v → v ∈ visited ++ new) ∨ u ∈ rest ++ new := by
      intro u hu
      rcases List.mem_append.1 hu with huv | hun
      · rcases h4 u huv with hcl | hq
        · exact Or.inl (fun v hadj => List.mem_append_left _ (hcl v hadj))
        · by_cases hur : u ∈ rest
          · exact Or.inr (List.mem_append_left _ hur)
          · have hueq : u = current := by
              rcases List.mem_cons.1 hq with h | h
              · exact h
              · exact absurd h hur
            subst hueq
            refine Or.inl ?_
            intro v hadj
            by_cases hvin : v ∈ visited
            · exact List.mem_append_left _ hvin
            · obtain ⟨_, _, hvr, hvc, _, hvw, hrel⟩ := hadj
              have hdir : ∃ d ∈ ruleDirs, (u.row : Int) + d.1 = v.row ∧
                  (u.col : Int) + d.2 = v.col := by
                rcases hrel with ⟨he', hd'⟩ | ⟨he', hd'⟩
                · rcases hd' with h | h
                  · exact ⟨(0, 1), by simp [ruleDirs], by omega, by omega⟩
                  · exact ⟨(0, -1), by simp [ruleDirs], by omega, by omega⟩
                · rcases hd' with h | h
                  · exact ⟨(1, 0), by simp [ruleDirs], by omega, by omega⟩
                  · exact ⟨(-1, 0), by simp [ruleDirs], by omega, by omega⟩
              obtain ⟨d, hd, hde1, hde2⟩ := hdir
              have htrig : v ∈ (ruleDirs.foldl (bfsStep g u) (visited, rest)).1 :=
                foldl_trigger (Q := fun acc => v ∈ acc.1) (f := bfsStep g u)
                  (fun b i hb => bfsStep_mono hb)
                  (fun b => bfsStep_covers hvr hvc hvw hde1 hde2) ruleDirs hd
                  (visited, rest)
              rw [he] at htrig
              exact htrig
      · exact Or.inr (List.mem_append_right _ hun)
    have h5' : (visited ++ new).Nodup := by
      refine h5.append hnd ?_
      intro a ha ha2
      exact (hmem a ha2).2.2.1 ha
    obtain ⟨c1, c2, c3, c4, c5⟩ := ih h1' h2' h3' h4' h5'
    exact ⟨fun p hp => c1 p (List.mem_append_left _ hp), c2, c3, c4, c5⟩

theorem mem_unshadedPositions {g : HitoriGrid} {p : CellPosition} :
    p ∈ unshadedPositions g ↔
      p.row < g.size ∧ p.col < g.size ∧
        (cellAt g p.row p.col).state ≠ CellState.Shaded := by
  cases p with
  | mk r c =>
    simp only [unshadedPositions, List.mem_filterMap]
    constructor
    · rintro ⟨rc, hrc, he⟩
      by_cases hs : (cellAt g rc.1 rc.2).state ≠ CellState.Shaded
      · rw [if_pos hs] at he
        cases he
        have hb := mem_gridIndices.1 hrc
        exact ⟨hb.1, hb.2, hs⟩
      · rw [if_neg hs] at he
        cases he
    · rintro ⟨h1, h2, h3⟩
      refine ⟨(r, c), mem_gridIndices.2 ⟨h1, h2⟩, ?_⟩
      rw [if_pos h3]

theorem unshadedPositions_nodup (g : HitoriGrid) : (unshadedPositions g).Nodup := by
  apply (gridIndices_nodup g.size).filterMap
  intro a a2 b hb hb2
  have ha : b = (⟨a.1, a.2⟩ : CellPosition) := by
    by_cases hs : (cellAt g a.1 a.2).state ≠ CellState.Shaded
    · rw [if_pos hs] at hb
      exact (Option.some_inj.1 hb).symm
    · rw [if_neg hs] at hb
      cases hb
  have ha2 : b = (⟨a2.1, a2.2⟩ : CellPosition) := by
    by_cases hs : (cellAt g a2.1 a2.2).state ≠ CellState.Shaded
    · rw [if_pos hs] at hb2
      exact (Option.some_inj.1 hb2).symm
    · rw [if_neg hs] at hb2
      cases hb2
  rw [ha] at ha2
  cases a; cases a2
  simpa [CellPosition.mk.injEq] using ha2

/-- The BFS from a single in-bounds unshaded start visits exactly the cells
reachable from it through unshaded 4-neighbour steps, without duplicates. -/
theorem bfsLoop_start_char {g : HitoriGrid} {start : CellPosition}
    (hr : start.row < g.size) (hc : start.col < g.size)
    (hw : (cellAt g start.row start.col).state ≠ CellState.Shaded) :
    (∀ p, p ∈ bfsLoop g [start] [start] ↔ ReachR g start p) ∧
    (bfsLoop g [start] [start]).Nodup ∧
    (∀ p ∈ bfsLoop g [start] [start], p.row < g.size ∧ p.col < g.size ∧
      (cellAt g p.row p.col).state ≠ CellState.Shaded) := by
  have hm := bfsLoop_master g start [start] [start]
    (by
      intro p hp
      rw [List.mem_singleton] at hp
      subst hp
      exact ⟨hr, hc, hw⟩)
    (by
      intro p hp
      rw [List.mem_singleton] at hp
      subst hp
      exact Relation.ReflTransGen.refl)
    (fun p hp => hp)
    (fun u hu => Or.inr hu)
    (List.nodup_singleton start)
  obtain ⟨c1, c2, c3, c4, c5⟩ := hm
  refine ⟨fun p => ⟨c3 p, ?_⟩, c5, c2⟩
  intro hreach
  induction hreach with
  | refl => exact c1 start (List.mem_singleton.2 rfl)
  | tail hr2 hadj ih => exact c4 _ ih _ hadj

/-- Full behavioural characterization of checkConnectivityOfUnshaded in terms
of reachability from the first unshaded cell in row-major order. -/
theorem checkConnectivity_char (state : HitoriGameState) :
    ((unshadedPositions state.grid).length ≤ 1 →
      checkConnectivityOfUnshaded state = { ok := true, violations := [] }) ∧
    (1 < (unshadedPositions state.grid).length →
      ((∀ p ∈ unshadedPositions state.grid,
          ReachR state.grid ((unshadedPositions state.grid).headD default) p) →
        checkConnectivityOfUnshaded state = { ok := true, violations := [] }) ∧
      (¬(∀ p ∈ unshadedPositions state.grid,
          ReachR state.grid ((unshadedPositions state.grid).headD default) p) →
        (checkConnectivityOfUnshaded state).ok = false ∧
        ∃ cells, (checkConnectivityOfUnshaded state).violations =
            [{ kind := RuleViolationKind.connectivity, index := none, value := none,
               cells := cells }] ∧
          cells.Nodup ∧
          (∀ p, p ∈ cells ↔ p ∈ unshadedPositions state.grid ∧
            ¬ ReachR state.grid ((unshadedPositions state.grid).headD default) p))) := by
  constructor
  · intro h
    simp only [checkConnectivityOfUnshaded]
    rw [if_pos h]
  · intro hgt
    have hne : unshadedPositions state.grid ≠ [] := by
      intro h
      rw [h] at hgt
      simp at hgt
    have hstart : (unshadedPositions state.grid).headD default ∈
        unshadedPositions state.grid := by
      cases h : unshadedPositions state.grid with
      | nil => exact absurd h hne
      | cons a tl => simp
    obtain ⟨hsr, hsc, hsw⟩ := mem_unshadedPositions.1 hstart
    obtain ⟨hiff, hnd, hprops⟩ := bfsLoop_start_char hsr hsc hsw
    have hsub : bfsLoop state.grid [(unshadedPositions state.grid).headD default]
        [(unshadedPositions state.grid).headD default] ⊆ unshadedPositions state.grid :=
      fun p hp => mem_unshadedPositions.2 (hprops p hp)
    constructor
    · intro hall
      have husub : unshadedPositions state.grid ⊆
          bfsLoop state.grid [(unshadedPositions state.grid).headD default]
            [(unshadedPositions state.grid).headD default] :=
        fun p hp => (hiff p).2 (hall p hp)
      have hlen : (bfsLoop state.grid [(unshadedPositions state.grid).headD default]
          [(unshadedPositions state.grid).headD default]).length =
          (unshadedPositions state.grid).length :=
        le_antisymm (List.subperm_of_subset hnd hsub).length_le
          (List.subperm_of_subset (unshadedPositions_nodup _) husub).length_le
      simp only [checkConnectivityOfUnshaded]
      rw [if_neg (by omega)]
      rw [if_pos (beq_iff_eq.2 hlen)]
    · intro hnall
      push_neg at hnall
      obtain ⟨w, hwU, hwR⟩ := hnall
      have hwV : w ∉ bfsLoop state.grid [(unshadedPositions state.grid).headD default]
          [(unshadedPositions state.grid).headD default] :=
        fun h => hwR ((hiff w).1 h)
      have hlt : (bfsLoop state.grid [(unshadedPositions state.grid).headD default]
          [(unshadedPositions state.grid).headD default]).length ≠
          (unshadedPositions state.grid).length := by
        intro heq
        have hperm := (List.subperm_of_subset hnd hsub).perm_of_length_le (le_of_eq heq.symm)
        exact hwV (hperm.mem_iff.2 hwU)
      have hcond : ((bfsLoop state.grid [(unshadedPositions state.grid).headD default]
          [(unshadedPositions state.grid).headD default]).length ==
          (unshadedPositions state.grid).length) = false := by
        rw [beq_eq_false_iff_ne]
        exact hlt
      simp only [checkConnectivityOfUnshaded]
      rw [if_neg (by omega)]
      rw [if_neg (by rw [hcond]; exact Bool.false_ne_true)]
      refine ⟨rfl,
        (unshadedPositions state.grid).filter (fun p =>
          decide (p ∉ bfsLoop state.grid [(unshadedPositions state.grid).headD default]
            [(unshadedPositions state.grid).headD default])), rfl,
        (unshadedPositions_nodup _).filter _, ?_⟩
      intro p
      simp only [List.mem_filter, decide_eq_true_eq]
      constructor
      · rintro ⟨h1, h2⟩
        exact ⟨h1, fun hr2 => h2 ((hiff p).2 hr2)⟩
      · rintro ⟨h1, h2⟩
        exact ⟨h1, fun hv => h2 ((hiff p).1 hv)⟩

/-! ## Generic matrix access lemmas -/

theorem getD_map_range {α : Type} {n r : Nat} {f : Nat → α} (hr : r < n) (d : α) :
    ((List.range n).map f).getD r d = f r := by
  rw [List.getD_eq_getElem?_getD,
    List.getElem?_eq_getElem (by simpa using hr)]
  simp

theorem get2_rangeMap2 {α : Type} [Inhabited α] {n r c : Nat} {f : Nat → Nat → α}
    (hr : r < n) (hc : c < n) :
    get2 ((List.range n).map (fun i => (List.range n).map (fun j => f i j))) r c = f r c := by
  unfold get2
  rw [getD_map_range hr, getD_map_range hc]

theorem getD_set_self {l : List α} {i : Nat} (hi : i < l.length) (a d : α) :
    (l.set i a).getD i d = a := by
  rw [List.getD_eq_getElem?_getD, List.getElem?_set_self hi]
  rfl

theorem getD_set_ne {l : List α} {i j : Nat} (h : i ≠ j) (a d : α) :
    (l.set i a).getD j d = l.getD j d := by
  rw [List.getD_eq_getElem?_getD, List.getElem?_set_ne h, ← List.getD_eq_getElem?_getD]

theorem get2_set2_same {α : Type} [Inhabited α] {m : List (List α)} {r c : Nat}
    (hr : r < m.length) (hc : c < (m.getD r []).length) (v : α) :
    get2 (set2 m r c v) r c = v := by
  unfold get2 set2
  rw [getD_set_self (by simpa using hr), getD_set_self (by simpa using hc)]

theorem get2_set2_ne {α : Type} [Inhabited α] {m : List (List α)} {r c r2 c2 : Nat}
    (h : r ≠ r2 ∨ c ≠ c2) (v : α) :
    get2 (set2 m r c v) r2 c2 = get2 m r2 c2 := by
  unfold get2 set2
  by_cases hr : r = r2
  · subst hr
    have hc : c ≠ c2 := by tauto
    by_cases hlen : r < m.length
    · rw [getD_set_self (by simpa using hlen), getD_set_ne hc]
    · rw [List.set_eq_of_length_le (by omega)]
  · rw [getD_set_ne hr]

theorem length_set2 {α : Type} (m : List (List α)) (r c : Nat) (v : α) :
    (set2 m r c v).length = m.length := by
  unfold set2
  exact List.length_set _ _ _

theorem dims2_set2 {α : Type} {m : List (List α)} {rows cols r c : Nat} {v : α}
    (h : dims2 m rows cols) : dims2 (set2 m r c v) rows cols := by
  obtain ⟨h1, h2⟩ := h
  by_cases hr : r < m.length
  · refine ⟨by rw [length_set2]; exact h1, ?_⟩
    intro row hrow
    unfold set2 at hrow
    rcases List.mem_or_eq_of_mem_set hrow with h3 | h3
    · exact h2 row h3
    · subst h3
      rw [List.length_set]
      have hmem : m.getD r [] ∈ m := by
        rw [List.getD_eq_getElem?_getD, List.getElem?_eq_getElem (by simpa using hr)]
        exact List.getElem_mem _
      exact h2 _ hmem
  · unfold set2
    rw [List.set_eq_of_length_le (by omega)]
    exact ⟨h1, h2⟩

/-- One undirected 4-neighbour step between in-bounds white cells of a
boolean shading grid, in the generator's (x, y) coordinates. -/
def adjD (n : Nat) (sh : List (List Bool)) (p q : Nat × Nat) : Prop :=
  p.1 < n ∧ p.2 < n ∧ q.1 < n ∧ q.2 < n ∧
  shAt sh p.1 p.2 = false ∧ shAt sh q.1 q.2 = false ∧
  ((p.1 = q.1 ∧ (p.2 + 1 = q.2 ∨ q.2 + 1 = p.2)) ∨
   (p.2 = q.2 ∧ (p.1 + 1 = q.1 ∨ q.1 + 1 = p.1)))

/-- Reachability through white cells of a shading grid. -/
def ReachD (n : Nat) (sh : List (List Bool)) (p q : Nat × Nat) : Prop :=
  Relation.ReflTransGen (adjD n sh) p q

theorem adjD_symm (n : Nat) (sh : List (List Bool)) : Symmetric (adjD n sh) := by
  rintro p q ⟨h1, h2, h3, h4, h5, h6, h7⟩
  refine ⟨h3, h4, h1, h2, h6, h5, ?_⟩
  rcases h7 with ⟨he, hd⟩ | ⟨he, hd⟩
  · exact Or.inl ⟨he.symm, hd.symm⟩
  · exact Or.inr ⟨he.symm, hd.symm⟩

theorem ReachD_symm {n : Nat} {sh : List (List Bool)} {p q : Nat × Nat}
    (h : ReachD n sh p q) : ReachD n sh q p :=
  Relation.ReflTransGen.symmetric (adjD_symm n sh) h

theorem ReachD_trans {n : Nat} {sh : List (List Bool)} {p q r : Nat × Nat}
    (h1 : ReachD n sh p q) (h2 : ReachD n sh q r) : ReachD n sh p r :=
  Relation.ReflTransGen.trans h1 h2

/-- Completeness of one DFS expansion: every white in-bounds neighbour of
(x, y) that is not yet in the visited list appears among the pushes. -/
theorem dfsNeighbors_complete {n : Nat} {sh : List (List Bool)}
    {v : List (Nat × Nat)} {x y : Nat} {q : Nat × Nat}
    (hq1 : q.1 < n) (hq2 : q.2 < n) (hw : shAt sh q.1 q.2 = false) (hv : q ∉ v)
    (hnb : ((x = q.1 ∧ (y + 1 = q.2 ∨ q.2 + 1 = y)) ∨
            (y = q.2 ∧ (x + 1 = q.1 ∨ q.1 + 1 = x)))) :
    q ∈ dfsNeighbors n sh v x y := by
  simp only [dfsNeighbors, List.mem_filterMap]
  have hgen : ∀ c : Int × Int, c.1 = (q.1 : Int) → c.2 = (q.2 : Int) →
      (if c.1 < 0 ∨ (n : Int) ≤ c.1 ∨ c.2 < 0 ∨ (n : Int) ≤ c.2 then none
       else if shAt sh c.1.toNat c.2.toNat then none
       else if (c.1.toNat, c.2.toNat) ∈ v then none
       else some (c.1.toNat, c.2.toNat)) = some q := by
    intro c hc1 hc2
    rw [if_neg (by omega)]
    have e1 : c.1.toNat = q.1 := by omega
    have e2 : c.2.toNat = q.2 := by omega
    rw [e1, e2]
    rw [if_neg (by rw [hw]; exact Bool.false_ne_true)]
    rw [if_neg (by
      intro hc
      exact hv (by
        have : ((q.1, q.2) : Nat × Nat) = q := rfl
        rw [← this]
        exact hc))]
  rcases hnb with ⟨he, hd | hd⟩ | ⟨he, hd | hd⟩
  · exact ⟨((x : Int), (y : Int) + 1), by simp, hgen _ (by omega) (by omega)⟩
  · exact ⟨((x : Int), (y : Int) - 1), by simp, hgen _ (by omega) (by omega)⟩
  · exact ⟨((x : Int) + 1, (y : Int)), by simp, hgen _ (by omega) (by omega)⟩
  · exact ⟨((x : Int) - 1, (y : Int)), by simp, hgen _ (by omega) (by omega)⟩

theorem dfsLoop_nil (n : Nat) (sh : List (List Bool)) (visited : List (Nat × Nat))
    (count : Nat) (h : ∀ p ∈ ([] : List (Nat × Nat)), p.1 < n ∧ p.2 < n) :
    dfsLoop n sh visited [] count h = (visited, count) := by
  rw [dfsLoop.eq_def]

theorem dfsLoop_cons (n : Nat) (sh : List (List Bool)) (visited : List (Nat × Nat))
    (p : Nat × Nat) (rest : List (Nat × Nat)) (count : Nat)
    (h : ∀ q ∈ p :: rest, q.1 < n ∧ q.2 < n) :
    dfsLoop n sh visited (p :: rest) count h =
      if p ∈ visited then
        dfsLoop n sh visited rest count (fun q hq => h q (List.mem_cons_of_mem _ hq))
      else
        dfsLoop n sh (p :: visited)
          ((dfsNeighbors n sh (p :: visited) p.1 p.2).reverse ++ rest) (count + 1)
          (fun q hq => by
            rcases List.mem_append.1 hq with h2 | h2
            · obtain ⟨h3, h4, _⟩ := dfsNeighbors_sound q (List.mem_reverse.1 h2)
              exact ⟨h3, h4⟩
            · exact h q (List.mem_cons_of_mem _ h2)) := by
  rw [dfsLoop.eq_def]

/-- Master invariant theorem for the DFS loop of isWhiteConnected. -/
theorem dfsLoop_master (n : Nat) (sh : List (List Bool)) (root : Nat × Nat) :
    ∀ (visited stack : List (Nat × Nat)) (count : Nat)
      (hstack : ∀ p ∈ stack, p.1 < n ∧ p.2 < n),
    (∀ p ∈ visited, p.1 < n ∧ p.2 < n ∧ shAt sh p.1 p.2 = false) →
    (∀ p ∈ visited, ReachD n sh root p) →
    (∀ p ∈ stack, shAt sh p.1 p.2 = false ∧ ReachD n sh root p) →
    (∀ u ∈ visited, ∀ v2, adjD n sh u v2 → v2 ∈ visited ∨ v2 ∈ stack) →
    visited.Nodup →
    count = visited.length →
    (∀ p ∈ visited, p ∈ (dfsLoop n sh visited stack count hstack).1) ∧
    (∀ p ∈ stack, p ∈ (dfsLoop n sh visited stack count hstack).1) ∧
    (∀ p ∈ (dfsLoop n sh visited stack count hstack).1,
      p.1 < n ∧ p.2 < n ∧ shAt sh p.1 p.2 = false) ∧
    (∀ p ∈ (dfsLoop n sh visited stack count hstack).1, ReachD n sh root p) ∧
    (∀ u ∈ (dfsLoop n sh visited stack count hstack).1, ∀ v2, adjD n sh u v2 →
      v2 ∈ (dfsLoop n sh visited stack count hstack).1) ∧
    (dfsLoop n sh visited stack count hstack).1.Nodup ∧
    (dfsLoop n sh visited stack count hstack).2 =
      (dfsLoop n sh visited stack count hstack).1.length := by
  intro visited stack count hstack
  induction visited, stack, count, hstack using dfsLoop.induct n sh with
  | case1 visited count hstack _ =>
    intro h1 h2 _ h4 h5 h6
    rw [dfsLoop_nil]
    refine ⟨fun p hp => hp, fun p hp => absurd hp (List.not_mem_nil p), h1, h2, ?_, h5, h6⟩
    intro u hu v2 hadj
    rcases h4 u hu v2 hadj with h | h
    · exact h
    · cases h
  | case2 visited count p rest hstack hin _ ih =>
    intro h1 h2 h3 h4 h5 h6
    rw [dfsLoop_cons, if_pos hin]
    have h3' : ∀ q ∈ rest, shAt sh q.1 q.2 = false ∧ ReachD n sh root q :=
      fun q hq => h3 q (List.mem_cons_of_mem _ hq)
    have h4' : ∀ u ∈ visited, ∀ v2, adjD n sh u v2 → v2 ∈ visited ∨ v2 ∈ rest := by
      intro u hu v2 hadj
      rcases h4 u hu v2 hadj with h | h
      · exact Or.inl h
      · rcases List.mem_cons.1 h with rfl | h2
        · exact Or.inl hin
        · exact Or.inr h2
    obtain ⟨c1, c2, c3, c4, c5, c6, c7⟩ := ih h1 h2 h3' h4' h5 h6
    refine ⟨c1, ?_, c3, c4, c5, c6, c7⟩
    intro q hq
    rcases List.mem_cons.1 hq with rfl | h2
    · exact c1 q hin
    · exact c2 q h2
  | case3 visited count p rest hstack hin _ ih =>
    intro h1 h2 h3 h4 h5 h6
    rw [dfsLoop_cons, if_neg hin]
    have hpb := hstack p (List.mem_cons_self _ _)
    have hpw := (h3 p (List.mem_cons_self _ _)).1
    have hpR := (h3 p (List.mem_cons_self _ _)).2
    have h1' : ∀ q ∈ p :: visited, q.1 < n ∧ q.2 < n ∧ shAt sh q.1 q.2 = false := by
      intro q hq
      rcases List.mem_cons.1 hq with rfl | h
      · exact ⟨hpb.1, hpb.2, hpw⟩
      · exact h1 q h
    have h2' : ∀ q ∈ p :: visited, ReachD n sh root q := by
      intro q hq
      rcases List.mem_cons.1 hq with rfl | h
      · exact hpR
      · exact h2 q h
    have hpushadj : ∀ q ∈ dfsNeighbors n sh (p :: visited) p.1 p.2, adjD n sh p q := by
      intro q hq
      obtain ⟨hq1, hq2, hqw, hqv, hrel⟩ := dfsNeighbors_sound q hq
      refine ⟨hpb.1, hpb.2, hq1, hq2, hpw, hqw, ?_⟩
      rcases hrel with h | h | h | h
      · rw [Prod.ext_iff] at h
        exact Or.inr ⟨by omega, Or.inr (by omega)⟩
      · rw [Prod.ext_iff] at h
        exact Or.inr ⟨by omega, Or.inl (by omega)⟩
      · rw [Prod.ext_iff] at h
        exact Or.inl ⟨by omega, Or.inr (by omega)⟩
      · rw [Prod.ext_iff] at h
        exact Or.inl ⟨by omega, Or.inl (by omega)⟩
    have h3' : ∀ q ∈ (dfsNeighbors n sh (p :: visited) p.1 p.2).reverse ++ rest,
        shAt sh q.1 q.2 = false ∧ ReachD n sh root q := by
      intro q hq
      rcases List.mem_append.1 hq with h | h
      · have h2 := List.mem_reverse.1 h
        obtain ⟨_, _, hqw, _, _⟩ := dfsNeighbors_sound q h2
        exact ⟨hqw, Relation.ReflTransGen.tail hpR (hpushadj q h2)⟩
      · exact h3 q (List.mem_cons_of_mem _ h)
    have h4' : ∀ u ∈ p :: visited, ∀ v2, adjD n sh u v2 →
        v2 ∈ p :: visited ∨
          v2 ∈ (dfsNeighbors n sh (p :: visited) p.1 p.2).reverse ++ rest := by
      intro u hu v2 hadj
      rcases List.mem_cons.1 hu with rfl | h
      · by_cases hvv : v2 ∈ u :: visited
        · exact Or.inl hvv
        · refine Or.inr (List.mem_append_left _ (List.mem_reverse.2 ?_))
          obtain ⟨_, _, hv1, hv2, _, hvw, hrel⟩ := hadj
          exact dfsNeighbors_complete hv1 hv2 hvw hvv hrel
      · rcases h4 u h v2 hadj with h2 | h2
        · exact Or.inl (List.mem_cons_of_mem _ h2)
        · rcases List.mem_cons.1 h2 with rfl | h3
          · exact Or.inl (List.mem_cons_self _ _)
          · exact Or.inr (List.mem_append_right _ h3)
    have h5' : (p :: visited).Nodup := List.nodup_cons.2 ⟨hin, h5⟩
    have h6' : count + 1 = (p :: visited).length := by
      rw [List.length_cons]
      omega
    obtain ⟨c1, c2, c3, c4, c5, c6, c7⟩ := ih h1' h2' h3' h4' h5' h6'
    refine ⟨fun q hq => c1 q (List.mem_cons_of_mem _ hq), ?_, c3, c4, c5, c6, c7⟩
    intro q hq
    rcases List.mem_cons.1 hq with rfl | h
    · exact c1 q (List.mem_cons_self _ _)
    · exact c2 q (List.mem_append_right _ h)

theorem whiteCellsScan_nodup (sh : List (List Bool)) : (whiteCellsScan sh).Nodup := by
  unfold whiteCellsScan
  rw [List.nodup_flatMap]
  constructor
  · intro y _
    apply (List.nodup_range _).filterMap
    intro a a2 b hb hb2
    have ha : b = (a, y) := by
      by_cases hs : shAt sh a y
      · rw [if_pos hs] at hb
        cases hb
      · rw [if_neg hs] at hb
        exact (Option.some_inj.1 hb).symm
    have ha2 : b = (a2, y) := by
      by_cases hs : shAt sh a2 y
      · rw [if_pos hs] at hb2
        cases hb2
      · rw [if_neg hs] at hb2
        exact (Option.some_inj.1 hb2).symm
    rw [ha] at ha2
    exact (Prod.ext_iff.1 ha2).1
  · apply List.Pairwise.imp ?_ (List.pairwise_lt_range _)
    intro y y2 hlt
    intro b hb hb2
    simp only [List.mem_filterMap] at hb hb2
    obtain ⟨a, _, he⟩ := hb
    obtain ⟨a2, _, he2⟩ := hb2
    have h1 : b.2 = y := by
      by_cases hs : shAt sh a y
      · rw [if_pos hs] at he
        cases he
      · rw [if_neg hs] at he
        cases he
        rfl
    have h2 : b.2 = y2 := by
      by_cases hs : shAt sh a2 y2
      · rw [if_pos hs] at he2
        cases he2
      · rw [if_neg hs] at he2
        cases he2
        rfl
    omega

/-- Full behavioural characterization of isWhiteConnected: true exactly when
there is at least one white cell and every white cell is reachable from the
first one (in scan order) through white 4-neighbour steps. -/
theorem isWhiteConnected_char (sh : List (List Bool)) :
    isWhiteConnected sh = true ↔
      whiteCellsScan sh ≠ [] ∧
      ∀ w ∈ whiteCellsScan sh,
        ReachD sh.length sh ((whiteCellsScan sh).headD (0, 0)) w := by
  rw [isWhiteConnected.eq_def]
  split
  · rename_i h
    constructor
    · intro hfalse
      exact absurd hfalse (by simp)
    · rintro ⟨hne, _⟩
      exact absurd h hne
  · rename_i start tl h
    have hstartmem : start ∈ whiteCellsScan sh := by
      rw [h]
      exact List.mem_cons_self _ _
    obtain ⟨hs1, hs2, hs3⟩ := mem_whiteCellsScan.1 hstartmem
    have hpf : ∀ p ∈ [start], p.1 < sh.length ∧ p.2 < sh.length := by
      intro p hp
      rw [List.mem_singleton] at hp
      subst hp
      exact ⟨hs1, hs2⟩
    obtain ⟨c1, c2, c3, c4, c5, c6, c7⟩ := dfsLoop_master sh.length sh start [] [start] 0 hpf
      (fun p hp => absurd hp (List.not_mem_nil p))
      (fun p hp => absurd hp (List.not_mem_nil p))
      (by
        intro p hp
        rw [List.mem_singleton] at hp
        subst hp
        exact ⟨hs3, Relation.ReflTransGen.refl⟩)
      (fun u hu _ _ => absurd hu (List.not_mem_nil u))
      List.nodup_nil
      rfl
    have hsub : (dfsLoop sh.length sh [] [start] 0 hpf).1 ⊆ whiteCellsScan sh := by
      intro p hp
      exact mem_whiteCellsScan.2 (c3 p hp)
    have hstartin : start ∈ (dfsLoop sh.length sh [] [start] 0 hpf).1 :=
      c2 start (List.mem_singleton.2 rfl)
    have hhead : (whiteCellsScan sh).headD ((0 : Nat), (0 : Nat)) = start := by
      rw [h]
      rfl
    show ((dfsLoop sh.length sh [] [start] 0 hpf).2 == (whiteCellsScan sh).length) =
        true ↔ _
    rw [c7, beq_iff_eq, hhead]
    constructor
    · intro hlen
      refine ⟨by rw [h]; exact List.cons_ne_nil _ _, ?_⟩
      intro w hw
      have hperm := (List.subperm_of_subset c6 hsub).perm_of_length_le (le_of_eq hlen.symm)
      exact c4 w (hperm.mem_iff.2 hw)
    · rintro ⟨_, hall⟩
      have hmem : ∀ w, ReachD sh.length sh start w →
          w ∈ (dfsLoop sh.length sh [] [start] 0 hpf).1 := by
        intro w hr
        induction hr with
        | refl => exact hstartin
        | tail hstep hadj ih2 => exact c5 _ ih2 _ hadj
      exact le_antisymm (List.subperm_of_subset c6 hsub).length_le
        (List.subperm_of_subset (whiteCellsScan_nodup sh)
          (fun w hw => hmem w (hall w hw))).length_le

/-- The play state obtained from a boolean shading grid by marking exactly
the true cells Shaded and every other cell Undecided (cell (r,c) is shaded
iff sh[r][c]); used to compare the Constraint Engine with the generator's
internal predicates. -/
def stateOfShading (sh : List (List Bool)) : HitoriGameState :=
  { puzzle := { id := "shading", size := sh.length, numbers := [],
                difficulty := PuzzleDifficulty.easy, hasUniqueSolution := none }
    grid := { size := sh.length
              cells := (List.range sh.length).map (fun r =>
                (List.range sh.length).map (fun c =>
                  { row := r, col := c, value := 1,
                    state := if shAt sh c r then CellState.Shaded
                             else CellState.Unmarked })) }
    moves := 0
    startTime := none
    elapsedMs := 0 }

theorem stateOfShading_size (sh : List (List Bool)) :
    (stateOfShading sh).grid.size = sh.length := rfl

theorem cellAt_stateOfShading {sh : List (List Bool)} {r c : Nat}
    (hr : r < sh.length) (hc : c < sh.length) :
    cellAt (stateOfShading sh).grid r c =
      { row := r, col := c, value := 1,
        state := if shAt sh c r then CellState.Shaded else CellState.Unmarked } := by
  unfold cellAt stateOfShading
  exact get2_rangeMap2 hr hc

theorem state_stateOfShading {sh : List (List Bool)} {r c : Nat}
    (hr : r < sh.length) (hc : c < sh.length) :
    ((cellAt (stateOfShading sh).grid r c).state = CellState.Shaded ↔ shAt sh c r = true) := by
  rw [cellAt_stateOfShading hr hc]
  by_cases h : shAt sh c r <;> simp [h]

/-- violatesBlackAdjacency finds precisely the right/down shaded pairs. -/
theorem violatesBlackAdjacency_iff {sh : List (List Bool)} :
    violatesBlackAdjacency sh = true ↔
      ∃ x y, x < sh.length ∧ y < sh.length ∧ shAt sh x y = true ∧
        ((x + 1 < sh.length ∧ shAt sh (x + 1) y = true) ∨
         (y + 1 < sh.length ∧ shAt sh x (y + 1) = true)) := by
  simp only [violatesBlackAdjacency, List.any_eq_true, List.mem_range, Bool.and_eq_true,
    Bool.or_eq_true, decide_eq_true_eq]
  constructor
  · rintro ⟨y, hy, x, hx, h1, h2⟩
    rcases h2 with ⟨ha, hb⟩ | ⟨ha, hb⟩
    · exact ⟨x, y, hx, hy, h1, Or.inl ⟨ha, hb⟩⟩
    · exact ⟨x, y, hx, hy, h1, Or.inr ⟨ha, hb⟩⟩
  · rintro ⟨x, y, hx, hy, h1, h2⟩
    rcases h2 with ⟨ha, hb⟩ | ⟨ha, hb⟩
    · exact ⟨y, hy, x, hx, h1, Or.inl ⟨ha, hb⟩⟩
    · exact ⟨y, hy, x, hx, h1, Or.inr ⟨ha, hb⟩⟩

/-- No shaded cell of the grid has an in-bounds shaded orthogonal
neighbour. -/
def RulesNoAdjPair (g : HitoriGrid) : Prop :=
  ∀ r c, r < g.size → c < g.size → (cellAt g r c).state = CellState.Shaded →
    ∀ d ∈ ruleDirs,
      ¬(0 ≤ (r : Int) + d.1 ∧ (r : Int) + d.1 < (g.size : Int) ∧
        0 ≤ (c : Int) + d.2 ∧ (c : Int) + d.2 < (g.size : Int) ∧
        (cellAt g ((r : Int) + d.1).toNat ((c : Int) + d.2).toNat).state = CellState.Shaded)

theorem adjStep_cases (g : HitoriGrid) (rc : Nat × Nat)
    (acc : List (CellPosition × CellPosition) × List RuleViolation) (d : Int × Int) :
    adjStep g rc acc d = acc ∨
    ∃ key viol, adjStep g rc acc d = (key :: acc.1, acc.2 ++ [viol]) := by
  simp only [adjStep]
  split
  · exact Or.inl rfl
  · split
    · exact Or.inl rfl
    · split
      · exact Or.inl rfl
      · exact Or.inr ⟨_, _, rfl⟩

theorem adjStep_qlen {g : HitoriGrid} {rc : Nat × Nat}
    {acc : List (CellPosition × CellPosition) × List RuleViolation} {d : Int × Int}
    (h : acc.1.length = acc.2.length) :
    (adjStep g rc acc d).1.length = (adjStep g rc acc d).2.length := by
  rcases adjStep_cases g rc acc d with he | ⟨key, viol, he⟩ <;> rw [he] <;> simp [h]

theorem adjStep_rne {g : HitoriGrid} {rc : Nat × Nat}
    {acc : List (CellPosition × CellPosition) × List RuleViolation} {d : Int × Int}
    (h : acc.2 ≠ []) : (adjStep g rc acc d).2 ≠ [] := by
  rcases adjStep_cases g rc acc d with he | ⟨key, viol, he⟩ <;> rw [he]
  · exact h
  · simp

theorem adjStep_id {g : HitoriGrid} {rc : Nat × Nat}
    {acc : List (CellPosition × CellPosition) × List RuleViolation} {d : Int × Int}
    (h : ¬(0 ≤ (rc.1 : Int) + d.1 ∧ (rc.1 : Int) + d.1 < (g.size : Int) ∧
        0 ≤ (rc.2 : Int) + d.2 ∧ (rc.2 : Int) + d.2 < (g.size : Int) ∧
        (cellAt g ((rc.1 : Int) + d.1).toNat ((rc.2 : Int) + d.2).toNat).state =
          CellState.Shaded)) :
    adjStep g rc acc d = acc := by
  simp only [adjStep]
  by_cases hb : ((rc.1 : Int) + d.1 < 0 ∨ (g.size : Int) ≤ (rc.1 : Int) + d.1 ∨
      (rc.2 : Int) + d.2 < 0 ∨ (g.size : Int) ≤ (rc.2 : Int) + d.2)
  · rw [if_pos hb]
  · rw [if_neg hb]
    push_neg at hb
    have hns : (cellAt g ((rc.1 : Int) + d.1).toNat ((rc.2 : Int) + d.2).toNat).state ≠
        CellState.Shaded := by
      intro hs
      exact h ⟨by omega, by omega, by omega, by omega, hs⟩
    rw [if_pos hns]

theorem adjStep_trigger {g : HitoriGrid} {rc : Nat × Nat}
    {acc : List (CellPosition × CellPosition) × List RuleViolation} {d : Int × Int}
    (hq : acc.1.length = acc.2.length)
    (hb : 0 ≤ (rc.1 : Int) + d.1 ∧ (rc.1 : Int) + d.1 < (g.size : Int) ∧
        0 ≤ (rc.2 : Int) + d.2 ∧ (rc.2 : Int) + d.2 < (g.size : Int) ∧
        (cellAt g ((rc.1 : Int) + d.1).toNat ((rc.2 : Int) + d.2).toNat).state =
          CellState.Shaded) :
    (adjStep g rc acc d).2 ≠ [] := by
  simp only [adjStep]
  rw [if_neg (by omega)]
  rw [if_neg (by
    intro hc
    exact hc hb.2.2.2.2)]
  split
  · rename_i hkey
    intro hnil
    rw [hnil] at hq
    simp at hq
    rw [hq] at hkey
    cases hkey
  · simp

theorem adjCellStep_qlen {g : HitoriGrid}
    {acc : List (CellPosition × CellPosition) × List RuleViolation} {rc : Nat × Nat}
    (h : acc.1.length = acc.2.length) :
    (adjCellStep g acc rc).1.length = (adjCellStep g acc rc).2.length := by
  unfold adjCellStep
  split
  · exact h
  · exact foldl_preserve (Q := fun a => a.1.length = a.2.length)
      (fun b i hb => adjStep_qlen hb) ruleDirs acc h

theorem adjCellStep_rne {g : HitoriGrid}
    {acc : List (CellPosition × CellPosition) × List RuleViolation} {rc : Nat × Nat}
    (h : acc.2 ≠ []) : (adjCellStep g acc rc).2 ≠ [] := by
  unfold adjCellStep
  split
  · exact h
  · exact foldl_preserve (Q := fun a => a.2 ≠ [])
      (fun b i hb => adjStep_rne hb) ruleDirs acc h

/-- List fold of pointwise-identity steps is the identity. -/
theorem foldl_id {β ι : Type} {f : β → ι → β} :
    ∀ (l : List ι), (∀ d ∈ l, ∀ b, f b d = b) → ∀ b, l.foldl f b = b := by
  intro l
  induction l with
  | nil => intro _ _; rfl
  | cons d ds ih =>
    intro h b
    rw [List.foldl_cons, h d (List.mem_cons_self _ _)]
    exact ih (fun d2 hd2 b2 => h d2 (List.mem_cons_of_mem _ hd2) b2) b

/-- checkNoAdjacentShaded accepts exactly when no shaded cell has a shaded
orthogonal neighbour. -/
theorem checkNoAdjacentShaded_ok_iff (state : HitoriGameState) :
    ((checkNoAdjacentShaded state).ok = true ↔ RulesNoAdjPair state.grid) := by
  simp only [checkNoAdjacentShaded, beq_iff_eq, List.length_eq_zero]
  constructor
  · intro hok
    by_contra hpair
    unfold RulesNoAdjPair at hpair
    push_neg at hpair
    obtain ⟨r, c, hr, hc, hsh, d, hd, hcond⟩ := hpair
    obtain ⟨l1, l2, hsplit⟩ := List.append_of_mem
      (show (r, c) ∈ gridIndices state.grid.size from mem_gridIndices.2 ⟨hr, hc⟩)
    rw [hsplit, List.foldl_append, List.foldl_cons] at hok
    have hq1 : (List.foldl (adjCellStep state.grid) ([], []) l1).1.length =
        (List.foldl (adjCellStep state.grid) ([], []) l1).2.length :=
      foldl_preserve
        (Q := fun (a : List (CellPosition × CellPosition) × List RuleViolation) =>
          a.1.length = a.2.length)
        (fun b i hb => adjCellStep_qlen hb) l1 ([], []) rfl
    have hcellstep : adjCellStep state.grid
        (List.foldl (adjCellStep state.grid) ([], []) l1) (r, c) =
        ruleDirs.foldl (adjStep state.grid (r, c))
          (List.foldl (adjCellStep state.grid) ([], []) l1) := by
      unfold adjCellStep
      rw [if_neg (by
        intro hcon
        exact hcon hsh)]
    have hne : (adjCellStep state.grid
        (List.foldl (adjCellStep state.grid) ([], []) l1) (r, c)).2 ≠ [] := by
      rw [hcellstep]
      obtain ⟨d1, d2, hdsplit⟩ := List.append_of_mem hd
      rw [hdsplit, List.foldl_append, List.foldl_cons]
      have hq2 : (List.foldl (adjStep state.grid (r, c))
          (List.foldl (adjCellStep state.grid) ([], []) l1) d1).1.length =
          (List.foldl (adjStep state.grid (r, c))
            (List.foldl (adjCellStep state.grid) ([], []) l1) d1).2.length :=
        foldl_preserve
          (Q := fun (a : List (CellPosition × CellPosition) × List RuleViolation) =>
            a.1.length = a.2.length)
          (fun b i hb => adjStep_qlen hb) d1 _ hq1
      exact foldl_preserve
        (Q := fun (a : List (CellPosition × CellPosition) × List RuleViolation) =>
          a.2 ≠ [])
        (fun b i hb => adjStep_rne hb) d2 _ (adjStep_trigger hq2 hcond)
    have hfinal : (List.foldl (adjCellStep state.grid)
        (adjCellStep state.grid (List.foldl (adjCellStep state.grid) ([], []) l1) (r, c))
        l2).2 ≠ [] :=
      foldl_preserve
        (Q := fun (a : List (CellPosition × CellPosition) × List RuleViolation) =>
          a.2 ≠ [])
        (fun b i hb => adjCellStep_rne hb) l2 _ hne
    exact hfinal hok
  · intro hnp
    have hfix : ∀ (rc : Nat × Nat), rc ∈ gridIndices state.grid.size →
        ∀ (acc : List (CellPosition × CellPosition) × List RuleViolation),
          adjCellStep state.grid acc rc = acc := by
      intro rc hrc acc
      have hbnd := mem_gridIndices.1 hrc
      unfold adjCellStep
      split
      · rfl
      · rename_i hsh
        rw [not_not] at hsh
        exact foldl_id ruleDirs
          (fun d hd b => adjStep_id (hnp rc.1 rc.2 hbnd.1 hbnd.2 hsh d hd)) acc
    have hall : List.foldl (adjCellStep state.grid) ([], [])
        (gridIndices state.grid.size) = ([], []) :=
      foldl_id (gridIndices state.grid.size) (fun rc hrc b => hfix rc hrc b) ([], [])
    rw [hall]

theorem shAt_false_of_state {sh : List (List Bool)} {r c : Nat}
    (hr : r < sh.length) (hc : c < sh.length)
    (h : (cellAt (stateOfShading sh).grid r c).state ≠ CellState.Shaded) :
    shAt sh c r = false := by
  cases hb : shAt sh c r
  · rfl
  · exact absurd ((state_stateOfShading hr hc).2 hb) h

theorem state_ne_of_shAt_false {sh : List (List Bool)} {r c : Nat}
    (hr : r < sh.length) (hc : c < sh.length) (h : shAt sh c r = false) :
    (cellAt (stateOfShading sh).grid r c).state ≠ CellState.Shaded := by
  intro hs
  rw [(state_stateOfShading hr hc).1 hs] at h
  cases h

/-- The adjacency halves of the Constraint Engine and of the generator agree
on states built from a shading grid. -/
theorem adjacency_equiv (sh : List (List Bool)) :
    (checkNoAdjacentShaded (stateOfShading sh)).ok = !violatesBlackAdjacency sh := by
  cases hv : violatesBlackAdjacency sh
  · rw [Bool.not_false]
    rw [checkNoAdjacentShaded_ok_iff]
    intro r c hr hc hsh d hd hcond
    rw [stateOfShading_size] at hr hc
    have hshb : shAt sh c r = true := (state_stateOfShading hr hc).1 hsh
    obtain ⟨hb1, hb2, hb3, hb4, hnb⟩ := hcond
    rw [stateOfShading_size] at hb2 hb4
    have hfound : violatesBlackAdjacency sh = true := by
      rw [violatesBlackAdjacency_iff]
      simp only [ruleDirs, List.mem_cons, List.mem_singleton, List.not_mem_nil,
        or_false] at hd
      rcases hd with rfl | rfl | rfl | rfl
      · have e1 : ((r : Int) + 1).toNat = r + 1 := by omega
        have e2 : ((c : Int) + 0).toNat = c := by omega
        rw [e1, e2] at hnb
        have hnbb : shAt sh c (r + 1) = true :=
          (state_stateOfShading (by omega) hc).1 hnb
        exact ⟨c, r, hc, hr, hshb, Or.inr ⟨by omega, hnbb⟩⟩
      · have e1 : ((r : Int) + (-1)).toNat = r - 1 := by omega
        have e2 : ((c : Int) + 0).toNat = c := by omega
        rw [e1, e2] at hnb
        have hr1 : 1 ≤ r := by omega
        have hnbb : shAt sh c (r - 1) = true :=
          (state_stateOfShading (by omega) hc).1 hnb
        refine ⟨c, r - 1, hc, by omega, hnbb, Or.inr ⟨by omega, ?_⟩⟩
        have : r - 1 + 1 = r := by omega
        rw [this]
        exact hshb
      · have e1 : ((r : Int) + 0).toNat = r := by omega
        have e2 : ((c : Int) + 1).toNat = c + 1 := by omega
        rw [e1, e2] at hnb
        have hnbb : shAt sh (c + 1) r = true :=
          (state_stateOfShading hr (by omega)).1 hnb
        exact ⟨c, r, hc, hr, hshb, Or.inl ⟨by omega, hnbb⟩⟩
      · have e1 : ((r : Int) + 0).toNat = r := by omega
        have e2 : ((c : Int) + (-1)).toNat = c - 1 := by omega
        rw [e1, e2] at hnb
        have hc1 : 1 ≤ c := by omega
        have hnbb : shAt sh (c - 1) r = true :=
          (state_stateOfShading hr (by omega)).1 hnb
        refine ⟨c - 1, r, by omega, hr, hnbb, Or.inl ⟨by omega, ?_⟩⟩
        have : c - 1 + 1 = c := by omega
        rw [this]
        exact hshb
    rw [hv] at hfound
    cases hfound
  · rw [Bool.not_true]
    cases hok : (checkNoAdjacentShaded (stateOfShading sh)).ok
    · rfl
    · exfalso
      have hnp := (checkNoAdjacentShaded_ok_iff (stateOfShading sh)).1 hok
      obtain ⟨x, y, hx, hy, h1, h2⟩ := violatesBlackAdjacency_iff.1 hv
      rcases h2 with ⟨hb, hsh2⟩ | ⟨hb, hsh2⟩
      · refine hnp y x (by rw [stateOfShading_size]; omega)
          (by rw [stateOfShading_size]; omega)
          ((state_stateOfShading (by omega) (by omega)).2 h1) (0, 1) (by simp [ruleDirs]) ?_
        refine ⟨by omega, ?_, by omega, ?_, ?_⟩
        · rw [stateOfShading_size]
          omega
        · rw [stateOfShading_size]
          omega
        · have e1 : ((y : Int) + 0).toNat = y := by omega
          have e2 : ((x : Int) + 1).toNat = x + 1 := by omega
          rw [e1, e2]
          exact (state_stateOfShading (by omega) (by omega)).2 hsh2
      · refine hnp y x (by rw [stateOfShading_size]; omega)
          (by rw [stateOfShading_size]; omega)
          ((state_stateOfShading (by omega) (by omega)).2 h1) (1, 0) (by simp [ruleDirs]) ?_
        refine ⟨by omega, ?_, by omega, ?_, ?_⟩
        · rw [stateOfShading_size]
          omega
        · rw [stateOfShading_size]
          omega
        · have e1 : ((y : Int) + 1).toNat = y + 1 := by omega
          have e2 : ((x : Int) + 0).toNat = x := by omega
          rw [e1, e2]
          exact (state_stateOfShading (by omega) (by omega)).2 hsh2

/-- The generator's white scan is the transposed unshaded-position list of
the corresponding play state. -/
theorem whiteCellsScan_eq_map (sh : List (List Bool)) :
    whiteCellsScan sh =
      (unshadedPositions (stateOfShading sh).grid).map (fun p => (p.col, p.row)) := by
  unfold whiteCellsScan unshadedPositions
  rw [List.map_filterMap]
  rw [stateOfShading_size]
  unfold gridIndices
  rw [List.filterMap_flatMap]
  apply List.flatMap_congr
  intro y hy
  rw [List.mem_range] at hy
  rw [List.filterMap_map]
  apply List.filterMap_congr
  intro x hx
  rw [List.mem_range] at hx
  simp only [Function.comp]
  by_cases hs : shAt sh x y
  · rw [if_pos hs]
    rw [if_neg (by
      rw [not_not]
      exact (state_stateOfShading hy hx).2 hs)]
    rfl
  · rw [if_neg hs]
    rw [if_pos (state_ne_of_shAt_false hy hx (by simpa using hs))]
    rfl

theorem adjR_to_adjD {sh : List (List Bool)} {p q : CellPosition}
    (h : adjR (stateOfShading sh).grid p q) :
    adjD sh.length sh (p.col, p.row) (q.col, q.row) := by
  obtain ⟨h1, h2, h3, h4, h5, h6, h7⟩ := h
  rw [stateOfShading_size] at h1 h2 h3 h4
  refine ⟨h2, h1, h4, h3, shAt_false_of_state h1 h2 h5, shAt_false_of_state h3 h4 h6, ?_⟩
  rcases h7 with ⟨he, hd⟩ | ⟨he, hd⟩
  · exact Or.inr ⟨he, hd⟩
  · exact Or.inl ⟨he, hd⟩

theorem adjD_to_adjR {sh : List (List Bool)} {a b : Nat × Nat}
    (h : adjD sh.length sh a b) :
    adjR (stateOfShading sh).grid ⟨a.2, a.1⟩ ⟨b.2, b.1⟩ := by
  obtain ⟨h1, h2, h3, h4, h5, h6, h7⟩ := h
  refine ⟨h2, h1, h4, h3, state_ne_of_shAt_false h2 h1 h5, state_ne_of_shAt_false h4 h3 h6, ?_⟩
  rcases h7 with ⟨he, hd⟩ | ⟨he, hd⟩
  · exact Or.inr ⟨he, hd⟩
  · exact Or.inl ⟨he, hd⟩

theorem reachR_to_reachD {sh : List (List Bool)} {p q : CellPosition}
    (h : ReachR (stateOfShading sh).grid p q) :
    ReachD sh.length sh (p.col, p.row) (q.col, q.row) := by
  unfold ReachD
  unfold ReachR at h
  exact Relation.ReflTransGen.lift (fun p => (p.col, p.row))
    (fun a b hab => adjR_to_adjD hab) h

theorem reachD_to_reachR {sh : List (List Bool)} {a b : Nat × Nat}
    (h : ReachD sh.length sh a b) :
    ReachR (stateOfShading sh).grid ⟨a.2, a.1⟩ ⟨b.2, b.1⟩ := by
  unfold ReachR
  unfold ReachD at h
  exact Relation.ReflTransGen.lift (fun a => ((⟨a.2, a.1⟩ : CellPosition)))
    (fun a b hab => adjD_to_adjR hab) h

theorem checkConnectivity_ok_iff (state : HitoriGameState) :
    ((checkConnectivityOfUnshaded state).ok = true ↔
      ((unshadedPositions state.grid).length ≤ 1 ∨
        ∀ p ∈ unshadedPositions state.grid,
          ReachR state.grid ((unshadedPositions state.grid).headD default) p)) := by
  obtain ⟨h1, h2⟩ := checkConnectivity_char state
  by_cases hle : (unshadedPositions state.grid).length ≤ 1
  · rw [h1 hle]
    exact ⟨fun _ => Or.inl hle, fun _ => rfl⟩
  · obtain ⟨ha, hb⟩ := h2 (by omega)
    by_cases hall : ∀ p ∈ unshadedPositions state.grid,
        ReachR state.grid ((unshadedPositions state.grid).headD default) p
    · rw [ha hall]
      exact ⟨fun _ => Or.inr hall, fun _ => rfl⟩
    · obtain ⟨hok, _⟩ := hb hall
      rw [hok]
      refine ⟨fun hcontra => absurd hcontra Bool.false_ne_true, fun h => ?_⟩
      rcases h with h | h
      · omega
      · exact absurd h hall

/-- The connectivity halves of the Constraint Engine and of the generator
agree on states built from a shading grid with at least one white cell. -/
theorem connectivity_equiv (sh : List (List Bool))
    (hw : ∃ x y, x < sh.length ∧ y < sh.length ∧ shAt sh x y = false) :
    (checkConnectivityOfUnshaded (stateOfShading sh)).ok = isWhiteConnected sh := by
  obtain ⟨x0, y0, hx0, hy0, hw0⟩ := hw
  have hUne : unshadedPositions (stateOfShading sh).grid ≠ [] := by
    intro hnil
    have : (⟨y0, x0⟩ : CellPosition) ∈ unshadedPositions (stateOfShading sh).grid := by
      rw [mem_unshadedPositions, stateOfShading_size]
      exact ⟨hy0, hx0, state_ne_of_shAt_false hy0 hx0 hw0⟩
    rw [hnil] at this
    cases this
  have hscan := whiteCellsScan_eq_map sh
  have hScne : whiteCellsScan sh ≠ [] := by
    rw [hscan]
    intro hnil
    exact hUne (List.map_eq_nil_iff.1 hnil)
  have hhead : (whiteCellsScan sh).headD (0, 0) =
      (((unshadedPositions (stateOfShading sh).grid).headD default).col,
       ((unshadedPositions (stateOfShading sh).grid).headD default).row) := by
    cases hU : unshadedPositions (stateOfShading sh).grid with
    | nil => exact absurd hU hUne
    | cons u tl =>
      rw [hscan, hU]
      rfl
  have hiffs : (∀ p ∈ unshadedPositions (stateOfShading sh).grid,
      ReachR (stateOfShading sh).grid
        ((unshadedPositions (stateOfShading sh).grid).headD default) p) ↔
      (∀ w ∈ whiteCellsScan sh,
        ReachD sh.length sh ((whiteCellsScan sh).headD (0, 0)) w) := by
    constructor
    · intro hall w hwm
      rw [hscan, List.mem_map] at hwm
      obtain ⟨p, hp, rfl⟩ := hwm
      rw [hhead]
      exact reachR_to_reachD (hall p hp)
    · intro hall p hp
      have hwm : (p.col, p.row) ∈ whiteCellsScan sh := by
        rw [hscan, List.mem_map]
        exact ⟨p, hp, rfl⟩
      have := reachD_to_reachR (hall (p.col, p.row) hwm)
      rw [hhead] at this
      exact this
  by_cases hall : ∀ p ∈ unshadedPositions (stateOfShading sh).grid,
      ReachR (stateOfShading sh).grid
        ((unshadedPositions (stateOfShading sh).grid).headD default) p
  · have h1 : (checkConnectivityOfUnshaded (stateOfShading sh)).ok = true :=
      (checkConnectivity_ok_iff _).2 (Or.inr hall)
    have h2 : isWhiteConnected sh = true :=
      (isWhiteConnected_char sh).2 ⟨hScne, hiffs.1 hall⟩
    rw [h1, h2]
  · have hgt : 1 < (unshadedPositions (stateOfShading sh).grid).length := by
      rcases Nat.lt_or_ge 1 (unshadedPositions (stateOfShading sh).grid).length with h | h
      · exact h
      · exfalso
        apply hall
        intro p hp
        cases hU : unshadedPositions (stateOfShading sh).grid with
        | nil => exact absurd hU hUne
        | cons u tl =>
          have hlen1 : (u :: tl).length ≤ 1 := by
            rw [← hU]
            omega
          have htl : tl = [] := by
            rw [List.length_cons] at hlen1
            exact List.length_eq_zero.1 (by omega)
          subst htl
          rw [hU] at hp
          rw [List.mem_singleton] at hp
          subst hp
          exact Relation.ReflTransGen.refl
    have h1 : (checkConnectivityOfUnshaded (stateOfShading sh)).ok = false := by
      cases hok : (checkConnectivityOfUnshaded (stateOfShading sh)).ok
      · rfl
      · exfalso
        rcases (checkConnectivity_ok_iff _).1 hok with h | h
        · omega
        · exact hall h
    have h2 : isWhiteConnected sh = false := by
      cases hic : isWhiteConnected sh
      · rfl
      · exfalso
        obtain ⟨_, hreach⟩ := (isWhiteConnected_char sh).1 hic
        exact hall (hiffs.2 hreach)
    rw [h1, h2]

/-! ## Grid model: state-update characterizations -/

theorem getCell_inb (state : HitoriGameState) {row col : Int}
    (h1 : 0 ≤ row) (h2 : row < (state.grid.size : Int))
    (h3 : 0 ≤ col) (h4 : col < (state.grid.size : Int)) :
    getCell state row col = Except.ok (cellAt state.grid row.toNat col.toNat) := by
  unfold getCell
  rw [if_neg (by omega)]

theorem getCell_oob (state : HitoriGameState) {row col : Int}
    (h : row < 0 ∨ col < 0 ∨ (state.grid.size : Int) ≤ row ∨
      (state.grid.size : Int) ≤ col) :
    getCell state row col = Except.error "Cell out of bounds" := by
  unfold getCell
  rw [if_pos h]

theorem ite_ok_comm {α : Type} {c : Prop} [Decidable c] (a b : α) :
    (if c then (pure a : Except String α) else pure b) = Except.ok (if c then a else b) := by
  by_cases h : c
  · rw [if_pos h, if_pos h]
    rfl
  · rw [if_neg h, if_neg h]
    rfl

theorem map_id2 {α : Type} (m : List (List α)) :
    m.map (fun r => r.map (fun c => c)) = m := by
  simp

theorem dims2_getD {α : Type} {m : List (List α)} {rows cols r : Nat}
    (h : dims2 m rows cols) (hr : r < rows) : (m.getD r []).length = cols := by
  obtain ⟨h1, h2⟩ := h
  have hrlen : r < m.length := by omega
  rw [List.getD_eq_getElem?_getD, List.getElem?_eq_getElem hrlen]
  exact h2 _ (List.getElem_mem _)

/-- Reduction of setCellState on an in-bounds position: the no-op branch
deep-clones the grid without touching moves, the real-update branch writes
the one cell and increments moves. -/
theorem setCellState_eq (state : HitoriGameState) (row col : Int) (ns : CellState)
    (h1 : 0 ≤ row) (h2 : row < (state.grid.size : Int))
    (h3 : 0 ≤ col) (h4 : col < (state.grid.size : Int)) :
    setCellState state row col ns = Except.ok (
      if (cellAt state.grid row.toNat col.toNat).state = ns then
        { state with grid := { state.grid with
            cells := state.grid.cells.map (fun r => r.map (fun c => c)) } }
      else
        { state with
          grid := { size := state.grid.size
                    cells := set2 state.grid.cells row.toNat col.toNat
                      { cellAt state.grid row.toNat col.toNat with state := ns } }
          moves := state.moves + 1 }) := by
  unfold setCellState
  rw [getCell_inb state h1 h2 h3 h4]
  exact ite_ok_comm _ _

/-- Full behavioural characterization of an in-bounds setCellState call on a
well-formed grid. -/
theorem setCellState_char (state : HitoriGameState) (row col : Int) (ns : CellState)
    (hwf : gridWF state.grid)
    (h1 : 0 ≤ row) (h2 : row < (state.grid.size : Int))
    (h3 : 0 ≤ col) (h4 : col < (state.grid.size : Int)) :
    ∃ s2, setCellState state row col ns = Except.ok s2 ∧
      s2.puzzle = state.puzzle ∧ s2.startTime = state.startTime ∧
      s2.elapsedMs = state.elapsedMs ∧ s2.grid.size = state.grid.size ∧
      gridWF s2.grid ∧
      cellAt s2.grid row.toNat col.toNat =
        { cellAt state.grid row.toNat col.toNat with state := ns } ∧
      (∀ r2 c2, ¬(r2 = row.toNat ∧ c2 = col.toNat) →
        cellAt s2.grid r2 c2 = cellAt state.grid r2 c2) ∧
      s2.moves = (if (cellAt state.grid row.toNat col.toNat).state = ns
                  then state.moves else state.moves + 1) := by
  rw [setCellState_eq state row col ns h1 h2 h3 h4]
  by_cases hc : (cellAt state.grid row.toNat col.toNat).state = ns
  · rw [if_pos hc]
    have hcells : ({ state.grid with
        cells := state.grid.cells.map (fun r => r.map (fun c => c)) } : HitoriGrid) =
        state.grid := by
      rw [map_id2]
    refine ⟨_, rfl, rfl, rfl, rfl, rfl, ?_, ?_, ?_, ?_⟩
    · show gridWF { state.grid with
        cells := state.grid.cells.map (fun r => r.map (fun c => c)) }
      rw [hcells]
      exact hwf
    · show cellAt { state.grid with
          cells := state.grid.cells.map (fun r => r.map (fun c => c)) }
        row.toNat col.toNat = _
      rw [hcells]
      cases h2 : cellAt state.grid row.toNat col.toNat with
      | mk r0 c0 v0 s0 =>
        rw [h2] at hc
        rw [show s0 = ns from hc]
    · intro r2 c2 _
      show cellAt { state.grid with
          cells := state.grid.cells.map (fun r => r.map (fun c => c)) } r2 c2 = _
      rw [hcells]
    · rw [if_pos hc]
  · rw [if_neg hc]
    have hrow : row.toNat < state.grid.size := by omega
    have hcol : col.toNat < state.grid.size := by omega
    have hrowlen : row.toNat < state.grid.cells.length := by
      rw [hwf.1]
      exact hrow
    have hcollen : col.toNat < (state.grid.cells.getD row.toNat []).length := by
      rw [dims2_getD hwf hrow]
      exact hcol
    refine ⟨_, rfl, rfl, rfl, rfl, rfl, dims2_set2 hwf, ?_, ?_, ?_⟩
    · show get2 (set2 state.grid.cells row.toNat col.toNat _) row.toNat col.toNat = _
      exact get2_set2_same hrowlen hcollen _
    · intro r2 c2 hne
      show get2 (set2 state.grid.cells row.toNat col.toNat _) r2 c2 = _
      exact get2_set2_ne (by tauto) _
    · rw [if_neg hc]

/-- The fixed marking cycle Undecided → Shaded → Kept → Undecided. -/
def cycleNext : CellState → CellState
  | CellState.Unmarked => CellState.Shaded
  | CellState.Shaded => CellState.Kept
  | CellState.Kept => CellState.Unmarked

theorem cycleNext_ne (s : CellState) : cycleNext s ≠ s := by
  cases s <;> simp [cycleNext]

theorem cycleNext_three (s : CellState) : cycleNext (cycleNext (cycleNext s)) = s := by
  cases s <;> rfl

theorem cycleCellState_eq (state : HitoriGameState) (row col : Int)
    (h1 : 0 ≤ row) (h2 : row < (state.grid.size : Int))
    (h3 : 0 ≤ col) (h4 : col < (state.grid.size : Int)) :
    cycleCellState state row col =
      setCellState state row col (cycleNext (cellAt state.grid row.toNat col.toNat).state) := by
  unfold cycleCellState
  rw [getCell_inb state h1 h2 h3 h4]
  cases hs : (cellAt state.grid row.toNat col.toNat).state <;>
    simp only [Except.bind, bind, cycleNext] <;> rw [hs]

/-! ## Serialization lemmas -/

/-- Well-formedness of a puzzle definition as required by the data model:
positive size and a size x size numbers layout. -/
def puzzleWF (p : HitoriPuzzle) : Prop :=
  0 < p.size ∧ dims2 p.numbers p.size p.size

instance (p : HitoriPuzzle) : Decidable (puzzleWF p) := by
  unfold puzzleWF
  infer_instance

theorem bind_ok_eq {α β : Type} (a : α) (f : α → Except String β) :
    (Except.ok a >>= f) = f a := rfl

theorem pure_bind_eq {α β : Type} (a : α) (f : α → Except String β) :
    ((pure a : Except String α) >>= f) = f a := rfl

/-- The cells of a fresh initial grid for a well-formed puzzle. -/
def initCells (p : HitoriPuzzle) : List (List HitoriCell) :=
  (List.range p.size).map (fun r => (List.range p.size).map (fun c =>
    { row := r, col := c, value := get2 p.numbers r c, state := CellState.Unmarked }))

theorem createGridFromNumbers_ok {p : HitoriPuzzle} (hwf : puzzleWF p) :
    createGridFromNumbers p.numbers =
      Except.ok { size := p.size, cells := initCells p } := by
  obtain ⟨hpos, hdims⟩ := hwf
  simp only [createGridFromNumbers]
  rw [show p.numbers.length = p.size from hdims.1]
  rw [if_neg (by omega)]
  rw [if_neg (by
    simp only [List.any_eq_true, decide_eq_true_eq, not_exists, not_and, not_not]
    intro row hrow
    exact hdims.2 row hrow)]
  rfl

theorem createInitialState_ok {p : HitoriPuzzle} (hwf : puzzleWF p) :
    createInitialState p = Except.ok
      { puzzle := p, grid := { size := p.size, cells := initCells p },
        moves := 0, startTime := none, elapsedMs := 0 } := by
  unfold createInitialState
  rw [createGridFromNumbers_ok hwf]
  rfl

theorem initCells_length (p : HitoriPuzzle) : (initCells p).length = p.size := by
  simp [initCells]

theorem initCells_getD_length {p : HitoriPuzzle} {r : Nat} (hr : r < p.size) :
    ((initCells p).getD r []).length = p.size := by
  unfold initCells
  rw [getD_map_range hr]
  simp

theorem get2_initCells {p : HitoriPuzzle} {r c : Nat} (hr : r < p.size) (hc : c < p.size) :
    get2 (initCells p) r c =
      { row := r, col := c, value := get2 p.numbers r c, state := CellState.Unmarked } :=
  get2_rangeMap2 hr hc

theorem deserializeState_id_mismatch (p : HitoriPuzzle) (snap : SerializableGameState)
    (h : p.id ≠ snap.puzzleId) :
    deserializeState p snap = Except.error "Puzzle ID mismatch" := by
  unfold deserializeState
  rw [if_pos h]
  rfl

theorem deserializeState_size_mismatch (p : HitoriPuzzle) (snap : SerializableGameState)
    (hid : p.id = snap.puzzleId) (h : p.size ≠ snap.size) :
    deserializeState p snap = Except.error "Size mismatch when deserializing puzzle" := by
  unfold deserializeState
  rw [if_neg (fun hc => hc hid), if_pos h]
  rfl

theorem deserializeState_dims_mismatch (p : HitoriPuzzle) (snap : SerializableGameState)
    (hwf : puzzleWF p) (hid : p.id = snap.puzzleId) (hsz : p.size = snap.size)
    (hbad : snap.cellStates.length ≠ p.size ∨ ∃ row ∈ snap.cellStates, row.length ≠ p.size) :
    deserializeState p snap =
      Except.error "Serialized cellStates does not match expected dimensions" := by
  unfold deserializeState
  rw [if_neg (fun hc => hc hid), if_neg (fun hc => hc hsz)]
  rw [pure_bind_eq, pure_bind_eq, createInitialState_ok hwf, bind_ok_eq]
  rw [if_pos (by
    rcases hbad with h | ⟨row, hrow, hlen⟩
    · exact Or.inl h
    · refine Or.inr ?_
      rw [List.any_eq_true]
      exact ⟨row, hrow, by simpa using hlen⟩)]
  rfl

/-- The cells produced by a successful deserialization. -/
def deserCells (p : HitoriPuzzle) (snap : SerializableGameState) : List (List HitoriCell) :=
  (List.range p.size).map (fun r => (List.range p.size).map (fun c =>
    { row := r, col := c, value := get2 p.numbers r c, state := get2 snap.cellStates r c }))

theorem deserializeState_ok (p : HitoriPuzzle) (snap : SerializableGameState)
    (hwf : puzzleWF p) (hid : p.id = snap.puzzleId) (hsz : p.size = snap.size)
    (hlen : snap.cellStates.length = p.size)
    (hrows : ∀ row ∈ snap.cellStates, row.length = p.size) :
    deserializeState p snap = Except.ok
      { puzzle := p
        grid := { size := p.size, cells := deserCells p snap }
        moves := snap.moves
        elapsedMs := snap.elapsedMs
        startTime := snap.startTime } := by
  unfold deserializeState
  rw [if_neg (fun hc => hc hid), if_neg (fun hc => hc hsz)]
  rw [pure_bind_eq, pure_bind_eq, createInitialState_ok hwf, bind_ok_eq]
  rw [if_neg (by
    rintro (h | h)
    · exact h hlen
    · rw [List.any_eq_true] at h
      obtain ⟨row, hrow, hne⟩ := h
      simp only [decide_eq_true_eq] at hne
      exact hne (hrows row hrow))]
  have hcells : (List.range ((initCells p).length)).map (fun r =>
      (List.range (((initCells p).getD r []).length)).map (fun c =>
        { (get2 (initCells p) r c) with state := get2 snap.cellStates r c })) =
      deserCells p snap := by
    rw [initCells_length]
    apply List.map_congr_left
    intro r hr
    rw [List.mem_range] at hr
    rw [initCells_getD_length hr]
    apply List.map_congr_left
    intro c hc
    rw [List.mem_range] at hc
    rw [get2_initCells hr hc]
  show (Except.ok
      { puzzle := p
        grid := { size := p.size
                  cells := (List.range ((initCells p).length)).map (fun r =>
                    (List.range (((initCells p).getD r []).length)).map (fun c =>
                      { (get2 (initCells p) r c) with
                        state := get2 snap.cellStates r c })) }
        moves := snap.moves
        elapsedMs := snap.elapsedMs
        startTime := snap.startTime } : Except String HitoriGameState) =
    Except.ok
      { puzzle := p
        grid := { size := p.size, cells := deserCells p snap }
        moves := snap.moves
        elapsedMs := snap.elapsedMs
        startTime := snap.startTime }
  rw [hcells]

/-- Reading an n x n matrix back entry-by-entry reconstructs it. -/
theorem rangeMap_get2_eq {α : Type} [Inhabited α] {m : List (List α)} {n : Nat}
    (h : dims2 m n n) :
    (List.range n).map (fun r => (List.range n).map (fun c => get2 m r c)) = m := by
  apply List.ext_getElem
  · simp [h.1]
  intro i h1 h2
  simp only [List.getElem_map, List.getElem_range]
  apply List.ext_getElem
  · simp only [List.length_map, List.length_range]
    exact (h.2 _ (List.getElem_mem h2)).symm
  intro j hj1 hj2
  simp only [List.getElem_map, List.getElem_range, get2]
  rw [List.getD_eq_getElem _ _ h2, List.getD_eq_getElem _ _ hj2]

/-! ## Uniqueness bucket lemmas -/

/-- The reference (row, value) group: positions of the non-shaded cells of
row r holding value v, in column order. -/
def rowGroup (g : HitoriGrid) (r v : Nat) : List CellPosition :=
  (List.range g.size).filterMap (fun c =>
    if ¬((cellAt g r c).state = CellState.Shaded) ∧ (cellAt g r c).value = v
    then some ⟨r, c⟩ else none)

/-- The reference (column, value) group: positions of the non-shaded cells
of column c holding value v, in row order. -/
def colGroup (g : HitoriGrid) (c v : Nat) : List CellPosition :=
  (List.range g.size).filterMap (fun r =>
    if ¬((cellAt g r c).state = CellState.Shaded) ∧ (cellAt g r c).value = v
    then some ⟨r, c⟩ else none)

theorem bucketInsert_keys {β : Type} (b : List (Nat × List β)) (k : Nat) (p : β) :
    (bucketInsert b k p).map Prod.fst =
      if k ∈ b.map Prod.fst then b.map Prod.fst else b.map Prod.fst ++ [k] := by
  induction b with
  | nil => simp [bucketInsert]
  | cons e rest ih =>
    by_cases he : e.1 = k
    · simp [bucketInsert, he]
    · rw [bucketInsert, if_neg he]
      simp only [List.map_cons, ih]
      by_cases hk : k ∈ rest.map Prod.fst
      · rw [if_pos hk, if_pos (by simp [hk])]
      · rw [if_neg hk, if_neg (by
          simp only [List.map_cons, List.mem_cons]
          rintro (h | h)
          · exact he h.symm
          · exact hk h)]
        simp

theorem mem_bucketInsert {β : Type} {b : List (Nat × List β)}
    (hnd : (b.map Prod.fst).Nodup) {k : Nat} {p : β} {e2 : Nat × List β}
    (h : e2 ∈ bucketInsert b k p) :
    (e2 ∈ b ∧ e2.1 ≠ k) ∨ (∃ ps, (k, ps) ∈ b ∧ e2 = (k, ps ++ [p])) ∨
      (e2 = (k, [p]) ∧ k ∉ b.map Prod.fst) := by
  induction b with
  | nil =>
    rw [bucketInsert] at h
    simp only [List.mem_singleton] at h
    exact Or.inr (Or.inr ⟨h, by simp⟩)
  | cons e rest ih =>
    simp only [List.map_cons, List.nodup_cons] at hnd
    by_cases he : e.1 = k
    · rw [bucketInsert, if_pos he] at h
      rcases List.mem_cons.mp h with h | h
      · refine Or.inr (Or.inl ⟨e.2, ?_, ?_⟩)
        · exact List.mem_cons.mpr (Or.inl (by rw [← he]))
        · rw [h, he]
      · refine Or.inl ⟨List.mem_cons_of_mem _ h, fun hk => ?_⟩
        exact hnd.1 (he ▸ hk ▸ List.mem_map_of_mem Prod.fst h)
    · rw [bucketInsert, if_neg he] at h
      rcases List.mem_cons.mp h with h | h
      · exact Or.inl ⟨List.mem_cons.mpr (Or.inl h), by rw [h]; exact he⟩
      · rcases ih hnd.2 h with ⟨h1, h2⟩ | ⟨ps, h1, h2⟩ | ⟨h1, h2⟩
        · exact Or.inl ⟨List.mem_cons_of_mem _ h1, h2⟩
        · exact Or.inr (Or.inl ⟨ps, List.mem_cons_of_mem _ h1, h2⟩)
        · refine Or.inr (Or.inr ⟨h1, ?_⟩)
          simp only [List.map_cons, List.mem_cons]
          rintro (hk | hk)
          · exact he hk.symm
          · exact h2 hk

/-- Invariant tying a bucket list to the group function of the processed
prefix: keys are distinct, every entry holds exactly its group, and a key
is present iff its group is nonempty. -/
def BucketInv {β : Type} (gro : Nat → List β) (b : List (Nat × List β)) : Prop :=
  (b.map Prod.fst).Nodup ∧
  (∀ e ∈ b, e.2 = gro e.1 ∧ e.2 ≠ []) ∧
  (∀ k, k ∈ b.map Prod.fst ↔ gro k ≠ [])

theorem bucketInsert_inv {β : Type} {gro : Nat → List β}
    {b : List (Nat × List β)} (h : BucketInv gro b) (k0 : Nat) (p0 : β) :
    BucketInv (fun k => gro k ++ if k0 = k then [p0] else [])
      (bucketInsert b k0 p0) := by
  obtain ⟨hnd, hent, hkey⟩ := h
  refine ⟨?_, ?_, ?_⟩
  · rw [bucketInsert_keys]
    by_cases hk : k0 ∈ b.map Prod.fst
    · rw [if_pos hk]
      exact hnd
    · rw [if_neg hk]
      simp [List.nodup_append, hnd, hk]
  · intro e2 he2
    rcases mem_bucketInsert hnd he2 with ⟨h1, h2⟩ | ⟨ps, h1, h2⟩ | ⟨h1, h2⟩
    · obtain ⟨hv, hne⟩ := hent e2 h1
      refine ⟨?_, hne⟩
      show e2.2 = gro e2.1 ++ if k0 = e2.1 then [p0] else []
      rw [if_neg (fun hh => h2 hh.symm), List.append_nil]
      exact hv
    · obtain ⟨hv, _⟩ := hent (k0, ps) h1
      subst h2
      refine ⟨?_, by simp⟩
      show ps ++ [p0] = gro k0 ++ if k0 = k0 then [p0] else []
      rw [if_pos rfl]
      exact congrArg (fun l => l ++ [p0]) hv
    · subst h1
      have hgro : gro k0 = [] := by
        by_contra hne
        exact h2 ((hkey k0).mpr hne)
      refine ⟨?_, by simp⟩
      show [p0] = gro k0 ++ if k0 = k0 then [p0] else []
      rw [hgro, if_pos rfl]
      rfl
  · intro k
    rw [bucketInsert_keys]
    show (k ∈ if k0 ∈ b.map Prod.fst then b.map Prod.fst else b.map Prod.fst ++ [k0]) ↔
      gro k ++ (if k0 = k then [p0] else []) ≠ []
    by_cases hkk : k0 = k
    · subst hkk
      rw [if_pos rfl]
      constructor
      · intro _
        simp
      · intro _
        by_cases hk : k0 ∈ b.map Prod.fst
        · rwa [if_pos hk]
        · rw [if_neg hk]
          simp
    · rw [if_neg hkk, List.append_nil]
      by_cases hk : k0 ∈ b.map Prod.fst
      · rw [if_pos hk]
        exact hkey k
      · rw [if_neg hk]
        simp only [List.mem_append, List.mem_singleton]
        constructor
        · rintro (hh | hh)
          · exact (hkey k).mp hh
          · exact absurd hh.symm hkk
        · intro hh
          exact Or.inl ((hkey k).mpr hh)

theorem bucketFold_inv (P : Nat → Prop) [DecidablePred P] (val : Nat → Nat)
    {β : Type} (pos : Nat → β) :
    ∀ (l : List Nat) (gro : Nat → List β) (b : List (Nat × List β)),
      BucketInv gro b →
      BucketInv
        (fun k => gro k ++ l.filterMap (fun i =>
          if ¬ P i ∧ val i = k then some (pos i) else none))
        (l.foldl (fun b2 i => if P i then b2 else bucketInsert b2 (val i) (pos i)) b) := by
  intro l
  induction l with
  | nil =>
    intro gro b h
    simpa using h
  | cons i rest ih =>
    intro gro b h
    rw [List.foldl_cons]
    by_cases hP : P i
    · rw [if_pos hP]
      have hge : (fun k => gro k ++ (i :: rest).filterMap (fun j =>
          if ¬ P j ∧ val j = k then some (pos j) else none)) =
          (fun k => gro k ++ rest.filterMap (fun j =>
            if ¬ P j ∧ val j = k then some (pos j) else none)) := by
        funext k
        rw [List.filterMap_cons_none (by simp [hP])]
      rw [hge]
      exact ih gro b h
    · rw [if_neg hP]
      have h3 := ih _ _ (bucketInsert_inv h (val i) (pos i))
      have hge : (fun k => (gro k ++ if val i = k then [pos i] else []) ++
          rest.filterMap (fun j => if ¬ P j ∧ val j = k then some (pos j) else none)) =
          (fun k => gro k ++ (i :: rest).filterMap (fun j =>
            if ¬ P j ∧ val j = k then some (pos j) else none)) := by
        funext k
        rw [List.append_assoc]
        congr 1
        by_cases hv : val i = k
        · rw [if_pos hv, List.filterMap_cons_some (b := pos i) (by simp [hP, hv])]
          rfl
        · rw [if_neg hv, List.filterMap_cons_none (by simp [hv])]
          rfl
      rw [hge] at h3
      exact h3

theorem rowBucket_inv (g : HitoriGrid) (r : Nat) :
    BucketInv (fun v => rowGroup g r v) (rowBucket g r) := by
  have h := bucketFold_inv (fun c => (cellAt g r c).state = CellState.Shaded)
    (fun c => (cellAt g r c).value) (fun c => (⟨r, c⟩ : CellPosition))
    (List.range g.size) (fun _ => []) []
    ⟨by simp, by simp, by simp⟩
  obtain ⟨h1, h2, h3⟩ := h
  refine ⟨h1, fun e he => ?_, fun k => ?_⟩
  · obtain ⟨hv, hne⟩ := h2 e he
    simp only [List.nil_append] at hv
    exact ⟨hv, hne⟩
  · have := h3 k
    simp only [List.nil_append] at this
    exact this

theorem colBucket_inv (g : HitoriGrid) (c : Nat) :
    BucketInv (fun v => colGroup g c v) (colBucket g c) := by
  have h := bucketFold_inv (fun r => (cellAt g r c).state = CellState.Shaded)
    (fun r => (cellAt g r c).value) (fun r => (⟨r, c⟩ : CellPosition))
    (List.range g.size) (fun _ => []) []
    ⟨by simp, by simp, by simp⟩
  obtain ⟨h1, h2, h3⟩ := h
  refine ⟨h1, fun e he => ?_, fun k => ?_⟩
  · obtain ⟨hv, hne⟩ := h2 e he
    simp only [List.nil_append] at hv
    exact ⟨hv, hne⟩
  · have := h3 k
    simp only [List.nil_append] at this
    exact this

theorem filter_flatMap_comm {α β : Type} (l : List α) (f : α → List β) (p : β → Bool) :
    (l.flatMap f).filter p = l.flatMap (fun a => (f a).filter p) := by
  induction l with
  | nil => rfl
  | cons a rest ih => simp only [List.flatMap_cons, List.filter_append, ih]

theorem flatMap_single {β : Type} (g : Nat → List β) (r : Nat) :
    ∀ n, r < n → (∀ r2, r2 < n → r2 ≠ r → g r2 = []) →
      (List.range n).flatMap g = g r := by
  intro n
  induction n with
  | zero => intro hr _; omega
  | succ m ih =>
    intro hr h0
    rw [List.range_succ, List.flatMap_append]
    by_cases hm : r = m
    · subst hm
      have hnil : (List.range r).flatMap g = [] := by
        rw [List.flatMap_eq_nil_iff]
        intro x hx
        rw [List.mem_range] at hx
        exact h0 x (by omega) (by omega)
      rw [hnil, List.nil_append]
      simp [List.flatMap_cons]
    · have hr2 : r < m := by omega
      rw [ih hr2 (fun r2 h2 => h0 r2 (by omega))]
      have hgm : g m = [] := h0 m (by omega) (fun he => hm he.symm)
      simp [List.flatMap_cons, hgm]

theorem rowPart_filter_nil ( _g : HitoriGrid) (r v : Nat)
    (l : List (Nat × List CellPosition)) (hl : ∀ e2 ∈ l, e2.1 ≠ v) :
    ((l.filterMap (fun e =>
        if 1 < e.2.length then
          some ({ kind := RuleViolationKind.rowDuplicate, index := some r,
                  value := some e.1, cells := e.2 } : RuleViolation)
        else none)).filter (fun viol =>
        decide (viol.kind = RuleViolationKind.rowDuplicate ∧
          viol.index = some r ∧ viol.value = some v))) = [] := by
  rw [List.filter_eq_nil_iff]
  intro viol hviol
  obtain ⟨e2, he2, hfe⟩ := List.mem_filterMap.mp hviol
  by_cases h1 : 1 < e2.2.length
  · rw [if_pos h1] at hfe
    have hveq := (Option.some.inj hfe).symm
    subst hveq
    simp only [decide_eq_true_eq]
    rintro ⟨-, -, hc⟩
    exact hl e2 he2 (Option.some.inj hc)
  · rw [if_neg h1] at hfe
    exact absurd hfe (by simp)

theorem colPart_filter_nil ( _g : HitoriGrid) (c v : Nat)
    (l : List (Nat × List CellPosition)) (hl : ∀ e2 ∈ l, e2.1 ≠ v) :
    ((l.filterMap (fun e =>
        if 1 < e.2.length then
          some ({ kind := RuleViolationKind.columnDuplicate, index := some c,
                  value := some e.1, cells := e.2 } : RuleViolation)
        else none)).filter (fun viol =>
        decide (viol.kind = RuleViolationKind.columnDuplicate ∧
          viol.index = some c ∧ viol.value = some v))) = [] := by
  rw [List.filter_eq_nil_iff]
  intro viol hviol
  obtain ⟨e2, he2, hfe⟩ := List.mem_filterMap.mp hviol
  by_cases h1 : 1 < e2.2.length
  · rw [if_pos h1] at hfe
    have hveq := (Option.some.inj hfe).symm
    subst hveq
    simp only [decide_eq_true_eq]
    rintro ⟨-, -, hc⟩
    exact hl e2 he2 (Option.some.inj hc)
  · rw [if_neg h1] at hfe
    exact absurd hfe (by simp)

/-- Filtering the violations built from one row bucket down to one value
yields exactly the group violation when the group repeats, else nothing. -/
theorem rowPart_filter (g : HitoriGrid) (r v : Nat) :
    ((rowBucket g r).filterMap (fun e =>
        if 1 < e.2.length then
          some ({ kind := RuleViolationKind.rowDuplicate, index := some r,
                  value := some e.1, cells := e.2 } : RuleViolation)
        else none)).filter (fun viol =>
        decide (viol.kind = RuleViolationKind.rowDuplicate ∧
          viol.index = some r ∧ viol.value = some v)) =
      (if 1 < (rowGroup g r v).length then
        [{ kind := RuleViolationKind.rowDuplicate, index := some r,
           value := some v, cells := rowGroup g r v }]
      else []) := by
  obtain ⟨hnd, hent, hkey⟩ := rowBucket_inv g r
  by_cases hlen : 1 < (rowGroup g r v).length
  · rw [if_pos hlen]
    have hne : rowGroup g r v ≠ [] := by
      intro hh
      rw [hh] at hlen
      simp at hlen
    have hv : v ∈ (rowBucket g r).map Prod.fst := (hkey v).mpr hne
    obtain ⟨e, he, hev⟩ := List.mem_map.mp hv
    obtain ⟨s, t, hst⟩ := List.append_of_mem he
    have hnd2 := hnd
    rw [hst, List.map_append, List.map_cons, List.nodup_append] at hnd2
    have hs : ∀ e2 ∈ s, e2.1 ≠ v := by
      intro e2 he2 hv2
      exact hnd2.2.2 (List.mem_map_of_mem Prod.fst he2)
        (by rw [hv2, ← hev]; exact List.mem_cons_self _ _)
    have ht : ∀ e2 ∈ t, e2.1 ≠ v := by
      intro e2 he2 hv2
      have hmem : e.1 ∉ List.map Prod.fst t := (List.nodup_cons.mp hnd2.2.1).1
      apply hmem
      rw [hev, ← hv2]
      exact List.mem_map_of_mem _ he2
    have hecells : e.2 = rowGroup g r v := by
      have h2 : e.2 = rowGroup g r e.1 := (hent e he).1
      rw [hev] at h2
      exact h2
    rw [hst, List.filterMap_append, List.filter_append, rowPart_filter_nil g r v s hs]
    rw [List.filterMap_cons_some (by rw [if_pos (by rw [hecells]; exact hlen)])]
    rw [List.filter_cons_of_pos (by simp [hev])]
    rw [rowPart_filter_nil g r v t ht, List.nil_append]
    rw [hev, hecells]
  · rw [if_neg hlen, List.filter_eq_nil_iff]
    intro viol hviol
    obtain ⟨e2, he2, hfe⟩ := List.mem_filterMap.mp hviol
    by_cases h1 : 1 < e2.2.length
    · rw [if_pos h1] at hfe
      have hveq := (Option.some.inj hfe).symm
      subst hveq
      simp only [decide_eq_true_eq]
      rintro ⟨-, -, hc⟩
      have hcv := Option.some.inj hc
      have h2 : e2.2 = rowGroup g r e2.1 := (hent e2 he2).1
      rw [hcv] at h2
      rw [h2] at h1
      exact hlen h1
    · rw [if_neg h1] at hfe
      exact absurd hfe (by simp)

/-- Column analogue of rowPart_filter. -/
theorem colPart_filter (g : HitoriGrid) (c v : Nat) :
    ((colBucket g c).filterMap (fun e =>
        if 1 < e.2.length then
          some ({ kind := RuleViolationKind.columnDuplicate, index := some c,
                  value := some e.1, cells := e.2 } : RuleViolation)
        else none)).filter (fun viol =>
        decide (viol.kind = RuleViolationKind.columnDuplicate ∧
          viol.index = some c ∧ viol.value = some v)) =
      (if 1 < (colGroup g c v).length then
        [{ kind := RuleViolationKind.columnDuplicate, index := some c,
           value := some v, cells := colGroup g c v }]
      else []) := by
  obtain ⟨hnd, hent, hkey⟩ := colBucket_inv g c
  by_cases hlen : 1 < (colGroup g c v).length
  · rw [if_pos hlen]
    have hne : colGroup g c v ≠ [] := by
      intro hh
      rw [hh] at hlen
      simp at hlen
    have hv : v ∈ (colBucket g c).map Prod.fst := (hkey v).mpr hne
    obtain ⟨e, he, hev⟩ := List.mem_map.mp hv
    obtain ⟨s, t, hst⟩ := List.append_of_mem he
    have hnd2 := hnd
    rw [hst, List.map_append, List.map_cons, List.nodup_append] at hnd2
    have hs : ∀ e2 ∈ s, e2.1 ≠ v := by
      intro e2 he2 hv2
      exact hnd2.2.2 (List.mem_map_of_mem Prod.fst he2)
        (by rw [hv2, ← hev]; exact List.mem_cons_self _ _)
    have ht : ∀ e2 ∈ t, e2.1 ≠ v := by
      intro e2 he2 hv2
      have hmem : e.1 ∉ List.map Prod.fst t := (List.nodup_cons.mp hnd2.2.1).1
      apply hmem
      rw [hev, ← hv2]
      exact List.mem_map_of_mem _ he2
    have hecells : e.2 = colGroup g c v := by
      have h2 : e.2 = colGroup g c e.1 := (hent e he).1
      rw [hev] at h2
      exact h2
    rw [hst, List.filterMap_append, List.filter_append, colPart_filter_nil g c v s hs]
    rw [List.filterMap_cons_some (by rw [if_pos (by rw [hecells]; exact hlen)])]
    rw [List.filter_cons_of_pos (by simp [hev])]
    rw [colPart_filter_nil g c v t ht, List.nil_append]
    rw [hev, hecells]
  · rw [if_neg hlen, List.filter_eq_nil_iff]
    intro viol hviol
    obtain ⟨e2, he2, hfe⟩ := List.mem_filterMap.mp hviol
    by_cases h1 : 1 < e2.2.length
    · rw [if_pos h1] at hfe
      have hveq := (Option.some.inj hfe).symm
      subst hveq
      simp only [decide_eq_true_eq]
      rintro ⟨-, -, hc⟩
      have hcv := Option.some.inj hc
      have h2 : e2.2 = colGroup g c e2.1 := (hent e2 he2).1
      rw [hcv] at h2
      rw [h2] at h1
      exact hlen h1
    · rw [if_neg h1] at hfe
      exact absurd hfe (by simp)

/-- A row bucket of a different row contributes nothing to the filtered
violations of row r. -/
theorem rowPart_filter_other (g : HitoriGrid) (r r2 v : Nat) (hne : r2 ≠ r) :
    ((rowBucket g r2).filterMap (fun e =>
        if 1 < e.2.length then
          some ({ kind := RuleViolationKind.rowDuplicate, index := some r2,
                  value := some e.1, cells := e.2 } : RuleViolation)
        else none)).filter (fun viol =>
        decide (viol.kind = RuleViolationKind.rowDuplicate ∧
          viol.index = some r ∧ viol.value = some v)) = [] := by
  rw [List.filter_eq_nil_iff]
  intro viol hviol
  obtain ⟨e, _, hfe⟩ := List.mem_filterMap.mp hviol
  by_cases h1 : 1 < e.2.length
  · rw [if_pos h1] at hfe
    have hveq := (Option.some.inj hfe).symm
    subst hveq
    simp only [decide_eq_true_eq]
    rintro ⟨-, hidx, -⟩
    exact hne (Option.some.inj hidx)
  · rw [if_neg h1] at hfe
    exact absurd hfe (by simp)

/-- Column analogue of rowPart_filter_other. -/
theorem colPart_filter_other (g : HitoriGrid) (c c2 v : Nat) (hne : c2 ≠ c) :
    ((colBucket g c2).filterMap (fun e =>
        if 1 < e.2.length then
          some ({ kind := RuleViolationKind.columnDuplicate, index := some c2,
                  value := some e.1, cells := e.2 } : RuleViolation)
        else none)).filter (fun viol =>
        decide (viol.kind = RuleViolationKind.columnDuplicate ∧
          viol.index = some c ∧ viol.value = some v)) = [] := by
  rw [List.filter_eq_nil_iff]
  intro viol hviol
  obtain ⟨e, _, hfe⟩ := List.mem_filterMap.mp hviol
  by_cases h1 : 1 < e.2.length
  · rw [if_pos h1] at hfe
    have hveq := (Option.some.inj hfe).symm
    subst hveq
    simp only [decide_eq_true_eq]
    rintro ⟨-, hidx, -⟩
    exact hne (Option.some.inj hidx)
  · rw [if_neg h1] at hfe
    exact absurd hfe (by simp)

/-- Full characterization of checkRowColumnUniqueness: ok iff no violations;
every violation is a row- or column-group violation for a repeated value;
and for each (index, value) pair the filtered violation list is exactly the
single group violation when the group has more than one member, else empty. -/
theorem rowColumnUniqueness_char (state : HitoriGameState) :
    ((checkRowColumnUniqueness state).ok = true ↔
      (checkRowColumnUniqueness state).violations = []) ∧
    (∀ viol ∈ (checkRowColumnUniqueness state).violations,
      (∃ r v, r < state.grid.size ∧ 1 < (rowGroup state.grid r v).length ∧
        viol = { kind := RuleViolationKind.rowDuplicate, index := some r,
                 value := some v, cells := rowGroup state.grid r v }) ∨
      (∃ c v, c < state.grid.size ∧ 1 < (colGroup state.grid c v).length ∧
        viol = { kind := RuleViolationKind.columnDuplicate, index := some c,
                 value := some v, cells := colGroup state.grid c v })) ∧
    (∀ r v, r < state.grid.size →
      (checkRowColumnUniqueness state).violations.filter (fun viol =>
          decide (viol.kind = RuleViolationKind.rowDuplicate ∧
            viol.index = some r ∧ viol.value = some v)) =
        (if 1 < (rowGroup state.grid r v).length then
          [{ kind := RuleViolationKind.rowDuplicate, index := some r,
             value := some v, cells := rowGroup state.grid r v }]
        else [])) ∧
    (∀ c v, c < state.grid.size →
      (checkRowColumnUniqueness state).violations.filter (fun viol =>
          decide (viol.kind = RuleViolationKind.columnDuplicate ∧
            viol.index = some c ∧ viol.value = some v)) =
        (if 1 < (colGroup state.grid c v).length then
          [{ kind := RuleViolationKind.columnDuplicate, index := some c,
             value := some v, cells := colGroup state.grid c v }]
        else [])) := by
  have hviol : (checkRowColumnUniqueness state).violations =
      (List.range state.grid.size).flatMap (fun r =>
        (rowBucket state.grid r).filterMap (fun e =>
          if 1 < e.2.length then
            some ({ kind := RuleViolationKind.rowDuplicate, index := some r,
                    value := some e.1, cells := e.2 } : RuleViolation)
          else none)) ++
      (List.range state.grid.size).flatMap (fun c =>
        (colBucket state.grid c).filterMap (fun e =>
          if 1 < e.2.length then
            some ({ kind := RuleViolationKind.columnDuplicate, index := some c,
                    value := some e.1, cells := e.2 } : RuleViolation)
          else none)) := rfl
  refine ⟨?_, ?_, ?_, ?_⟩
  · have hok : (checkRowColumnUniqueness state).ok =
        ((checkRowColumnUniqueness state).violations.length == 0) := rfl
    rw [hok]
    simp [List.length_eq_zero]
  · intro viol hv2
    rw [hviol, List.mem_append] at hv2
    rcases hv2 with hv2 | hv2
    · obtain ⟨r, hrmem, hmem2⟩ := List.mem_flatMap.mp hv2
      rw [List.mem_range] at hrmem
      obtain ⟨e, he, hfe⟩ := List.mem_filterMap.mp hmem2
      by_cases h1 : 1 < e.2.length
      · rw [if_pos h1] at hfe
        have hveq := (Option.some.inj hfe).symm
        have hg : e.2 = rowGroup state.grid r e.1 := ((rowBucket_inv state.grid r).2.1 e he).1
        refine Or.inl ⟨r, e.1, hrmem, ?_, ?_⟩
        · rw [← hg]
          exact h1
        · rw [hveq, hg]
      · rw [if_neg h1] at hfe
        exact absurd hfe (by simp)
    · obtain ⟨c, hcmem, hmem2⟩ := List.mem_flatMap.mp hv2
      rw [List.mem_range] at hcmem
      obtain ⟨e, he, hfe⟩ := List.mem_filterMap.mp hmem2
      by_cases h1 : 1 < e.2.length
      · rw [if_pos h1] at hfe
        have hveq := (Option.some.inj hfe).symm
        have hg : e.2 = colGroup state.grid c e.1 := ((colBucket_inv state.grid c).2.1 e he).1
        refine Or.inr ⟨c, e.1, hcmem, ?_, ?_⟩
        · rw [← hg]
          exact h1
        · rw [hveq, hg]
      · rw [if_neg h1] at hfe
        exact absurd hfe (by simp)
  · intro r v hr
    rw [hviol, List.filter_append]
    have hcol : ((List.range state.grid.size).flatMap (fun c =>
        (colBucket state.grid c).filterMap (fun e =>
          if 1 < e.2.length then
            some ({ kind := RuleViolationKind.columnDuplicate, index := some c,
                    value := some e.1, cells := e.2 } : RuleViolation)
          else none))).filter (fun viol =>
          decide (viol.kind = RuleViolationKind.rowDuplicate ∧
            viol.index = some r ∧ viol.value = some v)) = [] := by
      rw [List.filter_eq_nil_iff]
      intro viol hv2
      obtain ⟨c, _, hmem2⟩ := List.mem_flatMap.mp hv2
      obtain ⟨e, _, hfe⟩ := List.mem_filterMap.mp hmem2
      by_cases h1 : 1 < e.2.length
      · rw [if_pos h1] at hfe
        have hveq := (Option.some.inj hfe).symm
        subst hveq
        simp only [decide_eq_true_eq]
        rintro ⟨hk, -, -⟩
        exact absurd hk (by decide)
      · rw [if_neg h1] at hfe
        exact absurd hfe (by simp)
    rw [hcol, List.append_nil, filter_flatMap_comm]
    have hsingle := flatMap_single (fun r2 =>
      ((rowBucket state.grid r2).filterMap (fun e =>
        if 1 < e.2.length then
          some ({ kind := RuleViolationKind.rowDuplicate, index := some r2,
                  value := some e.1, cells := e.2 } : RuleViolation)
        else none)).filter (fun viol =>
        decide (viol.kind = RuleViolationKind.rowDuplicate ∧
          viol.index = some r ∧ viol.value = some v)))
      r state.grid.size hr
      (fun r2 _ hne => rowPart_filter_other state.grid r r2 v hne)
    rw [hsingle]
    exact rowPart_filter state.grid r v
  · intro c v hc
    rw [hviol, List.filter_append]
    have hrow : ((List.range state.grid.size).flatMap (fun r =>
        (rowBucket state.grid r).filterMap (fun e =>
          if 1 < e.2.length then
            some ({ kind := RuleViolationKind.rowDuplicate, index := some r,
                    value := some e.1, cells := e.2 } : RuleViolation)
          else none))).filter (fun viol =>
          decide (viol.kind = RuleViolationKind.columnDuplicate ∧
            viol.index = some c ∧ viol.value = some v)) = [] := by
      rw [List.filter_eq_nil_iff]
      intro viol hv2
      obtain ⟨r, _, hmem2⟩ := List.mem_flatMap.mp hv2
      obtain ⟨e, _, hfe⟩ := List.mem_filterMap.mp hmem2
      by_cases h1 : 1 < e.2.length
      · rw [if_pos h1] at hfe
        have hveq := (Option.some.inj hfe).symm
        subst hveq
        simp only [decide_eq_true_eq]
        rintro ⟨hk, -, -⟩
        exact absurd hk (by decide)
      · rw [if_neg h1] at hfe
        exact absurd hfe (by simp)
    rw [hrow, List.nil_append, filter_flatMap_comm]
    have hsingle := flatMap_single (fun c2 =>
      ((colBucket state.grid c2).filterMap (fun e =>
        if 1 < e.2.length then
          some ({ kind := RuleViolationKind.columnDuplicate, index := some c2,
                  value := some e.1, cells := e.2 } : RuleViolation)
        else none)).filter (fun viol =>
        decide (viol.kind = RuleViolationKind.columnDuplicate ∧
          viol.index = some c ∧ viol.value = some v)))
      c state.grid.size hc
      (fun c2 _ hne => colPart_filter_other state.grid c c2 v hne)
    rw [hsingle]
    exact colPart_filter state.grid c v

/-- Test fixture: a play state over a given numbers layout with a given
cell-state matrix, no moves and no elapsed time. -/
def stateOfNumbers (numbers : List (List Nat)) (states : List (List CellState)) :
    HitoriGameState :=
  { puzzle := { id := "fixture", size := numbers.length, numbers := numbers,
                difficulty := PuzzleDifficulty.easy, hasUniqueSolution := none }
    grid := { size := numbers.length
              cells := (List.range numbers.length).map (fun r =>
                (List.range numbers.length).map (fun c =>
                  { row := r, col := c, value := get2 numbers r c,
                    state := get2 states r c })) }
    moves := 0
    startTime := none
    elapsedMs := 0 }

/-! ## Hint lemmas -/

theorem one_lt_length_of_two_mem {α : Type} {l : List α} {a b : α}
    (ha : a ∈ l) (hb : b ∈ l) (hne : a ≠ b) : 1 < l.length := by
  rcases l with _ | ⟨x, _ | ⟨y, t⟩⟩
  · simp at ha
  · simp only [List.mem_singleton] at ha hb
    exact absurd (ha.trans hb.symm) hne
  · simp only [List.length_cons]
    omega

/-- Whenever analyzeGroup proposes a hint, its reason is duplicate
resolution, the suggested state is Shaded or Kept, and the targeted group
member is currently Unmarked. -/
theorem analyzeGroup_sound {cells : List GroupCell} {h : HitoriHint}
    (ha : analyzeGroup cells = some h) :
    h.reason = HitoriHintReason.duplicateResolution ∧
    (h.suggestedState = CellState.Shaded ∨ h.suggestedState = CellState.Kept) ∧
    ∃ target ∈ cells, target.row = h.row ∧ target.col = h.col ∧
      target.state = CellState.Unmarked := by
  simp only [analyzeGroup] at ha
  by_cases hlen : cells.length ≤ 1
  · rw [if_pos hlen] at ha
    exact absurd ha (by simp)
  · rw [if_neg hlen] at ha
    by_cases hk : (cells.filter (fun c => c.state == CellState.Kept)).length = 1
    · rw [if_pos hk] at ha
      cases hfind : cells.find? (fun c => c.state == CellState.Kept) with
      | none =>
        have hne : cells.filter (fun c => c.state == CellState.Kept) ≠ [] := by
          intro hnil
          rw [hnil] at hk
          simp at hk
        obtain ⟨x, hx⟩ := List.exists_mem_of_ne_nil _ hne
        have hxm := List.mem_filter.mp hx
        exact absurd hxm.2 (by simpa using List.find?_eq_none.mp hfind x hxm.1)
      | some keptCell =>
        simp only [hfind] at ha
        cases hfind2 : cells.find? (fun c =>
            !(c.row == keptCell.row && c.col == keptCell.col) &&
            !(c.state == CellState.Shaded)) with
        | none =>
          simp only [hfind2] at ha
          rw [if_neg (by
            rintro ⟨h0, -⟩
            rw [hk] at h0
            exact absurd h0 (by decide))] at ha
          exact absurd ha (by simp)
        | some target =>
          simp only [hfind2] at ha
          have hh := (Option.some.inj ha).symm
          subst hh
          have htmem := List.mem_of_find?_eq_some hfind2
          have htcond := List.find?_some hfind2
          simp only [Bool.and_eq_true, Bool.not_eq_true'] at htcond
          obtain ⟨hpos, hsh⟩ := htcond
          have hkmem := List.mem_of_find?_eq_some hfind
          have hkstate := List.find?_some hfind
          have htk : target.state ≠ CellState.Kept := by
            intro hst
            have hne2 : target ≠ keptCell := by
              intro he
              rw [he] at hpos
              simp at hpos
            have h2mem : target ∈ cells.filter (fun c => c.state == CellState.Kept) :=
              List.mem_filter.mpr ⟨htmem, by simp [hst]⟩
            have h3mem : keptCell ∈ cells.filter (fun c => c.state == CellState.Kept) :=
              List.mem_filter.mpr ⟨hkmem, hkstate⟩
            have := one_lt_length_of_two_mem h2mem h3mem hne2
            omega
          have htu : target.state = CellState.Unmarked := by
            cases hcs : target.state with
            | Unmarked => rfl
            | Shaded =>
              rw [hcs] at hsh
              exact absurd hsh (by decide)
            | Kept => exact absurd hcs htk
          exact ⟨rfl, Or.inl rfl, target, htmem, rfl, rfl, htu⟩
    · rw [if_neg hk] at ha
      by_cases hcond : (cells.filter (fun c => c.state == CellState.Kept)).length = 0 ∧
          (cells.filter (fun c => c.state == CellState.Shaded)).length = cells.length - 1 ∧
          (cells.filter (fun c => c.state == CellState.Unmarked)).length = 1
      · rw [if_pos hcond] at ha
        cases hfind : cells.find? (fun c => c.state == CellState.Unmarked) with
        | none =>
          have hne : cells.filter (fun c => c.state == CellState.Unmarked) ≠ [] := by
            intro hnil
            have := hcond.2.2
            rw [hnil] at this
            simp at this
          obtain ⟨x, hx⟩ := List.exists_mem_of_ne_nil _ hne
          have hxm := List.mem_filter.mp hx
          exact absurd hxm.2 (by simpa using List.find?_eq_none.mp hfind x hxm.1)
        | some target =>
          simp only [hfind] at ha
          have hh := (Option.some.inj ha).symm
          subst hh
          have htmem := List.mem_of_find?_eq_some hfind
          have htu := List.find?_some hfind
          exact ⟨rfl, Or.inr rfl, target, htmem, rfl, rfl, by simpa using htu⟩
      · rw [if_neg hcond] at ha
        exact absurd ha (by simp)

/-- Every group cell stored by the row buckets records the actual grid
state at its position. -/
theorem hintRowBucket_cells (g : HitoriGrid) (r : Nat) :
    ∀ e ∈ hintRowBucket g r, ∀ cell ∈ e.2,
      cell.row = r ∧ cell.col < g.size ∧ cell.state = (cellAt g r cell.col).state := by
  have h := bucketFold_inv (fun _ => False) (fun c => (cellAt g r c).value)
    (fun c => ({ row := r, col := c, state := (cellAt g r c).state } : GroupCell))
    (List.range g.size) (fun _ => []) [] ⟨by simp, by simp, by simp⟩
  intro e he cell hcell
  have h2 : e.2 = ([] : List GroupCell) ++ (List.range g.size).filterMap (fun i =>
      if ¬ False ∧ (cellAt g r i).value = e.1 then
        some { row := r, col := i, state := (cellAt g r i).state } else none) :=
    (h.2.1 e he).1
  rw [List.nil_append] at h2
  rw [h2] at hcell
  obtain ⟨c, hc, hif⟩ := List.mem_filterMap.mp hcell
  rw [List.mem_range] at hc
  by_cases hcond : ¬ False ∧ (cellAt g r c).value = e.1
  · rw [if_pos hcond] at hif
    have hcell2 := (Option.some.inj hif)
    rw [← hcell2]
    exact ⟨rfl, hc, rfl⟩
  · rw [if_neg hcond] at hif
    exact absurd hif (by simp)

/-- Column analogue of hintRowBucket_cells. -/
theorem hintColBucket_cells (g : HitoriGrid) (c : Nat) :
    ∀ e ∈ hintColBucket g c, ∀ cell ∈ e.2,
      cell.col = c ∧ cell.row < g.size ∧ cell.state = (cellAt g cell.row c).state := by
  have h := bucketFold_inv (fun _ => False) (fun r => (cellAt g r c).value)
    (fun r => ({ row := r, col := c, state := (cellAt g r c).state } : GroupCell))
    (List.range g.size) (fun _ => []) [] ⟨by simp, by simp, by simp⟩
  intro e he cell hcell
  have h2 : e.2 = ([] : List GroupCell) ++ (List.range g.size).filterMap (fun i =>
      if ¬ False ∧ (cellAt g i c).value = e.1 then
        some { row := i, col := c, state := (cellAt g i c).state } else none) :=
    (h.2.1 e he).1
  rw [List.nil_append] at h2
  rw [h2] at hcell
  obtain ⟨r, hr, hif⟩ := List.mem_filterMap.mp hcell
  rw [List.mem_range] at hr
  by_cases hcond : ¬ False ∧ (cellAt g r c).value = e.1
  · rw [if_pos hcond] at hif
    have hcell2 := (Option.some.inj hif)
    rw [← hcell2]
    exact ⟨rfl, hr, rfl⟩
  · rw [if_neg hcond] at hif
    exact absurd hif (by simp)

/-- Soundness of the duplicate-resolution strategy: any returned hint has
reason duplicateResolution, suggests Shaded or Kept, and targets a cell
whose current grid state is Unmarked. -/
theorem findDupHint_sound (state : HitoriGameState) (h : HitoriHint)
    (hf : findDuplicateResolutionHint state = some h) :
    h.reason = HitoriHintReason.duplicateResolution ∧
    (h.suggestedState = CellState.Shaded ∨ h.suggestedState = CellState.Kept) ∧
    (cellAt state.grid h.row h.col).state = CellState.Unmarked := by
  simp only [findDuplicateResolutionHint] at hf
  cases hmatch : (List.range state.grid.size).findSome? (fun r =>
      (hintRowBucket state.grid r).findSome? (fun e => analyzeGroup e.2)) with
  | some h0 =>
    rw [hmatch] at hf
    have hh := Option.some.inj hf
    subst hh
    obtain ⟨r, _, hrow⟩ := List.exists_of_findSome?_eq_some hmatch
    obtain ⟨e, hemem, hana⟩ := List.exists_of_findSome?_eq_some hrow
    obtain ⟨hr, hsug, target, htmem, htr, htc, htu⟩ := analyzeGroup_sound hana
    obtain ⟨hcr, _, hcs⟩ := hintRowBucket_cells state.grid r e hemem target htmem
    refine ⟨hr, hsug, ?_⟩
    rw [← htr, ← htc, hcr, ← hcs]
    exact htu
  | none =>
    rw [hmatch] at hf
    obtain ⟨c, _, hcol⟩ := List.exists_of_findSome?_eq_some hf
    obtain ⟨e, hemem, hana⟩ := List.exists_of_findSome?_eq_some hcol
    obtain ⟨hr, hsug, target, htmem, htr, htc, htu⟩ := analyzeGroup_sound hana
    obtain ⟨hcc, _, hcs⟩ := hintColBucket_cells state.grid c e hemem target htmem
    refine ⟨hr, hsug, ?_⟩
    rw [← htr, ← htc, hcc, ← hcs]
    exact htu

/-- Soundness of the adjacency strategy: any returned hint has reason
adjacentShaded, suggests Unmarked, and targets a currently Shaded cell. -/
theorem findAdjHint_sound (state : HitoriGameState) (h : HitoriHint)
    (hf : findAdjacentShadedHint state = some h) :
    h.reason = HitoriHintReason.adjacentShaded ∧
    h.suggestedState = CellState.Unmarked ∧
    (cellAt state.grid h.row h.col).state = CellState.Shaded := by
  simp only [findAdjacentShadedHint] at hf
  obtain ⟨rc, _, hrc⟩ := List.exists_of_findSome?_eq_some hf
  by_cases hsh : (cellAt state.grid rc.1 rc.2).state ≠ CellState.Shaded
  · rw [if_pos hsh] at hrc
    exact absurd hrc (by simp)
  · rw [if_neg hsh] at hrc
    obtain ⟨q, _, hq⟩ := List.exists_of_findSome?_eq_some hrc
    by_cases hb : q.1 < 0 ∨ q.2 < 0 ∨ (state.grid.size : Int) ≤ q.1 ∨
        (state.grid.size : Int) ≤ q.2
    · rw [if_pos hb] at hq
      exact absurd hq (by simp)
    · rw [if_neg hb] at hq
      by_cases hs2 : (cellAt state.grid q.1.toNat q.2.toNat).state = CellState.Shaded
      · rw [if_pos hs2] at hq
        have hh := (Option.some.inj hq).symm
        subst hh
        exact ⟨rfl, rfl, hs2⟩
      · rw [if_neg hs2] at hq
        exact absurd hq (by simp)

/-- findHint tries duplicate resolution first and falls back to the
adjacency strategy only when the former yields nothing. -/
theorem findHint_cases (state : HitoriGameState) :
    (∀ hd, findDuplicateResolutionHint state = some hd → findHint state = some hd) ∧
    (findDuplicateResolutionHint state = none →
      findHint state = findAdjacentShadedHint state) := by
  constructor
  · intro hd hdup
    unfold findHint
    rw [hdup]
  · intro hnone
    unfold findHint
    rw [hnone]
    cases hadj : findAdjacentShadedHint state <;> rfl

/-! ## Generator correctness lemmas -/

/-- foldl preservation restricted to the members of the folded list. -/
theorem foldl_preserve_mem {β ι : Type} {Q : β → Prop} (f : β → ι → β) :
    ∀ (l : List ι), (∀ b, ∀ i ∈ l, Q b → Q (f b i)) → ∀ b, Q b → Q (l.foldl f b) := by
  intro l
  induction l with
  | nil => intro _ b h; exact h
  | cons a t ih =>
    intro hmono b h
    rw [List.foldl_cons]
    exact ih (fun b2 i hi => hmono b2 i (List.mem_cons_of_mem _ hi)) _
      (hmono b a (List.mem_cons_self _ _) h)

theorem length_listSwap [Inhabited α] (l : List α) (i j : Nat) :
    (listSwap l i j).length = l.length := by
  unfold listSwap
  simp

theorem mem_listSwap [Inhabited α] {l : List α} {i j : Nat}
    (hi : i < l.length) (hj : j < l.length) :
    ∀ p ∈ listSwap l i j, p ∈ l := by
  intro p hp
  unfold listSwap at hp
  rcases List.mem_or_eq_of_mem_set hp with hp2 | hp2
  · rcases List.mem_or_eq_of_mem_set hp2 with hp3 | hp3
    · exact hp3
    · subst hp3
      rw [List.getD_eq_getElem _ _ hj]
      exact List.getElem_mem hj
  · subst hp2
    rw [List.getD_eq_getElem _ _ hi]
    exact List.getElem_mem hi

theorem shuffleAux_length [Inhabited α] (rand : Nat → Nat) :
    ∀ (k : Nat) (l : List α), (shuffleAux rand k l).length = l.length := by
  intro k
  induction k with
  | zero => intro l; rfl
  | succ m ih =>
    intro l
    rw [shuffleAux, ih, length_listSwap]

theorem shuffleAux_mem [Inhabited α] (rand : Nat → Nat) :
    ∀ (k : Nat) (l : List α), k < l.length → ∀ p ∈ shuffleAux rand k l, p ∈ l := by
  intro k
  induction k with
  | zero => intro l _ p hp; exact hp
  | succ m ih =>
    intro l hk p hp
    rw [shuffleAux] at hp
    have hlen : (listSwap l (m + 1) (rand (m + 1) % (m + 2))).length = l.length :=
      length_listSwap l _ _
    have hp2 := ih _ (by omega) p hp
    exact mem_listSwap hk (by
      have : rand (m + 1) % (m + 2) < m + 2 := Nat.mod_lt _ (by omega)
      omega) p hp2

theorem shuffleList_mem [Inhabited α] (rand : Nat → Nat) (l : List α) :
    ∀ p ∈ shuffleList rand l, p ∈ l := by
  cases l with
  | nil =>
    intro p hp
    exact hp
  | cons a t =>
    intro p hp
    exact shuffleAux_mem rand _ _ (by simp) p hp

theorem shuffleList_length [Inhabited α] (rand : Nat → Nat) (l : List α) :
    (shuffleList rand l).length = l.length :=
  shuffleAux_length rand _ l

theorem cellsXY_length (n : Nat) : (cellsXY n).length = n * n := by
  unfold cellsXY
  rw [List.length_flatMap]
  simp [Function.comp_def, List.map_const', Nat.mul_comm]

/-- The all-white starting grid of the shading pass. -/
theorem shAt_replicate_false (n x y : Nat) :
    shAt (List.replicate n (List.replicate n false)) x y = false := by
  unfold shAt get2
  by_cases hy : y < n
  · have houter : (List.replicate n (List.replicate n false)).getD y [] =
        List.replicate n false := by
      rw [List.getD_eq_getElem _ _ (by simpa using hy), List.getElem_replicate]
    rw [houter]
    by_cases hx : x < n
    · rw [List.getD_eq_getElem _ _ (by simpa using hx), List.getElem_replicate]
    · rw [List.getD_eq_default _ _ (by simpa using Nat.le_of_not_lt hx)]
      rfl
  · have houter : (List.replicate n (List.replicate n false)).getD y [] = [] := by
      rw [List.getD_eq_default _ _ (by simpa using Nat.le_of_not_lt hy)]
    rw [houter]
    rfl

theorem dims2_replicate_false (n : Nat) :
    dims2 (List.replicate n (List.replicate n false)) n n := by
  constructor
  · simp
  · intro row hrow
    rw [List.eq_of_mem_replicate hrow]
    simp

/-- Shading state of the one-cell trial grid. -/
theorem shAt_single (n x0 y0 x y : Nat) (hx0 : x0 < n) (hy0 : y0 < n) :
    shAt (set2 (List.replicate n (List.replicate n false)) y0 x0 true) x y =
      if y = y0 ∧ x = x0 then true else false := by
  by_cases h : y = y0 ∧ x = x0
  · rw [if_pos h]
    obtain ⟨h1, h2⟩ := h
    subst h1
    subst h2
    unfold shAt
    exact get2_set2_same (by simpa using hy0) (by
      rw [List.getD_eq_getElem _ _ (by simpa using hy0), List.getElem_replicate]
      simpa using hx0) true
  · rw [if_neg h]
    unfold shAt
    rw [get2_set2_ne (by tauto) true]
    exact shAt_replicate_false n x y

/-- Shading exactly one cell never creates an adjacent shaded pair. -/
theorem violates_single (n x0 y0 : Nat) (hx0 : x0 < n) (hy0 : y0 < n) :
    violatesBlackAdjacency (set2 (List.replicate n (List.replicate n false)) y0 x0 true) =
      false := by
  have hlen : (set2 (List.replicate n (List.replicate n false)) y0 x0 true).length = n := by
    rw [length_set2]
    simp
  rw [Bool.eq_false_iff]
  intro hcon
  simp only [violatesBlackAdjacency, List.any_eq_true, List.mem_range] at hcon
  obtain ⟨y, hy, x, hx, hconj⟩ := hcon
  rw [hlen] at hy hx
  rw [Bool.and_eq_true] at hconj
  obtain ⟨h1, h2⟩ := hconj
  rw [shAt_single n x0 y0 x y hx0 hy0] at h1
  by_cases hpos : y = y0 ∧ x = x0
  · obtain ⟨he1, he2⟩ := hpos
    rw [he1, he2] at h2
    rw [Bool.or_eq_true, Bool.and_eq_true, Bool.and_eq_true] at h2
    rcases h2 with ⟨-, h3⟩ | ⟨-, h3⟩
    · rw [shAt_single n x0 y0 (x0 + 1) y0 hx0 hy0,
        if_neg (by rintro ⟨-, hc⟩; omega)] at h3
      exact absurd h3 (by decide)
    · rw [shAt_single n x0 y0 x0 (y0 + 1) hx0 hy0,
        if_neg (by rintro ⟨hc, -⟩; omega)] at h3
      exact absurd h3 (by decide)
  · rw [if_neg hpos] at h1
    exact absurd h1 (by decide)

/-- Horizontal walk along a fully white row. -/
theorem reachD_row {n : Nat} {sh : List (List Bool)} {y : Nat} (hy : y < n)
    (hw : ∀ t, t < n → shAt sh t y = false) (x1 x2 : Nat)
    (h1 : x1 < n) (h2 : x2 < n) : ReachD n sh (x1, y) (x2, y) := by
  have hstep : ∀ d x, x + d < n → ReachD n sh (x, y) (x + d, y) := by
    intro d
    induction d with
    | zero => intro x _; exact Relation.ReflTransGen.refl
    | succ k ih =>
      intro x h
      refine (ih x (by omega)).tail ?_
      refine ⟨by omega, hy, by omega, hy, hw _ (by omega), hw _ (by omega), ?_⟩
      exact Or.inr ⟨rfl, Or.inl rfl⟩
  rcases Nat.le_total x1 x2 with h | h
  · have hr := hstep (x2 - x1) x1 (by omega)
    have he : x1 + (x2 - x1) = x2 := by omega
    rw [he] at hr
    exact hr
  · have hr := hstep (x1 - x2) x2 (by omega)
    have he : x2 + (x1 - x2) = x1 := by omega
    rw [he] at hr
    exact ReachD_symm hr

/-- Vertical walk along a fully white column. -/
theorem reachD_col {n : Nat} {sh : List (List Bool)} {x : Nat} (hx : x < n)
    (hw : ∀ t, t < n → shAt sh x t = false) (y1 y2 : Nat)
    (h1 : y1 < n) (h2 : y2 < n) : ReachD n sh (x, y1) (x, y2) := by
  have hstep : ∀ d y, y + d < n → ReachD n sh (x, y) (x, y + d) := by
    intro d
    induction d with
    | zero => intro y _; exact Relation.ReflTransGen.refl
    | succ k ih =>
      intro y h
      refine (ih y (by omega)).tail ?_
      refine ⟨hx, by omega, hx, by omega, hw _ (by omega), hw _ (by omega), ?_⟩
      exact Or.inl ⟨rfl, Or.inl rfl⟩
  rcases Nat.le_total y1 y2 with h | h
  · have hr := hstep (y2 - y1) y1 (by omega)
    have he : y1 + (y2 - y1) = y2 := by omega
    rw [he] at hr
    exact hr
  · have hr := hstep (y1 - y2) y2 (by omega)
    have he : y2 + (y1 - y2) = y1 := by omega
    rw [he] at hr
    exact ReachD_symm hr

/-- An n x n grid (n >= 2) with a single shaded cell keeps its white cells
connected. -/
theorem isWhiteConnected_single (n x0 y0 : Nat) (hn : 2 ≤ n)
    (hx0 : x0 < n) (hy0 : y0 < n) :
    isWhiteConnected (set2 (List.replicate n (List.replicate n false)) y0 x0 true) =
      true := by
  have hlen : (set2 (List.replicate n (List.replicate n false)) y0 x0 true).length = n := by
    rw [length_set2]
    simp
  have hxc : (if x0 = 0 then 1 else 0) < n ∧ (if x0 = 0 then 1 else 0) ≠ x0 := by
    by_cases h : x0 = 0 <;> simp [h] <;> omega
  have hyc : (if y0 = 0 then 1 else 0) < n ∧ (if y0 = 0 then 1 else 0) ≠ y0 := by
    by_cases h : y0 = 0 <;> simp [h] <;> omega
  have hcolwhite : ∀ x, x ≠ x0 → ∀ t, t < n →
      shAt (set2 (List.replicate n (List.replicate n false)) y0 x0 true) x t = false := by
    intro x hx t _
    rw [shAt_single n x0 y0 x t hx0 hy0, if_neg (by rintro ⟨-, hc⟩; exact hx hc)]
  have hrowwhite : ∀ y, y ≠ y0 → ∀ t, t < n →
      shAt (set2 (List.replicate n (List.replicate n false)) y0 x0 true) t y = false := by
    intro y hyne t _
    rw [shAt_single n x0 y0 t y hx0 hy0, if_neg (by rintro ⟨hc, -⟩; exact hyne hc)]
  have hhub : ∀ w ∈ whiteCellsScan
      (set2 (List.replicate n (List.replicate n false)) y0 x0 true),
      ReachD n (set2 (List.replicate n (List.replicate n false)) y0 x0 true) w
        ((if x0 = 0 then 1 else 0), (if y0 = 0 then 1 else 0)) := by
    intro w hw
    obtain ⟨hw1, hw2, hw3⟩ := mem_whiteCellsScan.1 hw
    rw [hlen] at hw1 hw2
    by_cases hwy : w.2 = y0
    · have hwx : w.1 ≠ x0 := by
        intro hc
        rw [shAt_single n x0 y0 w.1 w.2 hx0 hy0, if_pos ⟨hwy, hc⟩] at hw3
        exact absurd hw3 (by decide)
      have hr1 : ReachD n (set2 (List.replicate n (List.replicate n false)) y0 x0 true)
          (w.1, w.2) (w.1, (if y0 = 0 then 1 else 0)) :=
        reachD_col hw1 (hcolwhite w.1 hwx) w.2 _ hw2 hyc.1
      have hr2 : ReachD n (set2 (List.replicate n (List.replicate n false)) y0 x0 true)
          (w.1, (if y0 = 0 then 1 else 0)) ((if x0 = 0 then 1 else 0),
            (if y0 = 0 then 1 else 0)) :=
        reachD_row hyc.1 (hrowwhite _ hyc.2) w.1 _ hw1 hxc.1
      exact ReachD_trans hr1 hr2
    · have hr1 : ReachD n (set2 (List.replicate n (List.replicate n false)) y0 x0 true)
          (w.1, w.2) ((if x0 = 0 then 1 else 0), w.2) :=
        reachD_row hw2 (hrowwhite w.2 hwy) w.1 _ hw1 hxc.1
      have hr2 : ReachD n (set2 (List.replicate n (List.replicate n false)) y0 x0 true)
          ((if x0 = 0 then 1 else 0), w.2) ((if x0 = 0 then 1 else 0),
            (if y0 = 0 then 1 else 0)) :=
        reachD_col hxc.1 (hcolwhite _ hxc.2) w.2 _ hw2 hyc.1
      exact ReachD_trans hr1 hr2
  have hhubwhite : shAt (set2 (List.replicate n (List.replicate n false)) y0 x0 true)
      (if x0 = 0 then 1 else 0) (if y0 = 0 then 1 else 0) = false := by
    rw [shAt_single n x0 y0 _ _ hx0 hy0, if_neg (by rintro ⟨-, hc⟩; exact hxc.2 hc)]
  have hhubmem : ((if x0 = 0 then 1 else 0), (if y0 = 0 then 1 else 0)) ∈
      whiteCellsScan (set2 (List.replicate n (List.replicate n false)) y0 x0 true) := by
    apply mem_whiteCellsScan.2
    rw [hlen]
    exact ⟨hxc.1, hyc.1, hhubwhite⟩
  rw [isWhiteConnected_char, hlen]
  have hne : whiteCellsScan
      (set2 (List.replicate n (List.replicate n false)) y0 x0 true) ≠ [] := by
    intro hnil
    rw [hnil] at hhubmem
    exact absurd hhubmem (List.not_mem_nil _)
  refine ⟨hne, ?_⟩
  intro w hw
  have hheadmem : (whiteCellsScan
      (set2 (List.replicate n (List.replicate n false)) y0 x0 true)).headD (0, 0) ∈
      whiteCellsScan (set2 (List.replicate n (List.replicate n false)) y0 x0 true) := by
    cases hws : whiteCellsScan
        (set2 (List.replicate n (List.replicate n false)) y0 x0 true) with
    | nil => exact absurd hws hne
    | cons a t =>
      rw [List.headD_cons]
      exact List.mem_cons_self _ _
  exact ReachD_trans (hhub _ hheadmem) (ReachD_symm (hhub w hw))

theorem violates_replicate (n : Nat) :
    violatesBlackAdjacency (List.replicate n (List.replicate n false)) = false := by
  rw [Bool.eq_false_iff]
  intro hcon
  simp only [violatesBlackAdjacency, List.any_eq_true, List.mem_range] at hcon
  obtain ⟨y, _, x, _, hconj⟩ := hcon
  rw [Bool.and_eq_true] at hconj
  rw [shAt_replicate_false] at hconj
  exact absurd hconj.1 (by decide)

/-- Invariant of the greedy shading pass: well-formed dimensions, no
adjacent blacks, the grid is untouched while the count is zero, and once a
cell has been accepted the whites are connected and a shaded cell exists. -/
def ShadeInv (size : Nat) (acc : List (List Bool) × Nat) : Prop :=
  dims2 acc.1 size size ∧
  violatesBlackAdjacency acc.1 = false ∧
  (acc.2 = 0 → acc.1 = List.replicate size (List.replicate size false)) ∧
  (1 ≤ acc.2 → isWhiteConnected acc.1 = true ∧
    ∃ x y, x < size ∧ y < size ∧ shAt acc.1 x y = true)

theorem shadeStep_pres (size : Nat) (difficulty : HitoriDifficulty)
    (acc : List (List Bool) × Nat) (cell : Nat × Nat)
    (hcell : cell.1 < size ∧ cell.2 < size) (h : ShadeInv size acc) :
    ShadeInv size
      (if targetBlacksOf size difficulty ≤ acc.2 then acc
       else if violatesBlackAdjacency (set2 acc.1 cell.2 cell.1 true) = true then acc
       else if (!isWhiteConnected (set2 acc.1 cell.2 cell.1 true)) = true then acc
       else (set2 acc.1 cell.2 cell.1 true, acc.2 + 1)) := by
  obtain ⟨hd, hv, h0, h1⟩ := h
  by_cases hb1 : targetBlacksOf size difficulty ≤ acc.2
  · rw [if_pos hb1]
    exact ⟨hd, hv, h0, h1⟩
  · rw [if_neg hb1]
    by_cases hb2 : violatesBlackAdjacency (set2 acc.1 cell.2 cell.1 true) = true
    · rw [if_pos hb2]
      exact ⟨hd, hv, h0, h1⟩
    · rw [if_neg hb2]
      by_cases hb3 : (!isWhiteConnected (set2 acc.1 cell.2 cell.1 true)) = true
      · rw [if_pos hb3]
        exact ⟨hd, hv, h0, h1⟩
      · rw [if_neg hb3]
        have hv2 : violatesBlackAdjacency (set2 acc.1 cell.2 cell.1 true) = false :=
          Bool.eq_false_iff.mpr hb2
        have hc2 : isWhiteConnected (set2 acc.1 cell.2 cell.1 true) = true := by
          simpa using hb3
        refine ⟨dims2_set2 hd, hv2, fun h00 => absurd h00 (by omega), fun _ => ?_⟩
        refine ⟨hc2, cell.1, cell.2, hcell.1, hcell.2, ?_⟩
        unfold shAt
        refine get2_set2_same ?_ ?_ true
        · rw [hd.1]
          exact hcell.2
        · rw [dims2_getD hd hcell.2]
          exact hcell.1

theorem shadeFold_inv (rand : Nat → Nat) (size : Nat) (difficulty : HitoriDifficulty) :
    ShadeInv size
      ((shuffleList rand (cellsXY size)).foldl
        (fun acc cell =>
          if targetBlacksOf size difficulty ≤ acc.2 then acc
          else if violatesBlackAdjacency (set2 acc.1 cell.2 cell.1 true) = true then acc
          else if (!isWhiteConnected (set2 acc.1 cell.2 cell.1 true)) = true then acc
          else (set2 acc.1 cell.2 cell.1 true, acc.2 + 1))
        (List.replicate size (List.replicate size false), 0)) := by
  apply foldl_preserve_mem
  · intro b cell hcellmem hb
    exact shadeStep_pres size difficulty b cell
      (mem_cellsXY.1 (shuffleList_mem rand _ cell hcellmem)) hb
  · refine ⟨dims2_replicate_false size, violates_replicate size, fun _ => rfl, ?_⟩
    intro hcon
    exact absurd hcon (by omega)

/-- Invariant of the fallback pass after it has accepted a cell. -/
def FallInv (size : Nat) (acc : List (List Bool) × Bool) : Prop :=
  acc.2 = true ∧
  dims2 acc.1 size size ∧
  violatesBlackAdjacency acc.1 = false ∧
  isWhiteConnected acc.1 = true ∧
  ∃ x y, x < size ∧ y < size ∧ shAt acc.1 x y = true

theorem fallbackStep_first (size : Nat) (hsz : 2 ≤ size) (cell : Nat × Nat)
    (hcell : cell.1 < size ∧ cell.2 < size) :
    (if (List.replicate size (List.replicate size false),
          false).2 = true then
      (List.replicate size (List.replicate size false), false)
    else if (!violatesBlackAdjacency (set2 (List.replicate size
            (List.replicate size false), false).1 cell.2 cell.1 true) &&
        isWhiteConnected (set2 (List.replicate size
          (List.replicate size false), false).1 cell.2 cell.1 true)) = true then
      (set2 (List.replicate size (List.replicate size false),
        false).1 cell.2 cell.1 true, true)
    else (List.replicate size (List.replicate size false), false)) =
      (set2 (List.replicate size (List.replicate size false)) cell.2 cell.1 true,
        true) := by
  rw [if_neg (fun hc => Bool.false_ne_true hc)]
  rw [if_pos (by
    rw [Bool.and_eq_true]
    constructor
    · rw [show (List.replicate size (List.replicate size false), false).1 =
          List.replicate size (List.replicate size false) from rfl]
      rw [violates_single size cell.1 cell.2 hcell.1 hcell.2]
      rfl
    · rw [show (List.replicate size (List.replicate size false), false).1 =
          List.replicate size (List.replicate size false) from rfl]
      exact isWhiteConnected_single size cell.1 cell.2 hsz hcell.1 hcell.2)]

theorem fallbackFold_done (size : Nat) (l : List (Nat × Nat))
    (acc : List (List Bool) × Bool) (hacc : FallInv size acc) :
    FallInv size
      (l.foldl (fun (acc : List (List Bool) × Bool) (cell : Nat × Nat) =>
        if acc.2 = true then acc
        else if (!violatesBlackAdjacency (set2 acc.1 cell.2 cell.1 true) &&
            isWhiteConnected (set2 acc.1 cell.2 cell.1 true)) = true then
          (set2 acc.1 cell.2 cell.1 true, true)
        else acc) acc) := by
  refine foldl_preserve ?_ l acc hacc
  intro b cell hb
  rw [if_pos hb.1]
  exact hb

/-- The shading pass always returns a well-formed pattern with no adjacent
blacks, connected whites, and at least one shaded cell. -/
theorem buildShadingPattern_good (rand : Nat → Nat) (size : Nat)
    (difficulty : HitoriDifficulty) (hsz : 2 ≤ size) :
    dims2 (buildShadingPattern rand size difficulty) size size ∧
    violatesBlackAdjacency (buildShadingPattern rand size difficulty) = false ∧
    isWhiteConnected (buildShadingPattern rand size difficulty) = true ∧
    ∃ x y, x < size ∧ y < size ∧
      shAt (buildShadingPattern rand size difficulty) x y = true := by
  simp only [buildShadingPattern]
  have hmain := shadeFold_inv rand size difficulty
  by_cases hzero : ((shuffleList rand (cellsXY size)).foldl
      (fun acc cell =>
        if targetBlacksOf size difficulty ≤ acc.2 then acc
        else if violatesBlackAdjacency (set2 acc.1 cell.2 cell.1 true) = true then acc
        else if (!isWhiteConnected (set2 acc.1 cell.2 cell.1 true)) = true then acc
        else (set2 acc.1 cell.2 cell.1 true, acc.2 + 1))
      (List.replicate size (List.replicate size false), 0)).2 = 0
  · rw [if_pos hzero]
    rw [hmain.2.2.1 hzero]
    have hlen : (shuffleList rand (cellsXY size)).length = size * size := by
      rw [shuffleList_length, cellsXY_length]
    cases horder2 : shuffleList rand (cellsXY size) with
    | nil =>
      rw [horder2] at hlen
      simp only [List.length_nil] at hlen
      have := Nat.mul_eq_zero.mp hlen.symm
      omega
    | cons a t =>
      rw [List.foldl_cons]
      have hamem : a ∈ shuffleList rand (cellsXY size) := by
        rw [horder2]
        exact List.mem_cons_self _ _
      have hab := mem_cellsXY.1 (shuffleList_mem rand _ a hamem)
      rw [fallbackStep_first size hsz a hab]
      have hfirst : FallInv size
          (set2 (List.replicate size (List.replicate size false)) a.2 a.1 true, true) := by
        refine ⟨rfl, dims2_set2 (dims2_replicate_false size),
          violates_single size a.1 a.2 hab.1 hab.2,
          isWhiteConnected_single size a.1 a.2 hsz hab.1 hab.2,
          a.1, a.2, hab.1, hab.2, ?_⟩
        rw [shAt_single size a.1 a.2 a.1 a.2 hab.1 hab.2, if_pos ⟨rfl, rfl⟩]
      have hfall := fallbackFold_done size t _ hfirst
      exact ⟨hfall.2.1, hfall.2.2.1, hfall.2.2.2.1, hfall.2.2.2.2⟩
  · rw [if_neg hzero]
    obtain ⟨hconn, hex⟩ := hmain.2.2.2 (by omega)
    exact ⟨hmain.1, hmain.2.1, hconn, hex⟩

theorem dims2_buildLatinSquare (n : Nat) : dims2 (buildLatinSquare n) n n := by
  constructor
  · simp [buildLatinSquare]
  · intro row hrow
    simp only [buildLatinSquare, List.mem_map] at hrow
    obtain ⟨y, _, hrw⟩ := hrow
    rw [← hrw]
    simp

theorem get2_buildLatinSquare {n y x : Nat} (hy : y < n) (hx : x < n) :
    get2 (buildLatinSquare n) y x = (x + y) % n + 1 := by
  unfold buildLatinSquare
  exact get2_rangeMap2 hy hx

/-- The conflict-injection pass keeps dimensions and never touches a white
cell. -/
theorem buildNumbers_inv (rand2 : Nat → Nat) (latin : List (List Nat))
    (sh : List (List Bool)) (hlat : dims2 latin latin.length latin.length) :
    dims2 (buildNumbersFromSolution rand2 latin sh) latin.length latin.length ∧
    (∀ x y, shAt sh x y = false →
      get2 (buildNumbersFromSolution rand2 latin sh) y x = get2 latin y x) := by
  simp only [buildNumbersFromSolution]
  refine foldl_preserve (Q := fun m => dims2 m latin.length latin.length ∧
    (∀ x y, shAt sh x y = false → get2 m y x = get2 latin y x)) ?_ _ _
    ⟨hlat, fun _ _ _ => rfl⟩
  intro m cell hm
  split
  · exact hm
  · rename_i hsh
    have hshad : shAt sh cell.1 cell.2 = true := by simpa using hsh
    split
    · exact hm
    · refine ⟨dims2_set2 hm.1, ?_⟩
      intro x y hwx
      rw [get2_set2_ne ?_ _]
      · exact hm.2 x y hwx
      · by_contra hc
        push_neg at hc
        rw [← hc.1, ← hc.2] at hwx
        rw [hwx] at hshad
        exact absurd hshad (by decide)

theorem distinctScan_true : ∀ (l : List Nat) (seen : List Nat),
    l.Nodup → (∀ v ∈ l, v ∉ seen) → distinctScan seen l = true := by
  intro l
  induction l with
  | nil => intro seen _ _; rfl
  | cons v rest ih =>
    intro seen hnd hsub
    rw [distinctScan]
    rw [if_neg (hsub v (List.mem_cons_self _ _))]
    refine ih _ (List.nodup_cons.mp hnd).2 ?_
    intro w hw
    rw [List.mem_cons]
    rintro (hws | hws)
    · exact (List.nodup_cons.mp hnd).1 (hws ▸ hw)
    · exact hsub w (List.mem_cons_of_mem _ hw) hws

theorem latin_inj_row {n y i j : Nat} (hi : i < n) (hj : j < n)
    (h : (i + y) % n + 1 = (j + y) % n + 1) : i = j := by
  have h2 : (i + y) % n = (j + y) % n := by omega
  have h3 : Nat.ModEq n (i + y) (j + y) := h2
  have h4 : Nat.ModEq n i j := h3.add_right_cancel' y
  have h5 : i % n = j % n := h4
  rw [Nat.mod_eq_of_lt hi, Nat.mod_eq_of_lt hj] at h5
  exact h5

theorem latin_inj_col {n x i j : Nat} (hi : i < n) (hj : j < n)
    (h : (x + i) % n + 1 = (x + j) % n + 1) : i = j := by
  have h2 : (x + i) % n = (x + j) % n := by omega
  have h3 : Nat.ModEq n (x + i) (x + j) := h2
  have h4 : Nat.ModEq n i j := h3.add_left_cancel' x
  have h5 : i % n = j % n := h4
  rw [Nat.mod_eq_of_lt hi, Nat.mod_eq_of_lt hj] at h5
  exact h5

/-- A numbers grid whose white cells carry the cyclic Latin values passes
isValidSolution whenever the shading has no adjacent blacks and connected
whites. -/
theorem isValidSolution_true (numbers : List (List Nat)) (sh : List (List Bool))
    (size : Nat) (hdim : dims2 numbers size size)
    (hwhite : ∀ x y, x < size → y < size → shAt sh x y = false →
      get2 numbers y x = (x + y) % size + 1)
    (hviol : violatesBlackAdjacency sh = false)
    (hconn : isWhiteConnected sh = true) :
    isValidSolution numbers sh = true := by
  simp only [isValidSolution]
  rw [hdim.1, hviol, hconn]
  rw [Bool.and_eq_true, Bool.and_eq_true, Bool.and_eq_true]
  refine ⟨⟨⟨?_, ?_⟩, by decide⟩, rfl⟩
  · rw [List.all_eq_true]
    intro y hy
    rw [List.mem_range] at hy
    apply distinctScan_true
    · have hpw : (List.range size).Pairwise (fun a b =>
          ∀ v1 ∈ (if shAt sh a y = true then none else some (get2 numbers y a)),
          ∀ v2 ∈ (if shAt sh b y = true then none else some (get2 numbers y b)),
            v1 ≠ v2) := by
        rw [List.pairwise_iff_getElem]
        intro i j hi hj hij
        simp only [List.getElem_range]
        rw [List.length_range] at hi hj
        intro v1 hv1 v2 hv2
        by_cases h1 : shAt sh i y = true
        · rw [if_pos h1] at hv1
          exact absurd hv1 (by simp)
        · rw [if_neg h1] at hv1
          by_cases h2 : shAt sh j y = true
          · rw [if_pos h2] at hv2
            exact absurd hv2 (by simp)
          · rw [if_neg h2] at hv2
            rw [Option.mem_some_iff] at hv1 hv2
            subst hv1
            subst hv2
            rw [hwhite i y hi hy (by simpa using h1),
              hwhite j y hj hy (by simpa using h2)]
            intro hc
            exact absurd (latin_inj_row hi hj hc) (Nat.ne_of_lt hij)
      exact List.pairwise_filterMap.mpr hpw
    · intro v _ hv
      exact absurd hv (List.not_mem_nil v)
  · rw [List.all_eq_true]
    intro x hx
    rw [List.mem_range] at hx
    apply distinctScan_true
    · have hpw : (List.range size).Pairwise (fun a b =>
          ∀ v1 ∈ (if shAt sh x a = true then none else some (get2 numbers a x)),
          ∀ v2 ∈ (if shAt sh x b = true then none else some (get2 numbers b x)),
            v1 ≠ v2) := by
        rw [List.pairwise_iff_getElem]
        intro i j hi hj hij
        simp only [List.getElem_range]
        rw [List.length_range] at hi hj
        intro v1 hv1 v2 hv2
        by_cases h1 : shAt sh x i = true
        · rw [if_pos h1] at hv1
          exact absurd hv1 (by simp)
        · rw [if_neg h1] at hv1
          by_cases h2 : shAt sh x j = true
          · rw [if_pos h2] at hv2
            exact absurd hv2 (by simp)
          · rw [if_neg h2] at hv2
            rw [Option.mem_some_iff] at hv1 hv2
            subst hv1
            subst hv2
            rw [hwhite x i hx hi (by simpa using h1),
              hwhite x j hx hj (by simpa using h2)]
            intro hc
            exact absurd (latin_inj_col hi hj hc) (Nat.ne_of_lt hij)
      exact List.pairwise_filterMap.mpr hpw
    · intro v _ hv
      exact absurd hv (List.not_mem_nil v)

/-! ## Claim theorems -/

/-- C2 (amended): setCellState fails with an out-of-bounds error when the
position lies outside [0, size); otherwise it returns a new state in which
cell (row, col) carries the requested state, every other cell and the
puzzle, startTime and elapsedMs fields are unchanged, and moves is
incremented by exactly one WHEN the requested state differs from the cell's
current state; a no-op update (requested state equals the current one)
returns a fresh state with moves unchanged.  (The original claim asserted
the increment also for no-op updates; the code's no-op branch does not
touch moves.) -/
theorem C2_setCellState (state : HitoriGameState) (row col : Int) (ns : CellState)
    (hwf : gridWF state.grid) :
    ((row < 0 ∨ col < 0 ∨ (state.grid.size : Int) ≤ row ∨
        (state.grid.size : Int) ≤ col) →
      setCellState state row col ns = Except.error "Cell out of bounds") ∧
    (0 ≤ row → row < (state.grid.size : Int) → 0 ≤ col →
        col < (state.grid.size : Int) →
      ∃ s2, setCellState state row col ns = Except.ok s2 ∧
        s2.puzzle = state.puzzle ∧ s2.startTime = state.startTime ∧
        s2.elapsedMs = state.elapsedMs ∧ s2.grid.size = state.grid.size ∧
        cellAt s2.grid row.toNat col.toNat =
          { cellAt state.grid row.toNat col.toNat with state := ns } ∧
        (∀ r2 c2, ¬(r2 = row.toNat ∧ c2 = col.toNat) →
          cellAt s2.grid r2 c2 = cellAt state.grid r2 c2) ∧
        s2.moves = (if (cellAt state.grid row.toNat col.toNat).state = ns
                    then state.moves else state.moves + 1)) := by
  constructor
  · intro h
    unfold setCellState
    rw [getCell_oob state h]
    rfl
  · intro h1 h2 h3 h4
    obtain ⟨s2, ha, hb, hcx, hd, he, _, hg, hh, hi⟩ :=
      setCellState_char state row col ns hwf h1 h2 h3 h4
    exact ⟨s2, ha, hb, hcx, hd, he, hg, hh, hi⟩

/-- C2 counterexample: a no-op update on a concrete 1x1 state succeeds but
leaves moves at 0 instead of incrementing it to 1 as the claim requires. -/
theorem C2_counterexample :
    setCellState (stateOfShading [[false]]) 0 0 CellState.Unmarked =
      Except.ok (stateOfShading [[false]]) ∧
    (stateOfShading [[false]]).moves = 0 ∧ (0 : Nat) ≠ 0 + 1 := by
  refine ⟨rfl, rfl, by decide⟩

/-- C2 witness: the out-of-bounds branch of the amended theorem at a
concrete input. -/
theorem C2_witness :
    gridWF (stateOfShading [[false]]).grid ∧
    setCellState (stateOfShading [[false]]) (-1) 0 CellState.Shaded =
      Except.error "Cell out of bounds" :=
  ⟨by decide, (C2_setCellState (stateOfShading [[false]]) (-1) 0 CellState.Shaded
    (by decide)).1 (Or.inl (by decide))⟩

/-- C8: applying cycleCellState three times to any in-bounds cell of a
well-formed state returns the cell to its original state and increments
moves by exactly 3, regardless of the starting state; each application
advances the cell one step along the fixed cycle
Undecided → Shaded → Kept → Undecided. -/
theorem C8_cycle_three (state : HitoriGameState) (row col : Int)
    (hwf : gridWF state.grid)
    (h1 : 0 ≤ row) (h2 : row < (state.grid.size : Int))
    (h3 : 0 ≤ col) (h4 : col < (state.grid.size : Int)) :
    ∃ s1 s2 s3,
      cycleCellState state row col = Except.ok s1 ∧
      cycleCellState s1 row col = Except.ok s2 ∧
      cycleCellState s2 row col = Except.ok s3 ∧
      (cellAt s1.grid row.toNat col.toNat).state =
        cycleNext (cellAt state.grid row.toNat col.toNat).state ∧
      (cellAt s2.grid row.toNat col.toNat).state =
        cycleNext (cellAt s1.grid row.toNat col.toNat).state ∧
      (cellAt s3.grid row.toNat col.toNat).state =
        cycleNext (cellAt s2.grid row.toNat col.toNat).state ∧
      (cellAt s3.grid row.toNat col.toNat).state =
        (cellAt state.grid row.toNat col.toNat).state ∧
      s3.moves = state.moves + 3 ∧
      cycleNext CellState.Unmarked = CellState.Shaded ∧
      cycleNext CellState.Shaded = CellState.Kept ∧
      cycleNext CellState.Kept = CellState.Unmarked := by
  have step : ∀ s : HitoriGameState, gridWF s.grid → s.grid.size = state.grid.size →
      ∃ s2, cycleCellState s row col = Except.ok s2 ∧ gridWF s2.grid ∧
        s2.grid.size = state.grid.size ∧
        (cellAt s2.grid row.toNat col.toNat).state =
          cycleNext (cellAt s.grid row.toNat col.toNat).state ∧
        s2.moves = s.moves + 1 := by
    intro s hswf hsize
    have h2b : row < (s.grid.size : Int) := by
      rw [hsize]
      exact h2
    have h4b : col < (s.grid.size : Int) := by
      rw [hsize]
      exact h4
    rw [cycleCellState_eq s row col h1 h2b h3 h4b]
    obtain ⟨s2, ha, _, _, _, he, hf, hg, _, hi⟩ := setCellState_char s row col
      (cycleNext (cellAt s.grid row.toNat col.toNat).state) hswf h1 h2b h3 h4b
    refine ⟨s2, ha, hf, by rw [he, hsize], ?_, ?_⟩
    · rw [hg]
    · rw [hi, if_neg (fun hcon => (cycleNext_ne _) hcon.symm)]
  obtain ⟨s1, e1, w1, z1, c1, m1⟩ := step state hwf rfl
  obtain ⟨s2, e2, w2, z2, c2, m2⟩ := step s1 w1 z1
  obtain ⟨s3, e3, w3, z3, c3, m3⟩ := step s2 w2 z2
  refine ⟨s1, s2, s3, e1, e2, e3, c1, c2, c3, ?_, by omega, rfl, rfl, rfl⟩
  rw [c3, c2, c1, cycleNext_three]

/-- C8 witness: the cycle theorem applied at cell (0,0) of a concrete 1x1
state. -/
theorem C8_witness :
    gridWF (stateOfShading [[false]]).grid ∧
    ∃ s1 s2 s3,
      cycleCellState (stateOfShading [[false]]) 0 0 = Except.ok s1 ∧
      cycleCellState s1 0 0 = Except.ok s2 ∧
      cycleCellState s2 0 0 = Except.ok s3 ∧
      (cellAt s1.grid (0 : Int).toNat (0 : Int).toNat).state =
        cycleNext (cellAt (stateOfShading [[false]]).grid
          (0 : Int).toNat (0 : Int).toNat).state ∧
      (cellAt s2.grid (0 : Int).toNat (0 : Int).toNat).state =
        cycleNext (cellAt s1.grid (0 : Int).toNat (0 : Int).toNat).state ∧
      (cellAt s3.grid (0 : Int).toNat (0 : Int).toNat).state =
        cycleNext (cellAt s2.grid (0 : Int).toNat (0 : Int).toNat).state ∧
      (cellAt s3.grid (0 : Int).toNat (0 : Int).toNat).state =
        (cellAt (stateOfShading [[false]]).grid
          (0 : Int).toNat (0 : Int).toNat).state ∧
      s3.moves = (stateOfShading [[false]]).moves + 3 ∧
      cycleNext CellState.Unmarked = CellState.Shaded ∧
      cycleNext CellState.Shaded = CellState.Kept ∧
      cycleNext CellState.Kept = CellState.Unmarked :=
  ⟨by decide, C8_cycle_three (stateOfShading [[false]]) 0 0 (by decide)
    (by decide) (by decide) (by decide) (by decide)⟩

/-- C5 (amended): for every square boolean shading grid, the Constraint
Engine's adjacency check agrees with the negation of the generator's
violatesBlackAdjacency, and — provided at least one cell is unshaded — the
Engine's connectivity check agrees with the generator's isWhiteConnected.
(The all-shaded case is the one divergence: the Engine reports ok, the
generator reports not-connected.) -/
theorem C5_generator_engine_agreement (sh : List (List Bool))
    (_hsq : ∀ row ∈ sh, row.length = sh.length) :
    ((checkNoAdjacentShaded (stateOfShading sh)).ok = !violatesBlackAdjacency sh) ∧
    ((∃ x y, x < sh.length ∧ y < sh.length ∧ shAt sh x y = false) →
      (checkConnectivityOfUnshaded (stateOfShading sh)).ok = isWhiteConnected sh) :=
  ⟨adjacency_equiv sh, fun hw => connectivity_equiv sh hw⟩

/-- C5 counterexample: on the all-shaded 1x1 grid the Engine's connectivity
check reports ok = true while isWhiteConnected returns false, so the claimed
unconditional equivalence fails. -/
theorem C5_counterexample :
    (checkConnectivityOfUnshaded (stateOfShading [[true]])).ok = true ∧
    isWhiteConnected [[true]] = false ∧
    ((checkConnectivityOfUnshaded (stateOfShading [[true]])).ok ≠
      isWhiteConnected [[true]]) := by
  refine ⟨rfl, rfl, ?_⟩
  intro h
  cases h

/-- C5 witness: the agreement theorem applied to a concrete 2x2 shading. -/
theorem C5_witness :
    ((checkNoAdjacentShaded (stateOfShading [[false, true], [false, false]])).ok =
      !violatesBlackAdjacency [[false, true], [false, false]]) ∧
    ((checkConnectivityOfUnshaded (stateOfShading [[false, true], [false, false]])).ok =
      isWhiteConnected [[false, true], [false, false]]) :=
  ⟨(C5_generator_engine_agreement [[false, true], [false, false]] (by decide)).1,
   (C5_generator_engine_agreement [[false, true], [false, false]] (by decide)).2
     ⟨0, 0, by decide, by decide, by decide⟩⟩

/-- C4: checkConnectivityOfUnshaded returns ok with no violations when at
most one cell is unshaded; otherwise, writing `start` for the first unshaded
cell in row-major order, it returns ok with no violations exactly when every
unshaded cell is reachable from start through unshaded 4-neighbour steps,
and otherwise exactly one violation of kind connectivity whose cells are
precisely the unreached unshaded positions.  On the 3x3 grid whose middle
column is shaded it reports one violation listing the three right-column
cells, and unshading the middle cell makes the check pass. -/
theorem C4_connectivity_check :
    (∀ state : HitoriGameState,
      ((unshadedPositions state.grid).length ≤ 1 →
        checkConnectivityOfUnshaded state = { ok := true, violations := [] }) ∧
      (1 < (unshadedPositions state.grid).length →
        ((∀ p ∈ unshadedPositions state.grid,
            ReachR state.grid ((unshadedPositions state.grid).headD default) p) →
          checkConnectivityOfUnshaded state = { ok := true, violations := [] }) ∧
        (¬(∀ p ∈ unshadedPositions state.grid,
            ReachR state.grid ((unshadedPositions state.grid).headD default) p) →
          (checkConnectivityOfUnshaded state).ok = false ∧
          ∃ cells, (checkConnectivityOfUnshaded state).violations =
              [{ kind := RuleViolationKind.connectivity, index := none, value := none,
                 cells := cells }] ∧
            cells.Nodup ∧
            (∀ p, p ∈ cells ↔ p ∈ unshadedPositions state.grid ∧
              ¬ ReachR state.grid
                ((unshadedPositions state.grid).headD default) p)))) ∧
    (checkConnectivityOfUnshaded
        (stateOfShading [[false, true, false], [false, true, false], [false, true, false]]) =
      { ok := false
        violations := [{ kind := RuleViolationKind.connectivity, index := none,
                         value := none,
                         cells := [⟨0, 2⟩, ⟨1, 2⟩, ⟨2, 2⟩] }] }) ∧
    (checkConnectivityOfUnshaded
        (stateOfShading [[false, true, false], [false, false, false], [false, true, false]]) =
      { ok := true, violations := [] }) := by
  refine ⟨fun state => checkConnectivity_char state, ?_, ?_⟩
  · simp [checkConnectivityOfUnshaded, bfsLoop, bfsStep, ruleDirs, unshadedPositions,
      gridIndices, stateOfShading, cellAt, get2, shAt, List.range_succ,
      List.filterMap_cons, List.filter_cons]
    try decide
  · simp [checkConnectivityOfUnshaded, bfsLoop, bfsStep, ruleDirs, unshadedPositions,
      gridIndices, stateOfShading, cellAt, get2, shAt, List.range_succ,
      List.filterMap_cons, List.filter_cons]
    try decide

/-- C4 witness: the characterization applied to the all-shaded 1x1 state. -/
theorem C4_witness :
    (unshadedPositions (stateOfShading [[true]]).grid).length ≤ 1 ∧
    checkConnectivityOfUnshaded (stateOfShading [[true]]) =
      { ok := true, violations := [] } :=
  ⟨by decide, (C4_connectivity_check.1 (stateOfShading [[true]])).1 (by decide)⟩

/-- C6: for every play state whose grid dimensions match its (well-formed)
puzzle, deserializing the result of serializing that state against the same
puzzle succeeds and reproduces a state with an identical cell-state matrix,
the same moves counter, and the same elapsedMs as the original. -/
theorem C6_serialize_roundtrip (state : HitoriGameState)
    (hwf : puzzleWF state.puzzle)
    (hsz : state.grid.size = state.puzzle.size)
    (hdims : dims2 state.grid.cells state.puzzle.size state.puzzle.size) :
    ∃ s2, deserializeState state.puzzle (serializeState state) = Except.ok s2 ∧
      s2.grid.cells.map (fun row => row.map (fun cell => cell.state)) =
        state.grid.cells.map (fun row => row.map (fun cell => cell.state)) ∧
      s2.moves = state.moves ∧ s2.elapsedMs = state.elapsedMs := by
  have hok := deserializeState_ok state.puzzle (serializeState state) hwf rfl
    (show state.puzzle.size = state.grid.size from hsz.symm)
    (by simpa [serializeState] using hdims.1)
    (by
      intro row hrow
      simp only [serializeState, List.mem_map] at hrow
      obtain ⟨orig, horig, hrw⟩ := hrow
      subst hrw
      simpa using hdims.2 orig horig)
  refine ⟨_, hok, ?_, rfl, rfl⟩
  have hsnap : dims2 (serializeState state).cellStates state.puzzle.size
      state.puzzle.size := by
    constructor
    · simpa [serializeState] using hdims.1
    · intro row hrow
      simp only [serializeState, List.mem_map] at hrow
      obtain ⟨orig, horig, hrw⟩ := hrow
      subst hrw
      simpa using hdims.2 orig horig
  show (deserCells state.puzzle (serializeState state)).map
      (fun row => row.map (fun cell => cell.state)) = _
  simp only [deserCells, List.map_map, Function.comp_def]
  exact rangeMap_get2_eq hsnap

/-- C6 witness: the round trip at a concrete 1x1 state with moves 5 and
elapsedMs 7. -/
theorem C6_witness :
    ∃ s2, deserializeState
        { id := "w", size := 1, numbers := [[1]],
          difficulty := PuzzleDifficulty.easy, hasUniqueSolution := none }
        (serializeState
          { puzzle := { id := "w", size := 1, numbers := [[1]],
                        difficulty := PuzzleDifficulty.easy, hasUniqueSolution := none }
            grid := { size := 1,
                      cells := [[{ row := 0, col := 0, value := 1,
                                   state := CellState.Shaded }]] }
            moves := 5, startTime := none, elapsedMs := 7 }) = Except.ok s2 ∧
      s2.grid.cells.map (fun row => row.map (fun cell => cell.state)) =
        [[CellState.Shaded]] ∧ s2.moves = 5 ∧ s2.elapsedMs = 7 := by
  obtain ⟨s2, h1, h2, h3, h4⟩ := C6_serialize_roundtrip
    { puzzle := { id := "w", size := 1, numbers := [[1]],
                  difficulty := PuzzleDifficulty.easy, hasUniqueSolution := none }
      grid := { size := 1,
                cells := [[{ row := 0, col := 0, value := 1,
                             state := CellState.Shaded }]] }
      moves := 5, startTime := none, elapsedMs := 7 }
    (by decide) rfl (by decide)
  exact ⟨s2, h1, h2, h3, h4⟩

/-- C7: for a well-formed puzzle definition and any serialized snapshot,
deserializeState fails iff the snapshot's puzzle id differs from the
puzzle's id, or the declared size differs from the puzzle's size, or the
stored cell-state matrix is not exactly size rows of size entries each; in
every other case it returns a play state without error. -/
theorem C7_deserialize_fails_iff (p : HitoriPuzzle) (snap : SerializableGameState)
    (hwf : puzzleWF p) :
    ((∃ msg, deserializeState p snap = Except.error msg) ↔
      (p.id ≠ snap.puzzleId ∨ p.size ≠ snap.size ∨
        snap.cellStates.length ≠ p.size ∨
        ∃ row ∈ snap.cellStates, row.length ≠ p.size)) ∧
    (¬(p.id ≠ snap.puzzleId ∨ p.size ≠ snap.size ∨
        snap.cellStates.length ≠ p.size ∨
        ∃ row ∈ snap.cellStates, row.length ≠ p.size) →
      ∃ s2, deserializeState p snap = Except.ok s2) := by
  by_cases h1 : p.id = snap.puzzleId
  · by_cases h2 : p.size = snap.size
    · by_cases h3 : snap.cellStates.length = p.size ∧
        ∀ row ∈ snap.cellStates, row.length = p.size
      · have hok := deserializeState_ok p snap hwf h1 h2 h3.1 h3.2
        constructor
        · constructor
          · rintro ⟨msg, hmsg⟩
            rw [hok] at hmsg
            exact absurd hmsg (by simp)
          · rintro (h | h | h | ⟨row, hrow, hne⟩)
            · exact absurd h1 h
            · exact absurd h2 h
            · exact absurd h3.1 h
            · exact absurd (h3.2 row hrow) hne
        · intro _
          exact ⟨_, hok⟩
      · have hbad : snap.cellStates.length ≠ p.size ∨
            ∃ row ∈ snap.cellStates, row.length ≠ p.size := by
          rw [not_and_or] at h3
          rcases h3 with h | h
          · exact Or.inl h
          · push_neg at h
            exact Or.inr h
        have herr := deserializeState_dims_mismatch p snap hwf h1 h2 hbad
        constructor
        · constructor
          · intro _
            exact Or.inr (Or.inr hbad)
          · intro _
            exact ⟨_, herr⟩
        · intro hcon
          exact absurd (Or.inr (Or.inr hbad)) hcon
    · have herr := deserializeState_size_mismatch p snap h1 h2
      constructor
      · constructor
        · intro _
          exact Or.inr (Or.inl h2)
        · intro _
          exact ⟨_, herr⟩
      · intro hcon
        exact absurd (Or.inr (Or.inl h2)) hcon
  · have herr := deserializeState_id_mismatch p snap h1
    constructor
    · constructor
      · intro _
        exact Or.inl h1
      · intro _
        exact ⟨_, herr⟩
    · intro hcon
      exact absurd (Or.inl h1) hcon

/-- C7 witness: a concrete size-mismatching snapshot fails, via the iff. -/
theorem C7_witness :
    ∃ msg, deserializeState
        { id := "w7", size := 1, numbers := [[1]],
          difficulty := PuzzleDifficulty.easy, hasUniqueSolution := none }
        { puzzleId := "w7", size := 2, cellStates := [[CellState.Unmarked]],
          moves := 0, elapsedMs := 0, startTime := none } = Except.error msg := by
  refine (C7_deserialize_fails_iff
    { id := "w7", size := 1, numbers := [[1]],
      difficulty := PuzzleDifficulty.easy, hasUniqueSolution := none }
    { puzzleId := "w7", size := 2, cellStates := [[CellState.Unmarked]],
      moves := 0, elapsedMs := 0, startTime := none }
    (by decide)).1.2 (Or.inr (Or.inl (by decide)))

/-- C3: checkRowColumnUniqueness reports ok iff there are no violations;
every violation is the violation of some (row, value) or (column, value)
group of non-Shaded cells with more than one member, carrying the kind, the
index, the value and all member positions; and for each (index, value) pair
there is exactly one such violation when the group repeats and none
otherwise (Shaded cells are excluded from the groups by construction).  On
the 2x2 grid [[1,1],[2,2]] with all cells Undecided it reports exactly two
violations, and after shading cells (0,1) and (1,0) it reports ok. -/
theorem C3_row_column_uniqueness :
    (∀ state : HitoriGameState,
      ((checkRowColumnUniqueness state).ok = true ↔
        (checkRowColumnUniqueness state).violations = []) ∧
      (∀ viol ∈ (checkRowColumnUniqueness state).violations,
        (∃ r v, r < state.grid.size ∧ 1 < (rowGroup state.grid r v).length ∧
          viol = { kind := RuleViolationKind.rowDuplicate, index := some r,
                   value := some v, cells := rowGroup state.grid r v }) ∨
        (∃ c v, c < state.grid.size ∧ 1 < (colGroup state.grid c v).length ∧
          viol = { kind := RuleViolationKind.columnDuplicate, index := some c,
                   value := some v, cells := colGroup state.grid c v })) ∧
      (∀ r v, r < state.grid.size →
        (checkRowColumnUniqueness state).violations.filter (fun viol =>
            decide (viol.kind = RuleViolationKind.rowDuplicate ∧
              viol.index = some r ∧ viol.value = some v)) =
          (if 1 < (rowGroup state.grid r v).length then
            [{ kind := RuleViolationKind.rowDuplicate, index := some r,
               value := some v, cells := rowGroup state.grid r v }]
          else [])) ∧
      (∀ c v, c < state.grid.size →
        (checkRowColumnUniqueness state).violations.filter (fun viol =>
            decide (viol.kind = RuleViolationKind.columnDuplicate ∧
              viol.index = some c ∧ viol.value = some v)) =
          (if 1 < (colGroup state.grid c v).length then
            [{ kind := RuleViolationKind.columnDuplicate, index := some c,
               value := some v, cells := colGroup state.grid c v }]
          else []))) ∧
    (checkRowColumnUniqueness (stateOfNumbers [[1, 1], [2, 2]]
      [[CellState.Unmarked, CellState.Unmarked],
       [CellState.Unmarked, CellState.Unmarked]])).violations.length = 2 ∧
    (checkRowColumnUniqueness (stateOfNumbers [[1, 1], [2, 2]]
      [[CellState.Unmarked, CellState.Shaded],
       [CellState.Shaded, CellState.Unmarked]])).ok = true :=
  ⟨rowColumnUniqueness_char, by decide, by decide⟩

/-- C3 witness: the filter characterization applied at the concrete 2x2
fixture, row 0, value 1. -/
theorem C3_witness :
    (0 : Nat) < (stateOfNumbers [[1, 1], [2, 2]]
      [[CellState.Unmarked, CellState.Unmarked],
       [CellState.Unmarked, CellState.Unmarked]]).grid.size ∧
    (checkRowColumnUniqueness (stateOfNumbers [[1, 1], [2, 2]]
        [[CellState.Unmarked, CellState.Unmarked],
         [CellState.Unmarked, CellState.Unmarked]])).violations.filter (fun viol =>
        decide (viol.kind = RuleViolationKind.rowDuplicate ∧
          viol.index = some 0 ∧ viol.value = some 1)) =
      (if 1 < (rowGroup (stateOfNumbers [[1, 1], [2, 2]]
          [[CellState.Unmarked, CellState.Unmarked],
           [CellState.Unmarked, CellState.Unmarked]]).grid 0 1).length then
        [{ kind := RuleViolationKind.rowDuplicate, index := some 0,
           value := some 1, cells := rowGroup (stateOfNumbers [[1, 1], [2, 2]]
             [[CellState.Unmarked, CellState.Unmarked],
              [CellState.Unmarked, CellState.Unmarked]]).grid 0 1 }]
      else []) :=
  ⟨by decide,
    (C3_row_column_uniqueness.1 (stateOfNumbers [[1, 1], [2, 2]]
      [[CellState.Unmarked, CellState.Unmarked],
       [CellState.Unmarked, CellState.Unmarked]])).2.2.1 0 1 (by decide)⟩

/-- C9: duplicate-resolution hints take strict priority.  Whenever the
duplicate strategy yields a hint, findHint returns exactly that hint and
its reason is duplicateResolution (so when both a duplicate pattern and an
adjacency pattern exist, the adjacency hint is never returned); the
adjacency strategy is consulted only when the duplicate strategy yields
none. -/
theorem C9_hint_priority :
    ∀ state : HitoriGameState,
      (∀ hd, findDuplicateResolutionHint state = some hd →
        findHint state = some hd ∧
        hd.reason = HitoriHintReason.duplicateResolution) ∧
      (findDuplicateResolutionHint state = none →
        findHint state = findAdjacentShadedHint state) := by
  intro state
  constructor
  · intro hd hdup
    exact ⟨(findHint_cases state).1 hd hdup, (findDupHint_sound state hd hdup).1⟩
  · exact (findHint_cases state).2

/-- C9 witness: a concrete 2x2 state exhibiting both a duplicate pattern
and an adjacent-shaded pattern; findHint returns the duplicate hint. -/
theorem C9_witness :
    findDuplicateResolutionHint (stateOfNumbers [[1, 1], [2, 2]]
      [[CellState.Kept, CellState.Unmarked], [CellState.Shaded, CellState.Shaded]]) =
      some { row := 0, col := 1, suggestedState := CellState.Shaded,
             reason := HitoriHintReason.duplicateResolution } ∧
    findAdjacentShadedHint (stateOfNumbers [[1, 1], [2, 2]]
      [[CellState.Kept, CellState.Unmarked], [CellState.Shaded, CellState.Shaded]]) =
      some { row := 1, col := 1, suggestedState := CellState.Unmarked,
             reason := HitoriHintReason.adjacentShaded } ∧
    (findHint (stateOfNumbers [[1, 1], [2, 2]]
        [[CellState.Kept, CellState.Unmarked], [CellState.Shaded, CellState.Shaded]]) =
      some { row := 0, col := 1, suggestedState := CellState.Shaded,
             reason := HitoriHintReason.duplicateResolution } ∧
      ({ row := 0, col := 1, suggestedState := CellState.Shaded,
         reason := HitoriHintReason.duplicateResolution } : HitoriHint).reason =
        HitoriHintReason.duplicateResolution) :=
  ⟨by decide, by decide,
    (C9_hint_priority (stateOfNumbers [[1, 1], [2, 2]]
      [[CellState.Kept, CellState.Unmarked],
       [CellState.Shaded, CellState.Shaded]])).1
      { row := 0, col := 1, suggestedState := CellState.Shaded,
        reason := HitoriHintReason.duplicateResolution } (by decide)⟩

/-- C10: a returned hint is never a no-op.  Whenever findHint returns a
hint, the current state of the targeted cell differs from the suggested
state: duplicate-resolution hints suggest Shaded or Kept for a cell that
is currently Unmarked, and adjacent-shaded hints suggest Unmarked for a
cell that is currently Shaded. -/
theorem C10_hints_change (state : HitoriGameState) (hint : HitoriHint)
    (h : findHint state = some hint) :
    (cellAt state.grid hint.row hint.col).state ≠ hint.suggestedState ∧
    (hint.reason = HitoriHintReason.duplicateResolution →
      (cellAt state.grid hint.row hint.col).state = CellState.Unmarked ∧
      (hint.suggestedState = CellState.Shaded ∨
        hint.suggestedState = CellState.Kept)) ∧
    (hint.reason = HitoriHintReason.adjacentShaded →
      (cellAt state.grid hint.row hint.col).state = CellState.Shaded ∧
      hint.suggestedState = CellState.Unmarked) := by
  cases hdup : findDuplicateResolutionHint state with
  | some hd =>
    have hfd : findHint state = some hd := (findHint_cases state).1 hd hdup
    rw [hfd] at h
    have hh := Option.some.inj h
    subst hh
    obtain ⟨hr, hsug, hcell⟩ := findDupHint_sound state hd hdup
    refine ⟨?_, ?_, ?_⟩
    · rw [hcell]
      rcases hsug with h2 | h2 <;> rw [h2] <;> decide
    · intro _
      exact ⟨hcell, hsug⟩
    · intro hra
      exact absurd (hr.symm.trans hra) (by decide)
  | none =>
    have heq : findHint state = findAdjacentShadedHint state :=
      (findHint_cases state).2 hdup
    rw [heq] at h
    obtain ⟨hr, hsug, hcell⟩ := findAdjHint_sound state hint h
    refine ⟨?_, ?_, ?_⟩
    · rw [hcell, hsug]
      decide
    · intro hrd
      exact absurd (hr.symm.trans hrd) (by decide)
    · intro _
      exact ⟨hcell, hsug⟩

/-- C10 witness: the no-no-op property at a concrete state whose hint
shades the Unmarked duplicate next to a Kept cell. -/
theorem C10_witness :
    findHint (stateOfNumbers [[1, 1], [2, 2]]
      [[CellState.Kept, CellState.Unmarked],
       [CellState.Unmarked, CellState.Unmarked]]) =
      some { row := 0, col := 1, suggestedState := CellState.Shaded,
             reason := HitoriHintReason.duplicateResolution } ∧
    ((cellAt (stateOfNumbers [[1, 1], [2, 2]]
        [[CellState.Kept, CellState.Unmarked],
         [CellState.Unmarked, CellState.Unmarked]]).grid 0 1).state ≠
        CellState.Shaded ∧
      (HitoriHintReason.duplicateResolution = HitoriHintReason.duplicateResolution →
        (cellAt (stateOfNumbers [[1, 1], [2, 2]]
          [[CellState.Kept, CellState.Unmarked],
           [CellState.Unmarked, CellState.Unmarked]]).grid 0 1).state =
          CellState.Unmarked ∧
        (CellState.Shaded = CellState.Shaded ∨ CellState.Shaded = CellState.Kept)) ∧
      (HitoriHintReason.duplicateResolution = HitoriHintReason.adjacentShaded →
        (cellAt (stateOfNumbers [[1, 1], [2, 2]]
          [[CellState.Kept, CellState.Unmarked],
           [CellState.Unmarked, CellState.Unmarked]]).grid 0 1).state =
          CellState.Shaded ∧
        CellState.Shaded = CellState.Unmarked)) :=
  ⟨by decide,
    C10_hints_change (stateOfNumbers [[1, 1], [2, 2]]
      [[CellState.Kept, CellState.Unmarked],
       [CellState.Unmarked, CellState.Unmarked]])
      { row := 0, col := 1, suggestedState := CellState.Shaded,
        reason := HitoriHintReason.duplicateResolution } (by decide)⟩

/-- C1: for every size >= 2, every difficulty, and every behaviour of the
random source (both draw streams and the id suffix), the generator returns
a puzzle (no internal error) whose numbers grid is size x size, whose
reference solution contains at least one shaded cell, and whose solution
passes all three checks of isValidSolution: row/column uniqueness of the
unshaded values, no adjacent shaded cells, and a single connected white
component. -/
theorem C1_generator_correct (rand rand2 : Nat → Nat) (idSuffix : String)
    (size : Nat) (difficulty : HitoriDifficulty) (hsz : 2 ≤ size) :
    ∃ result, generateHitoriPuzzleWithSolution rand rand2 idSuffix size difficulty =
        Except.ok result ∧
      result.puzzle.size = size ∧
      dims2 result.puzzle.numbers size size ∧
      (∃ x y, x < size ∧ y < size ∧ shAt result.solutionShaded x y = true) ∧
      violatesBlackAdjacency result.solutionShaded = false ∧
      isWhiteConnected result.solutionShaded = true ∧
      isValidSolution result.puzzle.numbers result.solutionShaded = true := by
  obtain ⟨hdimSH, hviolSH, hconnSH, hexSH⟩ :=
    buildShadingPattern_good rand size difficulty hsz
  have hlatlen : (buildLatinSquare size).length = size := by
    simp [buildLatinSquare]
  have hlat2 : dims2 (buildLatinSquare size) (buildLatinSquare size).length
      (buildLatinSquare size).length := by
    rw [hlatlen]
    exact dims2_buildLatinSquare size
  obtain ⟨hdimN0, hwhiteN0⟩ := buildNumbers_inv rand2 (buildLatinSquare size)
    (buildShadingPattern rand size difficulty) hlat2
  rw [hlatlen] at hdimN0
  have hwhiteN : ∀ x y, x < size → y < size →
      shAt (buildShadingPattern rand size difficulty) x y = false →
      get2 (buildNumbersFromSolution rand2 (buildLatinSquare size)
        (buildShadingPattern rand size difficulty)) y x = (x + y) % size + 1 := by
    intro x y hx hy hw
    rw [hwhiteN0 x y hw, get2_buildLatinSquare hy hx]
  have hvalid := isValidSolution_true
    (buildNumbersFromSolution rand2 (buildLatinSquare size)
      (buildShadingPattern rand size difficulty))
    (buildShadingPattern rand size difficulty) size hdimN0 hwhiteN hviolSH hconnSH
  refine ⟨{ puzzle := { id := buildRandomPuzzleId idSuffix size difficulty
                        size := size
                        difficulty := difficulty
                        numbers := buildNumbersFromSolution rand2 (buildLatinSquare size)
                          (buildShadingPattern rand size difficulty) }
            solutionShaded := buildShadingPattern rand size difficulty },
    ?_, rfl, hdimN0, hexSH, hviolSH, hconnSH, hvalid⟩
  simp only [generateHitoriPuzzleWithSolution]
  rw [if_neg (show ¬size < 2 by omega), hvalid]
  rw [if_neg (by decide)]

/-- C1 witness: the generator theorem applied at size 2, difficulty easy,
and the all-zero random streams. -/
theorem C1_witness :
    2 ≤ 2 ∧
    ∃ result, generateHitoriPuzzleWithSolution (fun _ => 0) (fun _ => 0) "s" 2
        HitoriDifficulty.easy = Except.ok result ∧
      result.puzzle.size = 2 ∧
      dims2 result.puzzle.numbers 2 2 ∧
      (∃ x y, x < 2 ∧ y < 2 ∧ shAt result.solutionShaded x y = true) ∧
      violatesBlackAdjacency result.solutionShaded = false ∧
      isWhiteConnected result.solutionShaded = true ∧
      isValidSolution result.puzzle.numbers result.solutionShaded = true :=
  ⟨by decide, C1_generator_correct (fun _ => 0) (fun _ => 0) "s" 2
    HitoriDifficulty.easy (by decide)⟩

end Hitori
